import Mathlib

/-!
# Elastic Agent: the self-upgrade control path

A shallow embedding of `internal/pkg/agent/application/upgrade` (`upgrade.go`,
`step_download.go`), of the handlers of the settings and upgrade actions, of
the start of the managed mode, of the fleet acker, of the commands `uninstall`
and `run` (the encryption of the configuration) and of the zip installer.
Every Go function that talks to the outside world is a function
`World → result × World`: the `World` carries the part of the disk the
upgrader manages and the chronological list of calls made on collaborators.
The outcome of a collaborator call (an error or none) is read from the
`Upgrader` value (its acker and capability) or from the package environment
`Env` (release constants, paths, the OS and the helpers of the package).
-/

namespace ElasticAgent

/-! ## Go standard library pieces -/

/-- Go `strings.HasPrefix(s, p)`. -/
def strings.HasPrefix (s p : String) : Bool := p.data.isPrefixOf s.data

/-- Go `strings.HasSuffix(s, p)`. -/
def strings.HasSuffix (s p : String) : Bool := p.data.reverse.isPrefixOf s.data.reverse

/-- Go `strings.TrimPrefix(s, p)`. -/
def strings.TrimPrefix (s p : String) : String :=
  if strings.HasPrefix s p then String.mk (s.data.drop p.data.length) else s

/-- A cleaned file path, as its list of components. -/
abbrev Path := List String

/-- The `filepath.Dir` of a cleaned path. -/
def Path.dir (p : Path) : Path := p.dropLast

/-- The `filepath.Base` of a cleaned path. -/
def Path.base (p : Path) : String := p.getLast?.getD "."

/-- The `filepath.Join` of a cleaned path and one more element. -/
def Path.join (p : Path) (name : String) : Path := p ++ [name]

/-! ## Data -/

/-- Go `error` values that are not nil. -/
inductive Err where
  /-- An error produced by a collaborator. -/
  | other (tag : String)
  /-- The result of `fmt.Errorf(text)` or `errors.New(text)`. -/
  | errorf (text : String)
  /-- The result of `errors.New(err, msg)` of the agent errors package. -/
  | wrap (inner : Err) (msg : String)
  /-- Two errors accumulated by a composed source. -/
  | join (first second : Err)
  deriving DecidableEq, Repr

/-- The fields of `program.Spec` set by `agentSpec`. -/
structure Spec where
  name : String
  cmd : String
  artifact : String
  deriving DecidableEq, Repr

/-- The fields of `artifact.Config` read by the upgrade package. -/
structure Config where
  sourceURI : String
  dropPath : String
  targetDirectory : String
  installPath : String
  deriving DecidableEq, Repr

/-- A `fleetapi.ActionUpgrade`. -/
structure ActionUpgrade where
  actionID : String
  actionType : String
  startTime : String
  expiration : String
  version : String
  sourceURI : String
  deriving DecidableEq, Repr

/-- The interface `upgrade.Action`: the results of its three methods.
`fleetAction` is none for a manual upgrade. -/
structure Action where
  version : String
  sourceURI : String
  fleetAction : Option ActionUpgrade
  deriving DecidableEq, Repr

/-- The values of `state.Status` the upgrader reports. -/
inductive Status where
  | Healthy
  | Failed
  | Updating
  deriving DecidableEq, Repr

/-- A `state.State`: the fields the upgrader sets. -/
structure State where
  status : Status
  message : String
  deriving DecidableEq, Repr

/-- The upgrade marker: previous hash, new hash, the triggering action (none
for a manual upgrade) and the acked bit. -/
structure UpdateMarker where
  prevHash : String
  hash : String
  action : Option ActionUpgrade
  acked : Bool
  deriving DecidableEq, Repr

/-- A `reexec.ShutdownCallbackFn` built by `shutdownCallback`: the values the
closure captures. -/
structure ShutdownCallbackFn where
  homePath : Path
  prevVersion : String
  newVersion : String
  newHash : String
  deriving DecidableEq, Repr

/-- A leaf `download.Downloader`. -/
inductive Downloader where
  | fs (config : Config)
  | snapshot (config : Config) (version : String)
  | http (config : Config)
  deriving DecidableEq, Repr

/-- A leaf `download.Verifier`, with the two values of `release.PGP()`. -/
inductive Verifier where
  | fs (config : Config) (allowEmptyPgp : Bool) (pgp : String)
  | snapshot (config : Config) (allowEmptyPgp : Bool) (pgp : String) (version : String)
  | http (config : Config) (allowEmptyPgp : Bool) (pgp : String)
  deriving DecidableEq, Repr

/-- A call that has returned, with its arguments and its result.  Calls on
collaborators and the calls of the package the properties speak of. -/
inductive Call where
  | ackerAck (action : Option ActionUpgrade) (err : Option Err)
  | ackerCommit (err : Option Err)
  | OnStateChange (id : String) (name : String) (s : State)
  | cleanNonMatchingVersionsFromDownloads (version : String) (err : Option Err)
  | capsApply (a : Action) (blocked : Bool)
  | sourceDownload (d : Downloader) (spec : Spec) (version : String) (res : String × Option Err)
  | fetcherDownload (spec : Spec) (version : String) (res : String × Option Err)
  | sourceVerify (v : Verifier) (spec : Spec) (version : String) (err : Option Err)
  | verifierVerify (spec : Spec) (version : String) (err : Option Err)
  | downloadArtifact (version : String) (sourceURI : String) (res : String × Option Err)
  | unpack (version : String) (archivePath : String) (res : String × Option Err)
  | copyActionStore (newHash : String) (err : Option Err)
  | ChangeSymlink (hash : String) (err : Option Err)
  | RemoveAll (path : Path) (err : Option Err)
  | markUpgrade (hash : String) (a : Action) (err : Option Err)
  | InvokeWatcher (err : Option Err)
  | ReExec (cb : ShutdownCallbackFn)
  | LoadMarker (res : Option UpdateMarker × Option Err)
  | saveMarker (m : UpdateMarker) (err : Option Err)
  deriving DecidableEq, Repr

/-- The part of the disk the upgrader manages: files and directories by path
(install trees, the action-store files), the hash of the install the stable
symlink points at, and the upgrade marker. -/
structure Disk where
  files : List (Path × String)
  dirs : List Path
  symlink : String
  marker : Option UpdateMarker
  deriving DecidableEq, Repr

/-- The disk together with the calls that have returned so far, oldest first. -/
structure World where
  disk : Disk
  calls : List Call
  deriving DecidableEq, Repr

/-- Record one call. -/
def World.log (w : World) (c : Call) : World := { w with calls := w.calls ++ [c] }

/-- The world of a disk before any call. -/
def World.start (d : Disk) : World := { disk := d, calls := [] }

/-- The interface `acker`: what `Ack` and `Commit` return. -/
structure Acker where
  Ack : Option ActionUpgrade → Option Err
  Commit : Option Err

/-- The `Upgrader`: its capability (none for a nil `caps`; otherwise whether
`Apply` returns an error that is `ErrBlocked`), acker, settings, the version of
`agentInfo` and the `upgradeable` flag.  The reporter and the re-exec manager
return nothing and appear as calls only. -/
structure Upgrader where
  caps : Option (Action → Bool)
  acker : Acker
  settings : Config
  agentVersion : String
  upgradeable : Bool

/-- The package environment: the `release` and `paths` packages, the text of an
error, and the outcome of every call that leaves the two source files. -/
structure Env where
  releaseCommit : String
  releaseShortCommit : String
  releaseVersion : String
  releaseSnapshot : Bool
  releaseTrimCommit : String → String
  releasePGP : Bool × String
  pathsData : Path
  pathsHome : Path
  pathsDownloads : Path
  pathsAgentActionStoreFile : Path
  pathsAgentStateStoreYmlFile : Path
  pathsAgentStateStoreFile : Path
  errorText : Err → String
  cleanDownloadsErr : String → Option Err
  newDownloaderErr : Downloader → Option Err
  newVerifierErr : Verifier → Option Err
  downloadRes : Downloader → Spec → String → String × Option Err
  verifyErr : Verifier → Spec → String → Option Err
  unpackRes : String → String → String × Option Err
  unpackFiles : String → String → List (Path × String)
  readFileErr : Path → Option Err
  writeFileErr : Path → Option Err
  removeAllErr : Path → Option Err
  changeSymlinkErr : String → Option Err
  markUpgradeErr : String → Action → Option Err
  invokeWatcherErr : Option Err
  loadMarkerErr : Option Err
  saveMarkerErr : UpdateMarker → Option Err

/-! ## The operating system -/

/-- The three outcomes of `os.ReadFile` the code distinguishes. -/
inductive ReadResult where
  | ok (content : String)
  | notExist
  | failed (err : Err)
  deriving DecidableEq, Repr

/-- Go `os.ReadFile`. -/
def os.ReadFile (env : Env) (p : Path) (d : Disk) : ReadResult :=
  match env.readFileErr p with
  | some err => .failed err
  | none =>
    match d.files.lookup p with
    | some content => .ok content
    | none => .notExist

/-- Go `os.WriteFile`: on success the file holds the new content. -/
def os.WriteFile (env : Env) (p : Path) (content : String) (d : Disk) : Option Err × Disk :=
  match env.writeFileErr p with
  | some err => (some err, d)
  | none => (none, { d with files := (p, content) :: d.files.filter (fun f => !(f.1 == p)) })

/-- What is left of a disk after everything at or below a path is removed. -/
def Disk.removeAll (d : Disk) (p : Path) : Disk :=
  { d with
    files := d.files.filter (fun f => !(p.isPrefixOf f.1))
    dirs := d.dirs.filter (fun q => !(p.isPrefixOf q)) }

/-- The disk after `os.RemoveAll`: on success nothing at or below the path is
left; on an error the disk is taken as left untouched. -/
def os.RemoveAll.effect (env : Env) (p : Path) (d : Disk) : Disk :=
  match env.removeAllErr p with
  | some _ => d
  | none => d.removeAll p

/-- Go `os.RemoveAll`. -/
def os.RemoveAll (env : Env) (p : Path) (w : World) : Option Err × World :=
  (env.removeAllErr p,
    { disk := os.RemoveAll.effect env p w.disk
      calls := w.calls ++ [.RemoveAll p (env.removeAllErr p)] })

/-! ## Helpers of the package that live in other files -/

/-- The constant `agentName`. -/
def agentName : String := "elastic-agent"

/-- The variable `agentSpec`. -/
def agentSpec : Spec :=
  { name := "Elastic Agent", cmd := agentName, artifact := "beats/" ++ agentName }

/-- The directory name `fmt.Sprintf("%s-%s", agentName, hash)`. -/
def versionedName (hash : String) : String := agentName ++ "-" ++ hash

/-- Modelled from the spec: `cleanNonMatchingVersionsFromDownloads` (the
CleanDownloads state) is not in the sources read here.  It works inside the
downloads directory only, which `Disk` does not track: a call and its outcome. -/
def cleanNonMatchingVersionsFromDownloads (env : Env) (version : String) (w : World) :
    Option Err × World :=
  (env.cleanDownloadsErr version,
    w.log (.cleanNonMatchingVersionsFromDownloads version (env.cleanDownloadsErr version)))

/-- The disk after an archive was unpacked into the install tree of a hash. -/
def Disk.unpacked (d : Disk) (tree : Path) (extracted : List (Path × String)) : Disk :=
  { d with
    dirs := tree :: d.dirs
    files := extracted.map (fun f => (tree ++ f.1, f.2)) ++ d.files }

/-- The install tree of a hash: `filepath.Join(paths.Data(), "<name>-<hash>")`. -/
def treePath (env : Env) (hash : String) : Path := Path.join env.pathsData (versionedName hash)

/-- Modelled from the spec: the disk after `Upgrader.unpack`.  "Unpack extracts
into a content-addressed directory `<name>-<short-hash>`" under the data path;
on an error nothing is extracted. -/
def Upgrader.unpack.effect (env : Env) (version archivePath : String) (d : Disk) : Disk :=
  match (env.unpackRes version archivePath).2 with
  | some _ => d
  | none =>
    d.unpacked (treePath env (env.unpackRes version archivePath).1)
      (env.unpackFiles version archivePath)

/-- Modelled from the spec: `Upgrader.unpack` is not in the sources read here.
It returns the hash of the unpacked archive and an error. -/
def Upgrader.unpack (env : Env) (version archivePath : String) (w : World) :
    (String × Option Err) × World :=
  (env.unpackRes version archivePath,
    { disk := Upgrader.unpack.effect env version archivePath w.disk
      calls := w.calls ++ [.unpack version archivePath (env.unpackRes version archivePath)] })

/-- Modelled from the spec: the disk after `ChangeSymlink`.  "SwapSymlink
atomically repoints the stable executable symlink at the new directory": on
success the symlink points at the install of the given hash, on an error it is
left as it was. -/
def ChangeSymlink.effect (env : Env) (targetHash : String) (d : Disk) : Disk :=
  match env.changeSymlinkErr targetHash with
  | some _ => d
  | none => { d with symlink := targetHash }

/-- Modelled from the spec: `ChangeSymlink` is not in the sources read here. -/
def ChangeSymlink (env : Env) (targetHash : String) (w : World) : Option Err × World :=
  (env.changeSymlinkErr targetHash,
    { disk := ChangeSymlink.effect env targetHash w.disk
      calls := w.calls ++ [.ChangeSymlink targetHash (env.changeSymlinkErr targetHash)] })

/-- The marker `markUpgrade` writes for an upgrade to `hash`. -/
def newMarker (env : Env) (hash : String) (a : Action) : UpdateMarker :=
  { prevHash := env.releaseShortCommit, hash := hash, action := a.fleetAction, acked := false }

/-- Modelled from the spec: the disk after `Upgrader.markUpgrade`.  The
UpgradeMarker (prev_hash, new_hash, action, acked) is "written before re-exec",
not yet acked.  The spec says neither where the marker lives nor what a failing
call leaves: the marker is kept apart from the files, and a failing call is
taken to leave it as it was. -/
def Upgrader.markUpgrade.effect (env : Env) (hash : String) (a : Action) (d : Disk) : Disk :=
  match env.markUpgradeErr hash a with
  | some _ => d
  | none => { d with marker := some (newMarker env hash a) }

/-- Modelled from the spec: `Upgrader.markUpgrade` is not in the sources read
here. -/
def Upgrader.markUpgrade (env : Env) (hash : String) (a : Action) (w : World) :
    Option Err × World :=
  (env.markUpgradeErr hash a,
    { disk := Upgrader.markUpgrade.effect env hash a w.disk
      calls := w.calls ++ [.markUpgrade hash a (env.markUpgradeErr hash a)] })

/-- Modelled from the spec: `InvokeWatcher` is not in the sources read here.
It "spawns a separately-executing watchdog": a call and its outcome. -/
def InvokeWatcher (env : Env) (w : World) : Option Err × World :=
  (env.invokeWatcherErr, w.log (.InvokeWatcher env.invokeWatcherErr))

/-- Modelled from the spec: what `LoadMarker` returns.  The marker is
"consulted on next startup": the marker on disk (nil when there is none), or an
error. -/
def LoadMarker.result (env : Env) (d : Disk) : Option UpdateMarker × Option Err :=
  match env.loadMarkerErr with
  | some err => (none, some err)
  | none => (d.marker, none)

/-- Modelled from the spec: `LoadMarker` is not in the sources read here. -/
def LoadMarker (env : Env) (w : World) : (Option UpdateMarker × Option Err) × World :=
  (LoadMarker.result env w.disk, w.log (.LoadMarker (LoadMarker.result env w.disk)))

/-- Modelled from the spec: the disk after `saveMarker`.  On success the marker
on disk is the given one; on an error it is left as it was. -/
def saveMarker.effect (env : Env) (marker : UpdateMarker) (d : Disk) : Disk :=
  match env.saveMarkerErr marker with
  | some _ => d
  | none => { d with marker := some marker }

/-- Modelled from the spec: `saveMarker` is not in the sources read here. -/
def saveMarker (env : Env) (marker : UpdateMarker) (w : World) : Option Err × World :=
  (env.saveMarkerErr marker,
    { disk := saveMarker.effect env marker w.disk
      calls := w.calls ++ [.saveMarker marker (env.saveMarkerErr marker)] })

/-! ## step_download.go -/

/-- Accumulate the error of one more failed source. -/
def appendErr (acc : Option Err) (e : Err) : Err :=
  match acc with
  | none => e
  | some first => .join first e

/-- Modelled from the spec: the composed downloader is not in the sources read
here.  "The composed fetcher tries each in order; the first to return a valid
archive wins; each failure is logged and the next attempted." -/
def composedDownload (env : Env) (spec : Spec) (version : String) :
    List Downloader → Option Err → World → (String × Option Err) × World
  | [], acc, w => (("", acc), w)
  | d :: rest, acc, w =>
    match env.downloadRes d spec version with
    | (path, none) => ((path, none), w.log (.sourceDownload d spec version (path, none)))
    | (path, some e) =>
      composedDownload env spec version rest (some (appendErr acc e))
        (w.log (.sourceDownload d spec version (path, some e)))

/-- Modelled from the spec: the composed verifier is not in the sources read
here.  "A sequence of sources iterated in order; first success wins." -/
def composedVerify (env : Env) (spec : Spec) (version : String) :
    List Verifier → Option Err → World → Option Err × World
  | [], acc, w => (acc, w)
  | v :: rest, acc, w =>
    match env.verifyErr v spec version with
    | none => (none, w.log (.sourceVerify v spec version none))
    | some e =>
      composedVerify env spec version rest (some (appendErr acc e))
        (w.log (.sourceVerify v spec version (some e)))

/-- The method `Download` of the fetcher `newDownloader` built. -/
def fetcherDownload (env : Env) (fetcher : List Downloader) (spec : Spec) (version : String)
    (w : World) : (String × Option Err) × World :=
  match composedDownload env spec version fetcher none w with
  | (res, w) => (res, w.log (.fetcherDownload spec version res))

/-- The method `Verify` of the verifier `newVerifier` built. -/
def verifierVerify (env : Env) (verifier : List Verifier) (spec : Spec) (version : String)
    (w : World) : Option Err × World :=
  match composedVerify env spec version verifier none w with
  | (err, w) => (err, w.log (.verifierVerify spec version err))

/-- Modelled from the spec: `localremote.NewDownloader` is not in the sources
read here.  "release → composed(local-FS, HTTPS)". -/
def localremote.NewDownloader (env : Env) (settings : Config) : Except Err (List Downloader) :=
  match env.newDownloaderErr (.http settings) with
  | some err => .error err
  | none => .ok [.fs settings, .http settings]

/-- Modelled from the spec: `localremote.NewVerifier` is not in the sources
read here.  The verifier of the release composition (local-FS, HTTPS). -/
def localremote.NewVerifier (env : Env) (settings : Config) (allowEmptyPgp : Bool)
    (pgp : String) : Except Err (List Verifier) :=
  match env.newVerifierErr (.fs settings allowEmptyPgp pgp) with
  | some err => .error err
  | none =>
    match env.newVerifierErr (.http settings allowEmptyPgp pgp) with
    | some err => .error err
    | none => .ok [.fs settings allowEmptyPgp pgp, .http settings allowEmptyPgp pgp]

/-- Go `newDownloader`: the composed downloader (its sources in order), or an
error. -/
def newDownloader (env : Env) (version : String) (settings : Config) :
    Except Err (List Downloader) :=
  if !strings.HasSuffix version "-SNAPSHOT" then
    localremote.NewDownloader env settings
  else
    match env.newDownloaderErr (.snapshot settings version) with
    | some err => .error err
    | none =>
      match env.newDownloaderErr (.http settings) with
      | some err => .error err
      | none => .ok [.fs settings, .snapshot settings version, .http settings]

/-- Go `newVerifier`: the composed verifier (its sources in order), or an
error. -/
def newVerifier (env : Env) (version : String) (settings : Config) :
    Except Err (List Verifier) :=
  let allowEmptyPgp := env.releasePGP.1
  let pgp := env.releasePGP.2
  if !strings.HasSuffix version "-SNAPSHOT" then
    localremote.NewVerifier env settings allowEmptyPgp pgp
  else
    match env.newVerifierErr (.fs settings allowEmptyPgp pgp) with
    | some err => .error err
    | none =>
      match env.newVerifierErr (.snapshot settings allowEmptyPgp pgp version) with
      | some err => .error err
      | none =>
        match env.newVerifierErr (.http settings allowEmptyPgp pgp) with
        | some err => .error err
        | none =>
          .ok [.fs settings allowEmptyPgp pgp, .snapshot settings allowEmptyPgp pgp version,
            .http settings allowEmptyPgp pgp]

/-- The configuration a downloader was built with. -/
def Downloader.config : Downloader → Config
  | .fs config => config
  | .snapshot config _ => config
  | .http config => config

/-- The configuration a verifier was built with. -/
def Verifier.config : Verifier → Config
  | .fs config _ _ => config
  | .snapshot config _ _ _ => config
  | .http config _ _ => config

/-- The two `artifact.Config` values `downloadArtifact` reaches: the one
`u.settings` points at and its local variable `settings`. -/
structure SettingsStore where
  upgrader : Config
  settings : Config
  deriving DecidableEq, Repr

/-- The first statements of `downloadArtifact`: the copy
`settings := *u.settings`, then the assignments to the fields of the copy. -/
def downloadArtifact.settingsStore (u : Upgrader) (sourceURI : String) : SettingsStore :=
  let store : SettingsStore := { upgrader := u.settings, settings := u.settings }
  if sourceURI != "" then
    if strings.HasPrefix sourceURI "file://" then
      { store with
        settings := { store.settings with dropPath := strings.TrimPrefix sourceURI "file://" } }
    else
      { store with settings := { store.settings with sourceURI := sourceURI } }
  else
    store

/-- The private copy of the settings `downloadArtifact` works on: its local
variable `settings` after the assignments. -/
def downloadSettings (u : Upgrader) (sourceURI : String) : Config :=
  (downloadArtifact.settingsStore u sourceURI).settings

/-- The statements of `Upgrader.downloadArtifact`, before its return is
recorded: the result, the two `artifact.Config` values as the call leaves them,
and the world.  The verifier and the fetcher get the address of the local
variable. -/
def Upgrader.downloadArtifactSteps (env : Env) (u : Upgrader) (version sourceURI : String)
    (w : World) : ((String × Option Err) × SettingsStore) × World :=
  let store := downloadArtifact.settingsStore u sourceURI
  match newVerifier env version store.settings with
  | .error err => ((("", some (.wrap err "initiating verifier")), store), w)
  | .ok verifier =>
    match newDownloader env version store.settings with
    | .error err => ((("", some (.wrap err "initiating fetcher")), store), w)
    | .ok fetcher =>
      match fetcherDownload env fetcher agentSpec version w with
      | ((_, some err), w) =>
        ((("", some (.wrap err "failed upgrade of agent binary")), store), w)
      | ((path, none), w) =>
        match verifierVerify env verifier agentSpec version w with
        | (some err, w) =>
          ((("", some (.wrap err "failed verification of agent binary")), store), w)
        | (none, w) => (((path, none), store), w)

/-- The statements of `Upgrader.downloadArtifact`, before its return is
recorded: the result and the world. -/
def Upgrader.downloadArtifactBody (env : Env) (u : Upgrader) (version sourceURI : String)
    (w : World) : (String × Option Err) × World :=
  match Upgrader.downloadArtifactSteps env u version sourceURI w with
  | ((res, _), w) => (res, w)

/-- Go `Upgrader.downloadArtifact`: the archive path and the error. -/
def Upgrader.downloadArtifact (env : Env) (u : Upgrader) (version sourceURI : String)
    (w : World) : (String × Option Err) × World :=
  match Upgrader.downloadArtifactBody env u version sourceURI w with
  | (res, w) => (res, w.log (.downloadArtifact version sourceURI res))

/-! ## upgrade.go -/

/-- Go `Upgrader.sourceURI`. -/
def Upgrader.sourceURI (u : Upgrader) (retrievedURI : String) : String :=
  if retrievedURI != "" then retrievedURI else u.settings.sourceURI

/-- Go `Upgrader.ackAction`: ack, commit, then report Healthy; the first error
stops it. -/
def Upgrader.ackAction (u : Upgrader) (action : Option ActionUpgrade) (w : World) :
    Option Err × World :=
  match u.acker.Ack action with
  | some err => (some err, w.log (.ackerAck action (some err)))
  | none =>
    let w := w.log (.ackerAck action none)
    match u.acker.Commit with
    | some err => (some err, w.log (.ackerCommit (some err)))
    | none =>
      let w := w.log (.ackerCommit none)
      (none, w.log (.OnStateChange "" agentName { status := .Healthy, message := "" }))

/-- Go `Upgrader.reportFailure`: ack the action (the result is dropped) and
report Failed with the text of the error. -/
def Upgrader.reportFailure (env : Env) (u : Upgrader) (action : ActionUpgrade) (err : Err)
    (w : World) : World :=
  let w := w.log (.ackerAck (some action) (u.acker.Ack (some action)))
  w.log (.OnStateChange "" agentName { status := .Failed, message := env.errorText err })

/-- Go `Upgrader.reportUpdating`. -/
def Upgrader.reportUpdating (version : String) (w : World) : World :=
  w.log (.OnStateChange "" agentName
    { status := .Updating, message := "Update to version '" ++ version ++ "' started" })

/-- Go `rollbackInstall`: remove the install tree of the hash under the data
path, then point the symlink back at `release.ShortCommit()`; both results are
dropped. -/
def rollbackInstall (env : Env) (hash : String) (w : World) : World :=
  let w := (os.RemoveAll env (treePath env hash) w).2
  (ChangeSymlink env env.releaseShortCommit w).2

/-- The loop of `copyActionStore` over the store paths. -/
def copyActionStoreLoop (env : Env) (newHome : Path) : List Path → Disk → Option Err × Disk
  | [], d => (none, d)
  | currentActionStorePath :: rest, d =>
    let newActionStorePath := Path.join newHome (Path.base currentActionStorePath)
    match os.ReadFile env currentActionStorePath d with
    | .notExist => copyActionStoreLoop env newHome rest d
    | .failed err => (some err, d)
    | .ok currentActionStore =>
      match os.WriteFile env newActionStorePath currentActionStore d with
      | (some err, d) => (some err, d)
      | (none, d) => copyActionStoreLoop env newHome rest d

/-- The files `copyActionStore` copies: `storePaths`. -/
def storePaths (env : Env) : List Path :=
  [env.pathsAgentActionStoreFile, env.pathsAgentStateStoreYmlFile, env.pathsAgentStateStoreFile]

/-- The directory `copyActionStore` copies into: `newHome`. -/
def newHome (env : Env) (newHash : String) : Path :=
  Path.join (Path.dir env.pathsHome) (versionedName newHash)

/-- The statements of `copyActionStore` on the disk: the error and the disk. -/
def copyActionStore.run (env : Env) (newHash : String) (d : Disk) : Option Err × Disk :=
  copyActionStoreLoop env (newHome env newHash) (storePaths env) d

/-- Go `copyActionStore`. -/
def copyActionStore (env : Env) (newHash : String) (w : World) : Option Err × World :=
  ((copyActionStore.run env newHash w.disk).1,
    { disk := (copyActionStore.run env newHash w.disk).2
      calls := w.calls ++ [.copyActionStore newHash (copyActionStore.run env newHash w.disk).1] })

/-- Go `shutdownCallback`: the closure, as the values it captures. -/
def shutdownCallback (env : Env) (homePath : Path) (prevVersion newVersion newHash : String) :
    ShutdownCallbackFn :=
  let prevVersion := if env.releaseSnapshot then prevVersion ++ "-SNAPSHOT" else prevVersion
  { homePath := homePath, prevVersion := prevVersion, newVersion := newVersion,
    newHash := newHash }

/-- The capability check of `Upgrader.Upgrade`: whether `caps` is not nil and
`Apply` returns an error that is `ErrBlocked`. -/
def Upgrader.capsBlocked (u : Upgrader) (a : Action) (w : World) : Bool × World :=
  match u.caps with
  | some apply => (apply a, w.log (.capsApply a (apply a)))
  | none => (false, w)

/-- The body of `Upgrader.Upgrade`, before the deferred functions run: the
callback, the error, and the world. -/
def Upgrader.upgradeBody (env : Env) (u : Upgrader) (a : Action) (reexecNow : Bool)
    (w : World) : (Option ShutdownCallbackFn × Option Err) × World :=
  if !u.upgradeable then
    ((none, some (.errorf ("cannot be upgraded; must be installed with install sub-command and "
      ++ "running under control of the systems supervisor"))), w)
  else
    let w := (cleanNonMatchingVersionsFromDownloads env u.agentVersion w).2
    match u.capsBlocked a w with
    | (true, w) => ((none, none), w)
    | (false, w) =>
      let w := Upgrader.reportUpdating a.version w
      let sourceURI := u.sourceURI a.sourceURI
      match Upgrader.downloadArtifact env u a.version sourceURI w with
      | ((_, some err), w) =>
        let w := (cleanNonMatchingVersionsFromDownloads env u.agentVersion w).2
        ((none, some err), w)
      | ((archivePath, none), w) =>
        match Upgrader.unpack env a.version archivePath w with
        | ((_, some err), w) => ((none, some err), w)
        | ((newHash, none), w) =>
          if newHash == "" then ((none, some (.errorf "unknown hash")), w)
          else if strings.HasPrefix env.releaseCommit newHash then
            match a.fleetAction with
            | some action => ((none, none), (u.ackAction (some action) w).2)
            | none => ((none, none), w)
          else
            match copyActionStore env newHash w with
            | (some err, w) => ((none, some (.wrap err "failed to copy action store")), w)
            | (none, w) =>
              match ChangeSymlink env newHash w with
              | (some err, w) => ((none, some err), rollbackInstall env newHash w)
              | (none, w) =>
                match Upgrader.markUpgrade env newHash a w with
                | (some err, w) => ((none, some err), rollbackInstall env newHash w)
                | (none, w) =>
                  match InvokeWatcher env w with
                  | (some err, w) =>
                    ((none, some (.wrap err "failed to invoke rollback watcher")),
                      rollbackInstall env newHash w)
                  | (none, w) =>
                    let trimmedNewHash := env.releaseTrimCommit newHash
                    let cb := shutdownCallback env env.pathsHome env.releaseVersion a.version
                      trimmedNewHash
                    if reexecNow then
                      let w := (os.RemoveAll env env.pathsDownloads w).2
                      ((none, none), w.log (.ReExec cb))
                    else
                      let w := (os.RemoveAll env env.pathsDownloads w).2
                      ((some cb, none), w)

/-- The deferred function of `Upgrader.Upgrade`: when the returned error is not
nil and the action has a fleet action, report the failure. -/
def Upgrader.upgradeDeferred (env : Env) (u : Upgrader) (a : Action) (err : Option Err)
    (w : World) : World :=
  match err with
  | some e =>
    match a.fleetAction with
    | some action => u.reportFailure env action e w
    | none => w
  | none => w

/-- Go `Upgrader.Upgrade`: the body, then the deferred function on the named
result `err`. -/
def Upgrader.Upgrade (env : Env) (u : Upgrader) (a : Action) (reexecNow : Bool) (w : World) :
    (Option ShutdownCallbackFn × Option Err) × World :=
  match Upgrader.upgradeBody env u a reexecNow w with
  | ((cb, err), w) => ((cb, err), u.upgradeDeferred env a err w)

/-- Go `Upgrader.Ack`. -/
def Upgrader.Ack (env : Env) (u : Upgrader) (w : World) : Option Err × World :=
  match LoadMarker env w with
  | ((_, some err), w) => (some err, w)
  | ((none, none), w) => (none, w)
  | ((some marker, none), w) =>
    if marker.acked then (none, w)
    else
      match u.ackAction marker.action w with
      | (some err, w) => (some err, w)
      | (none, w) => saveMarker env { marker with acked := true } w

/-! ## Kinds of calls -/

/-- A call of `acker.Ack`. -/
def Call.isAckerAck : Call → Bool
  | .ackerAck _ _ => true
  | _ => false

/-- A call of `acker.Commit`. -/
def Call.isAckerCommit : Call → Bool
  | .ackerCommit _ => true
  | _ => false

/-- A call made by `ackAction`: `acker.Ack`, `acker.Commit`, or the report of
Healthy. -/
def Call.isAckStep : Call → Bool
  | .ackerAck _ _ => true
  | .ackerCommit _ => true
  | .OnStateChange _ _ s => s.status == .Healthy
  | _ => false

/-- A report of the state Failed. -/
def Call.isFailedReport : Call → Bool
  | .OnStateChange _ _ s => s.status == .Failed
  | _ => false

/-- A call made inside `downloadArtifact`: a download or a verification, by one
source or by the composition. -/
def Call.isFetchStep : Call → Bool
  | .sourceDownload _ _ _ _ => true
  | .fetcherDownload _ _ _ => true
  | .sourceVerify _ _ _ _ => true
  | .verifierVerify _ _ _ => true
  | _ => false

/-- A call an upgrade makes up to the return of `downloadArtifact`: the cleanup
of the downloads, the capability check, the report of Updating, the downloads
and verifications. -/
def Call.isPrelude : Call → Bool
  | .cleanNonMatchingVersionsFromDownloads _ _ => true
  | .capsApply _ _ => true
  | .OnStateChange _ _ s => s.status == .Updating
  | .downloadArtifact _ _ _ => true
  | c => c.isFetchStep

/-- A download by one source of the composed downloader. -/
def Call.isSourceDownload : Call → Bool
  | .sourceDownload _ _ _ _ => true
  | _ => false

/-- A verification by one source of the composed verifier. -/
def Call.isSourceVerify : Call → Bool
  | .sourceVerify _ _ _ _ => true
  | _ => false

/-- A call of `reexec.ReExec`. -/
def Call.isReExec : Call → Bool
  | .ReExec _ => true
  | _ => false

/-- A report of the state Updating. -/
def Call.isUpdatingReport : Call → Bool
  | .OnStateChange _ _ s => s.status == .Updating
  | _ => false

/-- A call of the rollback: `os.RemoveAll` or `ChangeSymlink`. -/
def Call.isRollbackStep : Call → Bool
  | .RemoveAll _ _ => true
  | .ChangeSymlink _ _ => true
  | _ => false

/-- A call of one of the steps that follow the unpack in an upgrade:
copyActionStore, ChangeSymlink, markUpgrade, InvokeWatcher, ReExec. -/
def Call.isSwapStep : Call → Bool
  | .copyActionStore _ _ => true
  | .ChangeSymlink _ _ => true
  | .markUpgrade _ _ _ => true
  | .InvokeWatcher _ => true
  | .ReExec _ => true
  | _ => false

/-- A call of one of the steps that follow `downloadArtifact` in an upgrade:
unpack, copyActionStore, ChangeSymlink, markUpgrade, InvokeWatcher, ReExec. -/
def Call.isInstallStep : Call → Bool
  | .unpack _ _ _ => true
  | c => c.isSwapStep

/-! ## The calls of the download step -/

/-- The elements a first-success loop tries: all up to and including the first
success. -/
def attempted {α : Type} (ok : α → Bool) : List α → List α
  | [] => []
  | x :: rest => if ok x then [x] else x :: attempted ok rest

/-- What the composed downloader returns (it does not read the world). -/
def composedDownloadResult (env : Env) (spec : Spec) (version : String) :
    List Downloader → Option Err → String × Option Err
  | [], acc => ("", acc)
  | d :: rest, acc =>
    match env.downloadRes d spec version with
    | (path, none) => (path, none)
    | (_, some e) => composedDownloadResult env spec version rest (some (appendErr acc e))

/-- What the composed verifier returns (it does not read the world). -/
def composedVerifyResult (env : Env) (spec : Spec) (version : String) :
    List Verifier → Option Err → Option Err
  | [], acc => acc
  | v :: rest, acc =>
    match env.verifyErr v spec version with
    | none => none
    | some e => composedVerifyResult env spec version rest (some (appendErr acc e))

/-- The calls of the composed downloader: one for each source tried. -/
def sourceDownloadCalls (env : Env) (spec : Spec) (version : String) (ds : List Downloader) :
    List Call :=
  (attempted (fun d => (env.downloadRes d spec version).2.isNone) ds).map
    (fun d => .sourceDownload d spec version (env.downloadRes d spec version))

/-- The calls of the composed verifier: one for each source tried. -/
def sourceVerifyCalls (env : Env) (spec : Spec) (version : String) (vs : List Verifier) :
    List Call :=
  (attempted (fun v => (env.verifyErr v spec version).isNone) vs).map
    (fun v => .sourceVerify v spec version (env.verifyErr v spec version))

/-! ## The calls and the exits of an upgrade -/

/-- A disk with nothing on it. -/
def Disk.empty : Disk := { files := [], dirs := [], symlink := "", marker := none }

/-- What `downloadArtifact` returns (it does not read the world). -/
def downloadResult (env : Env) (u : Upgrader) (version sourceURI : String) :
    String × Option Err :=
  (Upgrader.downloadArtifact env u version sourceURI (.start .empty)).1

/-- The calls of one run of `downloadArtifact`. -/
def downloadCalls (env : Env) (u : Upgrader) (version sourceURI : String) : List Call :=
  (Upgrader.downloadArtifact env u version sourceURI (.start .empty)).2.calls

/-- What `ackAction` returns (it does not read the world). -/
def ackResult (u : Upgrader) (action : Option ActionUpgrade) : Option Err :=
  (u.ackAction action (.start .empty)).1

/-- The calls of one run of `ackAction`. -/
def ackCalls (u : Upgrader) (action : Option ActionUpgrade) : List Call :=
  (u.ackAction action (.start .empty)).2.calls

/-- The first call of an upgrade: the cleanup of the downloads directory. -/
def cleanCall (env : Env) (u : Upgrader) : Call :=
  .cleanNonMatchingVersionsFromDownloads u.agentVersion (env.cleanDownloadsErr u.agentVersion)

/-- Whether the capability check blocks the action. -/
def isBlocked (u : Upgrader) (a : Action) : Bool :=
  match u.caps with
  | some apply => apply a
  | none => false

/-- The call of the capability check, when there is a capability. -/
def capsCalls (u : Upgrader) (a : Action) : List Call :=
  match u.caps with
  | some apply => [.capsApply a (apply a)]
  | none => []

/-- The report of the state Updating. -/
def updatingCall (a : Action) : Call :=
  .OnStateChange "" agentName
    { status := .Updating, message := "Update to version '" ++ a.version ++ "' started" }

/-- The calls of an upgrade up to the return of `downloadArtifact`. -/
def fetchCalls (env : Env) (u : Upgrader) (a : Action) : List Call :=
  [cleanCall env u] ++ capsCalls u a ++ [updatingCall a]
    ++ downloadCalls env u a.version (u.sourceURI a.sourceURI)

/-- The two calls of `rollbackInstall`. -/
def rollbackCalls (env : Env) (hash : String) : List Call :=
  [.RemoveAll (treePath env hash) (env.removeAllErr (treePath env hash)),
    .ChangeSymlink env.releaseShortCommit (env.changeSymlinkErr env.releaseShortCommit)]

/-- The disk after `rollbackInstall`. -/
def rollbackDisk (env : Env) (hash : String) (d : Disk) : Disk :=
  ChangeSymlink.effect env env.releaseShortCommit (os.RemoveAll.effect env (treePath env hash) d)

/-- The disk after a successful unpack of hash `h` and the run of
`copyActionStore`. -/
def copiedDisk (env : Env) (a : Action) (p h : String) (d : Disk) : Disk :=
  (copyActionStore.run env h (d.unpacked (treePath env h) (env.unpackFiles a.version p))).2

/-- What `copyActionStore` returns after a successful unpack of hash `h`. -/
def copyResult (env : Env) (a : Action) (p h : String) (d : Disk) : Option Err :=
  (copyActionStore.run env h (d.unpacked (treePath env h) (env.unpackFiles a.version p))).1

/-- The callback `Upgrade` builds for the new hash. -/
def upgradeCallback (env : Env) (a : Action) (h : String) : ShutdownCallbackFn :=
  shutdownCallback env env.pathsHome env.releaseVersion a.version (env.releaseTrimCommit h)

/-- The error of an agent that is not upgradeable. -/
def errNotUpgradeable : Err :=
  .errorf ("cannot be upgraded; must be installed with install sub-command and "
    ++ "running under control of the systems supervisor")

/-- The ways the body of `Upgrader.Upgrade` ends when started on disk `d`
before any call: what it returns and the world it leaves, one case for each
return statement. -/
inductive UpgradeExit (env : Env) (u : Upgrader) (a : Action) (reexecNow : Bool) (d : Disk) :
    Option ShutdownCallbackFn × Option Err → World → Prop where
  | notUpgradeable (hup : u.upgradeable = false) :
    UpgradeExit env u a reexecNow d (none, some errNotUpgradeable) ⟨d, []⟩
  | blocked (hup : u.upgradeable = true) (hb : isBlocked u a = true) :
    UpgradeExit env u a reexecNow d (none, none) ⟨d, [cleanCall env u] ++ capsCalls u a⟩
  | downloadFailed (hup : u.upgradeable = true) (hb : isBlocked u a = false) (p : String)
      (e : Err) (hdl : downloadResult env u a.version (u.sourceURI a.sourceURI) = (p, some e)) :
    UpgradeExit env u a reexecNow d (none, some e) ⟨d, fetchCalls env u a ++ [cleanCall env u]⟩
  | unpackFailed (hup : u.upgradeable = true) (hb : isBlocked u a = false) (p : String)
      (hdl : downloadResult env u a.version (u.sourceURI a.sourceURI) = (p, none))
      (h : String) (e : Err) (hun : env.unpackRes a.version p = (h, some e)) :
    UpgradeExit env u a reexecNow d (none, some e)
      ⟨d, fetchCalls env u a ++ [.unpack a.version p (h, some e)]⟩
  | unknownHash (hup : u.upgradeable = true) (hb : isBlocked u a = false) (p : String)
      (hdl : downloadResult env u a.version (u.sourceURI a.sourceURI) = (p, none))
      (hun : env.unpackRes a.version p = ("", none)) :
    UpgradeExit env u a reexecNow d (none, some (.errorf "unknown hash"))
      ⟨d.unpacked (treePath env "") (env.unpackFiles a.version p),
        fetchCalls env u a ++ [.unpack a.version p ("", none)]⟩
  | sameVersion (hup : u.upgradeable = true) (hb : isBlocked u a = false) (p : String)
      (hdl : downloadResult env u a.version (u.sourceURI a.sourceURI) = (p, none))
      (h : String) (hun : env.unpackRes a.version p = (h, none)) (hne : h ≠ "")
      (hsame : strings.HasPrefix env.releaseCommit h = true) (action : ActionUpgrade)
      (hfa : a.fleetAction = some action) :
    UpgradeExit env u a reexecNow d (none, none)
      ⟨d.unpacked (treePath env h) (env.unpackFiles a.version p),
        fetchCalls env u a ++ [.unpack a.version p (h, none)] ++ ackCalls u (some action)⟩
  | sameVersionManual (hup : u.upgradeable = true) (hb : isBlocked u a = false) (p : String)
      (hdl : downloadResult env u a.version (u.sourceURI a.sourceURI) = (p, none))
      (h : String) (hun : env.unpackRes a.version p = (h, none)) (hne : h ≠ "")
      (hsame : strings.HasPrefix env.releaseCommit h = true) (hfa : a.fleetAction = none) :
    UpgradeExit env u a reexecNow d (none, none)
      ⟨d.unpacked (treePath env h) (env.unpackFiles a.version p),
        fetchCalls env u a ++ [.unpack a.version p (h, none)]⟩
  | copyFailed (hup : u.upgradeable = true) (hb : isBlocked u a = false) (p : String)
      (hdl : downloadResult env u a.version (u.sourceURI a.sourceURI) = (p, none))
      (h : String) (hun : env.unpackRes a.version p = (h, none)) (hne : h ≠ "")
      (hnew : strings.HasPrefix env.releaseCommit h = false) (e : Err)
      (hcopy : copyResult env a p h d = some e) :
    UpgradeExit env u a reexecNow d (none, some (.wrap e "failed to copy action store"))
      ⟨copiedDisk env a p h d,
        fetchCalls env u a ++ [.unpack a.version p (h, none), .copyActionStore h (some e)]⟩
  | swapFailed (hup : u.upgradeable = true) (hb : isBlocked u a = false) (p : String)
      (hdl : downloadResult env u a.version (u.sourceURI a.sourceURI) = (p, none))
      (h : String) (hun : env.unpackRes a.version p = (h, none)) (hne : h ≠ "")
      (hnew : strings.HasPrefix env.releaseCommit h = false)
      (hcopy : copyResult env a p h d = none) (e : Err)
      (hswap : env.changeSymlinkErr h = some e) :
    UpgradeExit env u a reexecNow d (none, some e)
      ⟨rollbackDisk env h (copiedDisk env a p h d),
        fetchCalls env u a ++ [.unpack a.version p (h, none), .copyActionStore h none,
          .ChangeSymlink h (some e)] ++ rollbackCalls env h⟩
  | markFailed (hup : u.upgradeable = true) (hb : isBlocked u a = false) (p : String)
      (hdl : downloadResult env u a.version (u.sourceURI a.sourceURI) = (p, none))
      (h : String) (hun : env.unpackRes a.version p = (h, none)) (hne : h ≠ "")
      (hnew : strings.HasPrefix env.releaseCommit h = false)
      (hcopy : copyResult env a p h d = none) (hswap : env.changeSymlinkErr h = none)
      (e : Err) (hmark : env.markUpgradeErr h a = some e) :
    UpgradeExit env u a reexecNow d (none, some e)
      ⟨rollbackDisk env h { copiedDisk env a p h d with symlink := h },
        fetchCalls env u a ++ [.unpack a.version p (h, none), .copyActionStore h none,
          .ChangeSymlink h none, .markUpgrade h a (some e)] ++ rollbackCalls env h⟩
  | watcherFailed (hup : u.upgradeable = true) (hb : isBlocked u a = false) (p : String)
      (hdl : downloadResult env u a.version (u.sourceURI a.sourceURI) = (p, none))
      (h : String) (hun : env.unpackRes a.version p = (h, none)) (hne : h ≠ "")
      (hnew : strings.HasPrefix env.releaseCommit h = false)
      (hcopy : copyResult env a p h d = none) (hswap : env.changeSymlinkErr h = none)
      (hmark : env.markUpgradeErr h a = none) (e : Err)
      (hwatch : env.invokeWatcherErr = some e) :
    UpgradeExit env u a reexecNow d (none, some (.wrap e "failed to invoke rollback watcher"))
      ⟨rollbackDisk env h
          { copiedDisk env a p h d with symlink := h, marker := some (newMarker env h a) },
        fetchCalls env u a ++ [.unpack a.version p (h, none), .copyActionStore h none,
          .ChangeSymlink h none, .markUpgrade h a none, .InvokeWatcher (some e)]
          ++ rollbackCalls env h⟩
  | reexec (hup : u.upgradeable = true) (hb : isBlocked u a = false) (p : String)
      (hdl : downloadResult env u a.version (u.sourceURI a.sourceURI) = (p, none))
      (h : String) (hun : env.unpackRes a.version p = (h, none)) (hne : h ≠ "")
      (hnew : strings.HasPrefix env.releaseCommit h = false)
      (hcopy : copyResult env a p h d = none) (hswap : env.changeSymlinkErr h = none)
      (hmark : env.markUpgradeErr h a = none) (hwatch : env.invokeWatcherErr = none)
      (hre : reexecNow = true) :
    UpgradeExit env u a reexecNow d (none, none)
      ⟨os.RemoveAll.effect env env.pathsDownloads
          { copiedDisk env a p h d with symlink := h, marker := some (newMarker env h a) },
        fetchCalls env u a ++ [.unpack a.version p (h, none), .copyActionStore h none,
          .ChangeSymlink h none, .markUpgrade h a none, .InvokeWatcher none,
          .RemoveAll env.pathsDownloads (env.removeAllErr env.pathsDownloads),
          .ReExec (upgradeCallback env a h)]⟩
  | returned (hup : u.upgradeable = true) (hb : isBlocked u a = false) (p : String)
      (hdl : downloadResult env u a.version (u.sourceURI a.sourceURI) = (p, none))
      (h : String) (hun : env.unpackRes a.version p = (h, none)) (hne : h ≠ "")
      (hnew : strings.HasPrefix env.releaseCommit h = false)
      (hcopy : copyResult env a p h d = none) (hswap : env.changeSymlinkErr h = none)
      (hmark : env.markUpgradeErr h a = none) (hwatch : env.invokeWatcherErr = none)
      (hre : reexecNow = false) :
    UpgradeExit env u a reexecNow d (some (upgradeCallback env a h), none)
      ⟨os.RemoveAll.effect env env.pathsDownloads
          { copiedDisk env a p h d with symlink := h, marker := some (newMarker env h a) },
        fetchCalls env u a ++ [.unpack a.version p (h, none), .copyActionStore h none,
          .ChangeSymlink h none, .markUpgrade h a none, .InvokeWatcher none,
          .RemoveAll env.pathsDownloads (env.removeAllErr env.pathsDownloads)]⟩

/-- The calls of the deferred function of `Upgrade`: with an error and a fleet
action, the ack of the action and the report of Failed. -/
def deferredCalls (env : Env) (u : Upgrader) (a : Action) (err : Option Err) : List Call :=
  match err with
  | some e =>
    match a.fleetAction with
    | some action =>
      [.ackerAck (some action) (u.acker.Ack (some action)),
        .OnStateChange "" agentName { status := .Failed, message := env.errorText e }]
    | none => []
  | none => []

/-- Whether a path is at or below a directory. -/
def Path.within (p dir : Path) : Bool := dir.isPrefixOf p

/-- Nothing is left on the disk at or below a directory. -/
def Disk.nothingWithin (d : Disk) (dir : Path) : Prop :=
  (∀ f ∈ d.files, Path.within f.1 dir = false) ∧ (∀ q ∈ d.dirs, Path.within q dir = false)

instance (d : Disk) (dir : Path) : Decidable (d.nothingWithin dir) := by
  unfold Disk.nothingWithin
  infer_instance

/-! ## fleetapi: the actions -/

/-- A `fleetapi.ActionSettings`. -/
structure ActionSettings where
  actionID : String
  actionType : String
  logLevel : String
  deriving DecidableEq, Repr

/-- A `fleetapi.ActionApp`: the common fields and the fields `constructEvent`
copies. -/
structure ActionApp where
  actionID : String
  actionType : String
  inputType : String
  data : String
  response : List (String × String)
  startedAt : String
  completedAt : String
  error : String
  deriving DecidableEq, Repr

/-- A value of the interface `fleetapi.Action`, by its dynamic type: an upgrade,
a settings or an app action, or an action of any other kind (with the name of
its Go type, its id and its type). -/
inductive fleetapi.Action where
  | upgrade (a : ActionUpgrade)
  | settings (a : ActionSettings)
  | app (a : ActionApp)
  | other (goType : String) (actionID : String) (actionType : String)
  deriving DecidableEq, Repr

/-- Modelled from the spec: the method `ID` of the actions is not in the sources
read here; it returns the common field `id`. -/
def fleetapi.Action.ID : fleetapi.Action → String
  | .upgrade a => a.actionID
  | .settings a => a.actionID
  | .app a => a.actionID
  | .other _ actionID _ => actionID

/-- Modelled from the spec: the method `Type` of the actions is not in the
sources read here; it returns the common field `type`. -/
def fleetapi.Action.Type : fleetapi.Action → String
  | .upgrade a => a.actionType
  | .settings a => a.actionType
  | .app a => a.actionType
  | .other _ _ actionType => actionType

/-- The name of the dynamic type, as `%T` prints it. -/
def fleetapi.Action.goType : fleetapi.Action → String
  | .upgrade _ => "*fleetapi.ActionUpgrade"
  | .settings _ => "*fleetapi.ActionSettings"
  | .app _ => "*fleetapi.ActionApp"
  | .other goType _ _ => goType

/-! ## The handlers and the managed application -/

/-- A call made by a handler or by the managed application that has returned,
with its arguments and its result. -/
inductive AppCall where
  | SetLogLevel (level : String) (err : Option Err)
  | ackerAck (a : fleetapi.Action) (err : Option Err)
  | ackerCommit (err : Option Err)
  | ReExec (cb : Option ShutdownCallbackFn)
  | upgraderUpgrade (a : Action) (reexecNow : Bool)
      (res : Option ShutdownCallbackFn × Option Err)
  | ReloadID (err : Option Err)
  | upgraderAck (err : Option Err)
  | gatewayStart (err : Option Err)
  deriving DecidableEq, Repr

/-- The world of the handlers: the world of the upgrader, the log level of the
agent info, and the calls that have returned so far, oldest first. -/
structure AppWorld where
  world : World
  logLevel : String
  calls : List AppCall
  deriving DecidableEq, Repr

/-- Record one call. -/
def AppWorld.log (w : AppWorld) (c : AppCall) : AppWorld := { w with calls := w.calls ++ [c] }

/-- The interface `store.FleetAcker` handed to a handler: what `Ack` and
`Commit` return. -/
structure FleetAcker where
  Ack : fleetapi.Action → Option Err
  Commit : Option Err

/-! ## handler_action_settings.go -/

/-- The handler `Settings`: what `agentInfo.SetLogLevel` returns.  The re-exec
manager returns nothing and appears as a call only. -/
structure handlers.Settings where
  setLogLevelErr : String → Option Err

/-- Go `isSupportedLogLevel`. -/
def isSupportedLogLevel (level : String) : Bool :=
  level == "error" || level == "debug" || level == "info" || level == "warning"

/-- Modelled from the spec: `AgentInfo.SetLogLevel` is not in the sources read
here.  "A log-level change persists": on success the level of the agent info is
the given one, on an error it is left as it was. -/
def AgentInfo.SetLogLevel (h : handlers.Settings) (level : String) (w : AppWorld) :
    Option Err × AppWorld :=
  (h.setLogLevelErr level,
    { world := w.world
      logLevel := match h.setLogLevelErr level with
        | some _ => w.logLevel
        | none => level
      calls := w.calls ++ [.SetLogLevel level (h.setLogLevelErr level)] })

/-- The acknowledgement in `Settings.Handle`: `Ack`, then `Commit` when the ack
returned nil; both errors are only logged. -/
def handlers.Settings.ack (a : fleetapi.Action) (acker : FleetAcker) (w : AppWorld) : AppWorld :=
  match acker.Ack a with
  | some err => w.log (.ackerAck a (some err))
  | none => (w.log (.ackerAck a none)).log (.ackerCommit acker.Commit)

/-- Go `Settings.Handle`. -/
def handlers.Settings.Handle (h : handlers.Settings) (a : fleetapi.Action) (acker : FleetAcker)
    (w : AppWorld) : Option Err × AppWorld :=
  match a with
  | .settings action =>
    if !isSupportedLogLevel action.logLevel then
      (some (.errorf ("invalid log level, expected debug|info|warning|error and received '"
        ++ action.logLevel ++ "'")), w)
    else
      match AgentInfo.SetLogLevel h action.logLevel w with
      | (some err, w) => (some (.wrap err "failed to update log level"), w)
      | (none, w) =>
        let w := handlers.Settings.ack a acker w
        (none, w.log (.ReExec none))
  | _ => (some (.errorf ("invalid type, expected ActionSettings and received " ++ a.goType)), w)

/-! ## handler_action_upgrade.go -/

/-- The type `upgradeAction`: the `upgrade.Action` wrapped around an
`ActionUpgrade`, by its three methods. -/
def upgradeAction (action : ActionUpgrade) : Action :=
  { version := action.version, sourceURI := action.sourceURI, fleetAction := some action }

/-- Go `Upgrade.Handle` of the handler whose upgrader is `u`. -/
def handlers.Upgrade.Handle (env : Env) (u : Upgrader) (a : fleetapi.Action) (w : AppWorld) :
    Option Err × AppWorld :=
  match a with
  | .upgrade action =>
    match Upgrader.Upgrade env u (upgradeAction action) true w.world with
    | (res, world) =>
      (res.2,
        { world := world
          logLevel := w.logLevel
          calls := w.calls ++ [.upgraderUpgrade (upgradeAction action) true res] })
  | _ => (some (.errorf ("invalid type, expected ActionUpgrade and received " ++ a.goType)), w)

/-! ## managed_mode.go -/

/-- The managed application: the actions of its state store, what
`agentInfo.ReloadID` returns, its upgrader, and what `gateway.Start` returns. -/
structure Managed where
  stateStoreActions : List fleetapi.Action
  reloadIDErr : Option Err
  upgrader : Upgrader
  gatewayStartErr : Option Err

/-- The loop of `wasUnenrolled` over the actions of the state store. -/
def wasUnenrolledLoop : List fleetapi.Action → Bool
  | [] => false
  | a :: rest => if a.Type == "UNENROLL" then true else wasUnenrolledLoop rest

/-- Go `Managed.wasUnenrolled`. -/
def Managed.wasUnenrolled (m : Managed) : Bool := wasUnenrolledLoop m.stateStoreActions

/-- Go `Managed.Start`. -/
def Managed.Start (env : Env) (m : Managed) (w : AppWorld) : Option Err × AppWorld :=
  if m.wasUnenrolled then (none, w)
  else
    match m.reloadIDErr with
    | some err => (some err, w.log (.ReloadID (some err)))
    | none =>
      let w := w.log (.ReloadID none)
      match Upgrader.Ack env m.upgrader w.world with
      | (err, world) =>
        let w : AppWorld :=
          { world := world, logLevel := w.logLevel, calls := w.calls ++ [.upgraderAck err] }
        (m.gatewayStartErr, w.log (.gatewayStart m.gatewayStartErr))

/-! ## fleet_acker.go -/

/-- A `fleetapi.AckEvent`. -/
structure AckEvent where
  eventType : String
  subType : String
  timestamp : String
  actionID : String
  agentID : String
  message : String
  actionInputType : String
  actionData : String
  actionResponse : List (String × String)
  startedAt : String
  completedAt : String
  error : String
  deriving DecidableEq, Repr

/-- A `fleetapi.AckRequest`. -/
structure AckRequest where
  events : List AckEvent
  deriving DecidableEq, Repr

/-- The fleet `Acker`: the id of its agent info and its client, as what the
execution of an ack request through it returns. -/
structure fleet.Acker where
  agentID : String
  client : AckRequest → Option Err

/-- The acker together with the requests executed so far, each with its result,
oldest first. -/
structure fleet.World where
  acker : fleet.Acker
  requests : List (AckRequest × Option Err)

/-- Go `constructEvent`; `now` is `time.Now()` in the fleet time format. -/
def constructEvent (now : String) (action : fleetapi.Action) (agentID : String) : AckEvent :=
  let ackev : AckEvent :=
    { eventType := "ACTION_RESULT"
      subType := "ACKNOWLEDGED"
      timestamp := now
      actionID := action.ID
      agentID := agentID
      message := "Action '" ++ action.ID ++ "' of type '" ++ action.Type ++ "' acknowledged."
      actionInputType := ""
      actionData := ""
      actionResponse := []
      startedAt := ""
      completedAt := ""
      error := "" }
  match action with
  | .app a =>
    { ackev with
      actionInputType := a.inputType
      actionData := a.data
      actionResponse := a.response
      startedAt := a.startedAt
      completedAt := a.completedAt
      error := a.error }
  | _ => ackev

/-- Go `Acker.Ack`; `now` is the reading of the clock. -/
def fleet.Acker.Ack (now : String) (action : fleetapi.Action) (w : fleet.World) :
    Option Err × fleet.World :=
  let agentID := w.acker.agentID
  let req : AckRequest := { events := [constructEvent now action agentID] }
  match w.acker.client req with
  | some err =>
    (some (.wrap err ("acknowledge action '" ++ action.ID ++ "' for elastic-agent '" ++ agentID
      ++ "' failed")),
      { w with requests := w.requests ++ [(req, some err)] })
  | none => (none, { w with requests := w.requests ++ [(req, none)] })

/-- The loop of `AckBatch` that builds the events; `now i` is the reading of
the clock for the action of index `i`. -/
def ackBatchEvents (now : Nat → String) (agentID : String) :
    List fleetapi.Action → Nat → List AckEvent
  | [], _ => []
  | action :: rest, i =>
    constructEvent (now i) action agentID :: ackBatchEvents now agentID rest (i + 1)

/-- Go `Acker.AckBatch`; `fmtV` is the `%v` print of the actions. -/
def fleet.Acker.AckBatch (now : Nat → String) (fmtV : List fleetapi.Action → String)
    (actions : List fleetapi.Action) (w : fleet.World) : Option Err × fleet.World :=
  let agentID := w.acker.agentID
  let events := ackBatchEvents now agentID actions 0
  if events.length == 0 then (none, w)
  else
    let req : AckRequest := { events := events }
    match w.acker.client req with
    | some err =>
      (some (.wrap err ("acknowledge " ++ toString actions.length ++ " actions '" ++ fmtV actions
        ++ "' for elastic-agent '" ++ agentID ++ "' failed")),
        { w with requests := w.requests ++ [(req, some err)] })
    | none => (none, { w with requests := w.requests ++ [(req, none)] })

/-- Go `Acker.Commit`. -/
def fleet.Acker.Commit (w : fleet.World) : Option Err × fleet.World := (none, w)

/-- Go `Acker.SetClient`. -/
def fleet.Acker.SetClient (c : AckRequest → Option Err) (w : fleet.World) : fleet.World :=
  { w with acker := { w.acker with client := c } }

/-! ## cmd/uninstall.go -/

/-- The values of `install.StatusType`: the three the command names, and any
other value of the type. -/
inductive install.StatusType where
  | NotInstalled
  | Installed
  | Broken
  | unnamed (code : Nat)
  deriving DecidableEq, Repr

/-- What the command `uninstall` reads: the result of `install.HasRoot`, the
name `install.PermissionUser`, the result of `install.Status`, of
`info.RunningInstalled`, of `install.ExecutablePath`, the flag `force`, the
answer `Confirm` returns to a prompt, the paths, the result of
`install.Uninstall` and the text of an error. -/
structure UninstallEnv where
  hasRoot : Bool × Option Err
  permissionUser : String
  status : install.StatusType × String
  runningInstalled : Bool
  executablePath : String
  force : Bool
  confirm : String → Bool × Option Err
  installPath : String
  configFile : String
  uninstallErr : Option Err
  errorText : Err → String

/-- A call of the command `uninstall` that acts on the outside: a print on the
output stream, a prompt with its default and its answer, the removal of the
install and the removal of the install path. -/
inductive UninstallCall where
  | Fprintf (text : String)
  | Confirm (prompt : String) (defaultAnswer : Bool) (res : Bool × Option Err)
  | Uninstall (cfgFile : String) (err : Option Err)
  | RemovePath (path : String)
  deriving DecidableEq, Repr

/-- A call of `install.Uninstall`. -/
def UninstallCall.isUninstall : UninstallCall → Bool
  | .Uninstall _ _ => true
  | _ => false

/-- A call of `install.RemovePath`. -/
def UninstallCall.isRemovePath : UninstallCall → Bool
  | .RemovePath _ => true
  | _ => false

/-- A call of `Confirm`. -/
def UninstallCall.isConfirm : UninstallCall → Bool
  | .Confirm _ _ _ => true
  | _ => false

/-- The statements of `uninstallCmd` after the prompts: `install.Uninstall`,
then the message and `install.RemovePath` when it returned nil. -/
def uninstallCmd.remove (env : UninstallEnv) (calls : List UninstallCall) :
    Option Err × List UninstallCall :=
  match env.uninstallErr with
  | some err => (some err, calls ++ [.Uninstall env.configFile (some err)])
  | none =>
    (none, calls ++ [.Uninstall env.configFile none,
      .Fprintf "Elastic Agent has been uninstalled.\n", .RemovePath env.installPath])

/-- The prompt of `uninstallCmd`: the error of a failed or declined prompt, or
the removal after an accepted one. -/
def uninstallCmd.ask (env : UninstallEnv) (prompt : String) (calls : List UninstallCall) :
    Option Err × List UninstallCall :=
  match env.confirm prompt with
  | (confirm, some err) =>
    (some (.errorf "problem reading prompt response"),
      calls ++ [.Confirm prompt true (confirm, some err)])
  | (false, none) =>
    (some (.errorf "uninstall was cancelled by the user"),
      calls ++ [.Confirm prompt true (false, none)])
  | (true, none) => uninstallCmd.remove env (calls ++ [.Confirm prompt true (true, none)])

/-- Go `uninstallCmd`: the error and the calls made, oldest first. -/
def uninstallCmd (env : UninstallEnv) : Option Err × List UninstallCall :=
  match env.hasRoot with
  | (_, some err) =>
    (some (.errorf ("unable to perform command while checking for administrator rights, "
      ++ env.errorText err)), [])
  | (false, none) =>
    (some (.errorf ("unable to perform command, not executed with " ++ env.permissionUser
      ++ " permissions")), [])
  | (true, none) =>
    if env.status.1 = .NotInstalled then (some (.errorf "not installed"), [])
    else if env.status.1 = .Installed ∧ env.runningInstalled = false then
      (some (.errorf ("can only be uninstall by executing the installed Elastic Agent at: "
        ++ env.executablePath)), [])
    else if env.status.1 = .Broken then
      if env.force = false then
        uninstallCmd.ask env
          ("Continuing will uninstall the broken Elastic Agent at " ++ env.installPath
            ++ ". Do you want to continue?")
          [.Fprintf ("Elastic Agent is installed but currently broken: " ++ env.status.2 ++ "\n")]
      else uninstallCmd.remove env []
    else
      if env.force = false then
        uninstallCmd.ask env
          ("Elastic Agent will be uninstalled from your system at " ++ env.installPath
            ++ ". Do you want to continue?") []
      else uninstallCmd.remove env []

/-! ## program: the grouping by output -/

/-- An entry of `outputs`: its name, its `type` and its other options. -/
structure OutputConfig where
  name : String
  type : String
  options : List (String × String)
  deriving DecidableEq, Repr

/-- An entry of `inputs`: its `type`, its `use_output` (none when the key is
absent) and its other options. -/
structure InputConfig where
  type : String
  useOutput : Option String
  options : List (String × String)
  deriving DecidableEq, Repr

/-- The part of a configuration the grouping reads. -/
structure PolicyConfig where
  outputs : List OutputConfig
  inputs : List InputConfig
  deriving DecidableEq, Repr

/-- The configuration of one output: the output and the inputs that use it. -/
structure OutputGroup where
  output : OutputConfig
  inputs : List InputConfig
  deriving DecidableEq, Repr

/-- Modelled from the spec: the name of the output an input uses, `default` when
it names none (the test "only default output"). -/
def findOutputName (input : InputConfig) : String := input.useOutput.getD "default"

/-- Modelled from the spec: the input is added to the group of the output
`target`; none when no group has that name. -/
def addToGroup (target : String) (input : InputConfig) : List OutputGroup → Option (List OutputGroup)
  | [] => none
  | g :: rest =>
    if g.output.name = target then some ({ g with inputs := g.inputs ++ [input] } :: rest)
    else (addToGroup target input rest).map (g :: ·)

/-- Modelled from the spec: the inputs are added to the groups one by one in
their order; an input whose output has no group stops the grouping with an
error (the test "fail when the referenced named output doesn't exist"). -/
def groupInputs : List InputConfig → List OutputGroup → Except Err (List OutputGroup)
  | [], groups => .ok groups
  | input :: rest, groups =>
    match addToGroup (findOutputName input) input groups with
    | none =>
      .error (.errorf ("unknown configuration output with name " ++ findOutputName input))
    | some groups => groupInputs rest groups

/-- Modelled from the spec: `groupByOutputs` is not in the sources read here,
only its test is.  "Groups it by output": one configuration per output of
`outputs`, holding the inputs that use it in their order; an output no input
uses has no configuration (the tests "only default output" and "no streams are
defined"). -/
def groupByOutputs (cfg : PolicyConfig) : Except Err (List OutputGroup) :=
  match groupInputs cfg.inputs (cfg.outputs.map fun o => { output := o, inputs := [] }) with
  | .error err => .error err
  | .ok groups => .ok (groups.filter fun g => !g.inputs.isEmpty)

/-! ## cmd/run.go: the encryption of the configuration -/

/-- A file of the configuration directory: its modification time and its
content. -/
structure ConfigFile where
  modTime : Nat
  content : String
  deriving DecidableEq, Repr

/-- The files of the configuration directory, by path. -/
abbrev ConfigDir := String → Option ConfigFile

/-- The directory after the file at `path` is written. -/
def ConfigDir.write (d : ConfigDir) (path : String) (f : ConfigFile) : ConfigDir :=
  fun p => if p = path then some f else d p

/-- The directory after the file at `path` is removed. -/
def ConfigDir.remove (d : ConfigDir) (path : String) : ConfigDir :=
  fun p => if p = path then none else d p

/-- What `encryptConfigIfNeeded` reads: the four paths of the `paths` package,
the error of each file access, the content the encrypted store writes for a
plain content, and the clock. -/
structure EncryptEnv where
  agentStateStoreYmlFile : String
  agentStateStoreFile : String
  agentConfigYmlFile : String
  agentConfigFile : String
  statErr : String → Option Err
  readErr : String → Option Err
  saveErr : String → Option Err
  removeErr : String → Option Err
  encrypt : String → String
  now : Nat

/-- A call of `encryptConfigIfNeeded` that writes: the save of an encrypted
store and the removal of a file, each with its result. -/
inductive EncryptCall where
  | Save (dst : String) (plain : String) (err : Option Err)
  | Remove (path : String) (err : Option Err)
  deriving DecidableEq, Repr

/-- The configuration directory and the writing calls so far, oldest first. -/
structure EncryptWorld where
  dir : ConfigDir
  calls : List EncryptCall

/-- The helper `fileutil.GetModTimeExists`, which is not in the sources read
here: the modification time of the file, whether it exists, and the error of
the access. -/
def fileutil.GetModTimeExists (env : EncryptEnv) (path : String) (d : ConfigDir) :
    (Nat × Bool) × Option Err :=
  match env.statErr path with
  | some err => ((0, false), some err)
  | none =>
    match d path with
    | some f => ((f.modTime, true), none)
    | none => ((0, false), none)

/-- The helper `fileutil.FileExists`, which is not in the sources read here:
whether the file exists, and the error of the access. -/
def fileutil.FileExists (env : EncryptEnv) (path : String) (d : ConfigDir) : Bool × Option Err :=
  match env.statErr path with
  | some err => (false, some err)
  | none => ((d path).isSome, none)

/-- The loop of `encryptConfigIfNeeded` over the pairs of a yml file and its
enc file. -/
def encryptLoop (env : EncryptEnv) : List (String × String) → EncryptWorld →
    Option Err × EncryptWorld
  | [], w => (none, w)
  | (src, dst) :: rest, w =>
    match fileutil.GetModTimeExists env src w.dir with
    | (_, some err) => (some err, w)
    | ((ymlModTime, ymlExists), none) =>
      if !ymlExists then encryptLoop env rest w
      else
        match fileutil.GetModTimeExists env dst w.dir with
        | (_, some err) => (some err, w)
        | ((encModTime, encExists), none) =>
          if encExists && decide (ymlModTime < encModTime) then encryptLoop env rest w
          else
            match env.readErr src with
            | some err => (some err, w)
            | none =>
              let b := ((w.dir src).map fun f => f.content).getD ""
              match env.saveErr dst with
              | some err => (some err, { w with calls := w.calls ++ [.Save dst b (some err)] })
              | none =>
                encryptLoop env rest
                  { dir := w.dir.write dst { modTime := env.now, content := env.encrypt b }
                    calls := w.calls ++ [.Save dst b none] }

/-- Go `encryptConfigIfNeeded`: the loop over `state.yml` and `fleet.yml`, then
the removal of `state.yml` when the loop returned no error. -/
def encryptConfigIfNeeded (env : EncryptEnv) (w : EncryptWorld) : Option Err × EncryptWorld :=
  match encryptLoop env
    [(env.agentStateStoreYmlFile, env.agentStateStoreFile),
      (env.agentConfigYmlFile, env.agentConfigFile)] w with
  | (some err, w) => (some err, w)
  | (none, w) =>
    let fp := env.agentStateStoreYmlFile
    if (fileutil.FileExists env fp w.dir).1 then
      match env.removeErr fp with
      | some err => (none, { w with calls := w.calls ++ [.Remove fp (some err)] })
      | none => (none, { dir := w.dir.remove fp, calls := w.calls ++ [.Remove fp none] })
    else (none, w)

/-! ## Go path/filepath, with the separator of Unix -/

/-- The elements of a path: the runs of characters between separators, the
empty ones included. -/
def filepath.elements : List Char → List (List Char)
  | [] => [[]]
  | c :: cs =>
    if c = '/' then [] :: filepath.elements cs
    else
      match filepath.elements cs with
      | [] => [[c]]
      | e :: es => (c :: e) :: es

/-- Elements written with a separator between them. -/
def filepath.joinElements : List (List Char) → List Char
  | [] => []
  | [e] => e
  | e :: e1 :: es => e ++ '/' :: filepath.joinElements (e1 :: es)

/-- Whether a path starts with a separator. -/
def filepath.isRooted : List Char → Bool
  | c :: _ => c == '/'
  | [] => false

/-- One step of `filepath.Clean`, on the elements kept so far (the last one
first): an empty element and `.` are dropped; `..` removes the last element,
unless there is none or it is `..`, where it is dropped in a rooted path and
kept otherwise; any other element is kept. -/
def filepath.cleanStep (rooted : Bool) (stack : List (List Char)) (e : List Char) :
    List (List Char) :=
  if e = [] ∨ e = ['.'] then stack
  else if e = ['.', '.'] then
    match stack with
    | [] => if rooted then [] else [e]
    | top :: below =>
      if top = ['.', '.'] then (if rooted then stack else e :: stack) else below
  else e :: stack

/-- The elements `filepath.Clean` keeps, the last one first. -/
def filepath.cleanStack (path : List Char) : List (List Char) :=
  (filepath.elements path).foldl (filepath.cleanStep (filepath.isRooted path)) []

/-- The path written from the elements kept (the last one first): the root
separator of a rooted path, and `.` for a path with nothing else. -/
def filepath.render (rooted : Bool) (stack : List (List Char)) : List Char :=
  if rooted then '/' :: filepath.joinElements stack.reverse
  else if filepath.joinElements stack.reverse = [] then ['.']
  else filepath.joinElements stack.reverse

/-- Go `filepath.Clean`. -/
def filepath.Clean (path : String) : String :=
  String.mk (filepath.render (filepath.isRooted path.data) (filepath.cleanStack path.data))

/-- Go `filepath.Join`: the elements from the first one that is not empty on,
joined with the separator and cleaned; the empty string when all are empty. -/
def filepath.Join (elem : List String) : String :=
  match elem.dropWhile (fun e => e = "") with
  | [] => ""
  | rest => filepath.Clean (String.mk (filepath.joinElements (rest.map String.data)))

/-- Go `filepath.Dir`: the path up to its last separator, cleaned. -/
def filepath.Dir (path : String) : String :=
  filepath.Clean (String.mk (path.data.reverse.dropWhile (fun c => c ≠ '/')).reverse)

/-- Go `filepath.Base`: the last element of the path, after its trailing
separators are dropped; `.` for the empty path and the separator for a path of
separators only. -/
def filepath.Base (path : String) : String :=
  if path = "" then "."
  else
    let stripped := path.data.reverse.dropWhile (fun c => c = '/')
    let last := (stripped.takeWhile (fun c => c ≠ '/')).reverse
    if last = [] then "/" else String.mk last

/-- Whether the path `p` is the directory `root` or lies in it: both are rooted
or both are not, the elements of the cleaned `root` begin the elements of the
cleaned `p`, and none of the further elements of `p` is `..`. -/
def filepath.within (root p : String) : Bool :=
  filepath.isRooted root.data == filepath.isRooted p.data
    && (filepath.cleanStack root.data).reverse.isPrefixOf (filepath.cleanStack p.data).reverse
    && !((filepath.cleanStack p.data).reverse.drop (filepath.cleanStack root.data).length).contains
      ['.', '.']

/-- The invariant of the elements `filepath.Clean` keeps (the last one first):
none is empty, `.` or holds a separator, and `..` occurs in a path that is not
rooted only, below nothing but `..`. -/
def filepath.okStack (rooted : Bool) : List (List Char) → Prop
  | [] => True
  | top :: below =>
    top ≠ [] ∧ top ≠ ['.'] ∧ '/' ∉ top ∧
      (top = ['.', '.'] → rooted = false ∧ ∀ e ∈ below, e = ['.', '.']) ∧
      filepath.okStack rooted below

/-! ## install/zip/zip_installer.go -/

/-- The loop of `getRootDir` over the names of the entries of the archive, from
the value of `rootDir` on: the value of the return statement reached. -/
def getRootDirLoop : List String → String → String
  | [], rootDir => rootDir
  | name :: rest, rootDir =>
    if filepath.Base name = filepath.Dir name then name
    else
      let currentDir := filepath.Dir name
      if rootDir = "" ∨ currentDir.utf8ByteSize < rootDir.utf8ByteSize then
        getRootDirLoop rest currentDir
      else getRootDirLoop rest rootDir

/-- The deferred function of `getRootDir` on the named result `dir`. -/
def getRootDir.deferred (installPath dir : String) : String :=
  if dir ≠ "" then filepath.Join [installPath, dir] else dir

/-- Go `Installer.getRootDir` of the installer whose install path is
`installPath`; `archive` is what `zip.OpenReader` returns, an error or the
names of the entries in the order of the archive. -/
def Installer.getRootDir (installPath : String) (archive : Except Err (List String)) :
    String × Option Err :=
  match archive with
  | .error err => (getRootDir.deferred installPath "", some err)
  | .ok files => (getRootDir.deferred installPath (getRootDirLoop files ""), none)

/-- An entry of a zip archive: its name, whether it is a directory, its content,
and the errors of opening and of closing its reader. -/
structure ZipEntry where
  name : String
  isDir : Bool
  content : String
  openErr : Option Err
  closeErr : Option Err
  deriving DecidableEq, Repr

/-- What `unzip` gets from the operating system: the error of `os.MkdirAll` on
a path (one that is not `IsExist`), of `os.OpenFile` and of `io.Copy`. -/
structure UnzipEnv where
  mkdirAllErr : String → Option Err
  openFileErr : String → Option Err
  copyErr : String → Option Err

/-- A call of `unzip` that creates or writes a path, with its result. -/
inductive UnzipCall where
  | MkdirAll (path : String) (err : Option Err)
  | OpenFile (path : String) (err : Option Err)
  | Copy (path : String) (content : String) (err : Option Err)
  deriving DecidableEq, Repr

/-- The statements of the closure `unpackFile` once the reader of the entry is
open.  The error of closing the written file is assigned to a variable of the
inner block and never returned. -/
def unpackFile.body (env : UnzipEnv) (installPath : String) (f : ZipEntry)
    (calls : List UnzipCall) : Option Err × List UnzipCall :=
  let path := filepath.Join [installPath, f.name]
  if f.isDir then (none, calls ++ [.MkdirAll path (env.mkdirAllErr path)])
  else
    let calls := calls ++ [.MkdirAll (filepath.Dir path) (env.mkdirAllErr (filepath.Dir path))]
    match env.openFileErr path with
    | some err => (some err, calls ++ [.OpenFile path (some err)])
    | none =>
      let calls := calls ++ [.OpenFile path none]
      match env.copyErr path with
      | some err => (some err, calls ++ [.Copy path f.content (some err)])
      | none => (none, calls ++ [.Copy path f.content none])

/-- The closure `unpackFile` of `unzip`: the body, then the deferred close of
the reader, whose error is appended to the result. -/
def unpackFile (env : UnzipEnv) (installPath : String) (f : ZipEntry) (calls : List UnzipCall) :
    Option Err × List UnzipCall :=
  match f.openErr with
  | some err => (some err, calls)
  | none =>
    match unpackFile.body env installPath f calls with
    | (err, calls) =>
      match f.closeErr with
      | some cerr => (some (appendErr err cerr), calls)
      | none => (err, calls)

/-- The loop of `unzip` over the entries of the archive. -/
def unzipLoop (env : UnzipEnv) (installPath : String) :
    List ZipEntry → List UnzipCall → Option Err × List UnzipCall
  | [], calls => (none, calls)
  | f :: rest, calls =>
    match unpackFile env installPath f calls with
    | (some err, calls) => (some err, calls)
    | (none, calls) => unzipLoop env installPath rest calls

/-- Go `Installer.unzip` of the installer whose install path is `installPath`;
`archive` is what `zip.OpenReader` returns.  The error and the calls, oldest
first. -/
def Installer.unzip (env : UnzipEnv) (installPath : String)
    (archive : Except Err (List ZipEntry)) : Option Err × List UnzipCall :=
  match archive with
  | .error err => (some err, [])
  | .ok files =>
    match env.mkdirAllErr installPath with
    | some err => (some err, [.MkdirAll installPath (some err)])
    | none => unzipLoop env installPath files [.MkdirAll installPath none]

/-- The call creates or writes the path of the entry `f`, the install path
joined with its name, or creates the parent directory of that path. -/
def UnzipCall.ofEntry (installPath : String) (f : ZipEntry) (c : UnzipCall) : Prop :=
  (∃ e, c = .MkdirAll (filepath.Join [installPath, f.name]) e) ∨
  (∃ e, c = .MkdirAll (filepath.Dir (filepath.Join [installPath, f.name])) e) ∨
  (∃ e, c = .OpenFile (filepath.Join [installPath, f.name]) e) ∨
  (∃ e, c = .Copy (filepath.Join [installPath, f.name]) f.content e)

/-! ## upgrade.go: the shutdown callback on the paths as strings -/

/-- The scan of `strings.ReplaceAll` for an `old` that is not empty: `skip` is
the number of characters of the last match still to pass. -/
def strings.replaceChars (old new : List Char) : Nat → List Char → List Char
  | _, [] => []
  | skip + 1, _ :: cs => strings.replaceChars old new skip cs
  | 0, c :: cs =>
    if old.isPrefixOf (c :: cs) then new ++ strings.replaceChars old new (old.length - 1) cs
    else c :: strings.replaceChars old new 0 cs

/-- Go `strings.ReplaceAll(s, old, new)`: the matches of `old` that do not
overlap, from the left; an empty `old` matches before the string and after each
character. -/
def strings.ReplaceAll (s old new : String) : String :=
  if old = "" then String.mk (new.data ++ s.data.flatMap fun c => c :: new.data)
  else String.mk (strings.replaceChars old.data new.data 0 s.data)

/-- An `os.DirEntry`: its name and whether it is a directory. -/
structure DirEntry where
  name : String
  isDir : Bool
  deriving DecidableEq, Repr

/-- What the shutdown callback gets from the operating system: the entries of a
directory (none for a directory that does not exist) or the error of
`os.ReadDir` that is not `IsNotExist`, and the error of `copyDir`. -/
structure CallbackEnv where
  readDir : String → Except Err (List DirEntry)
  copyDirErr : String → String → Option Err

/-- A call of `copyDir` with its result. -/
structure CopyDirCall where
  source : String
  target : String
  err : Option Err
  deriving DecidableEq, Repr

/-- Go `readDirs`: the paths of the directories inside `dir`. -/
def readDirs (env : CallbackEnv) (dir : String) : Except Err (List String) :=
  match env.readDir dir with
  | .error err => .error err
  | .ok dirEntries =>
    .ok ((dirEntries.filter fun de => de.isDir).map fun de => filepath.Join [dir, de.name])

/-- The loop of `readProcessDirs` over the pipelines. -/
def readProcessDirsLoop (env : CallbackEnv) : List String → List String →
    Except Err (List String)
  | [], processDirs => .ok processDirs
  | p :: rest, processDirs =>
    match readDirs env p with
    | .error err => .error err
    | .ok dirs => readProcessDirsLoop env rest (processDirs ++ dirs)

/-- Go `readProcessDirs`. -/
def readProcessDirs (env : CallbackEnv) (runtimeDir : String) : Except Err (List String) :=
  match readDirs env runtimeDir with
  | .error err => .error err
  | .ok pipelines => readProcessDirsLoop env pipelines []

/-- The loop of the shutdown callback over the process directories. -/
def copyProcessDirs (env : CallbackEnv) (prevVersion newVersion oldHome newHome : String) :
    List String → List CopyDirCall → Option Err × List CopyDirCall
  | [], calls => (none, calls)
  | processDir :: rest, calls =>
    let newDir := strings.ReplaceAll processDir prevVersion newVersion
    let newDir := strings.ReplaceAll newDir oldHome newHome
    match env.copyDirErr processDir newDir with
    | some err => (some err, calls ++ [{ source := processDir, target := newDir, err := some err }])
    | none =>
      copyProcessDirs env prevVersion newVersion oldHome newHome rest
        (calls ++ [{ source := processDir, target := newDir, err := none }])

/-- Go `shutdownCallback` followed by a call of the closure it returns, on the
paths as strings; `snapshot` is `release.Snapshot()`.  The error of the closure
and the calls of `copyDir`, oldest first. -/
def shutdownCallback.run (env : CallbackEnv) (snapshot : Bool)
    (homePath prevVersion newVersion newHash : String) : Option Err × List CopyDirCall :=
  let prevVersion := if snapshot then prevVersion ++ "-SNAPSHOT" else prevVersion
  let runtimeDir := filepath.Join [homePath, "run"]
  match readProcessDirs env runtimeDir with
  | .error err => (some err, [])
  | .ok processDirs =>
    let oldHome := homePath
    let newHome := filepath.Join [filepath.Dir homePath, versionedName newHash]
    copyProcessDirs env prevVersion newVersion oldHome newHome processDirs []

/-! ## Concrete scenarios -/

/-- An environment in which every call succeeds: the running commit is
`aaaaaa11`, the archive unpacks to hash `bbbbbb`. -/
def okEnv : Env :=
  { releaseCommit := "aaaaaa11"
    releaseShortCommit := "aaaaaa"
    releaseVersion := "8.0.0"
    releaseSnapshot := false
    releaseTrimCommit := fun h => String.mk (h.data.take 6)
    releasePGP := (false, "key")
    pathsData := ["opt", "Elastic", "Agent", "data"]
    pathsHome := ["opt", "Elastic", "Agent", "data", "elastic-agent-aaaaaa"]
    pathsDownloads := ["opt", "Elastic", "Agent", "data", "downloads"]
    pathsAgentActionStoreFile := ["opt", "Elastic", "Agent", "action_store.yml"]
    pathsAgentStateStoreYmlFile := ["opt", "Elastic", "Agent", "state.yml"]
    pathsAgentStateStoreFile := ["opt", "Elastic", "Agent", "state.enc"]
    errorText := fun _ => "upgrade failed"
    cleanDownloadsErr := fun _ => none
    newDownloaderErr := fun _ => none
    newVerifierErr := fun _ => none
    downloadRes := fun _ _ _ => ("archive.tar.gz", none)
    verifyErr := fun _ _ _ => none
    unpackRes := fun _ _ => ("bbbbbb", none)
    unpackFiles := fun _ _ => [(["elastic-agent"], "binary")]
    readFileErr := fun _ => none
    writeFileErr := fun _ => none
    removeAllErr := fun _ => none
    changeSymlinkErr := fun _ => none
    markUpgradeErr := fun _ _ => none
    invokeWatcherErr := none
    loadMarkerErr := none
    saveMarkerErr := fun _ => none }

/-- The environment of `okEnv` in which the watcher fails to start. -/
def watcherFailsEnv : Env := { okEnv with invokeWatcherErr := some (.other "spawn") }

/-- The environment of `okEnv` in which writing the upgrade marker fails. -/
def markFailsEnv : Env := { okEnv with markUpgradeErr := fun _ _ => some (.other "disk full") }

/-- The environment of `okEnv` in which no file can be written. -/
def copyFailsEnv : Env := { okEnv with writeFileErr := fun _ => some (.other "read-only") }

/-- The environment of `okEnv` in which every verifier rejects the archive. -/
def verifyFailsEnv : Env := { okEnv with verifyErr := fun _ _ _ => some (.other "bad signature") }

/-- The environment of `okEnv` in which the archive unpacks to the running
commit `aaaaaa`. -/
def sameVersionEnv : Env := { okEnv with unpackRes := fun _ _ => ("aaaaaa", none) }

/-- The environment of `okEnv` in which the verifier of the local source rejects
the archive and the other verifiers accept it. -/
def fsVerifyFailsEnv : Env :=
  { okEnv with
    verifyErr := fun v _ _ =>
      match v with
      | .fs _ _ _ => some (.other "bad signature")
      | _ => none }

/-- The settings of the scenarios. -/
def settings0 : Config :=
  { sourceURI := "https://artifacts.elastic.co/downloads/"
    dropPath := ""
    targetDirectory := "downloads"
    installPath := "install" }

/-- The environment of `okEnv` in which nothing can be removed. -/
def removeFailsEnv : Env := { okEnv with removeAllErr := fun _ => some (.other "busy") }

/-- An upgradeable upgrader with no capability and an acker that succeeds. -/
def okUpgrader : Upgrader :=
  { caps := none
    acker := { Ack := fun _ => none, Commit := none }
    settings :=
      { sourceURI := "https://artifacts.elastic.co/downloads/"
        dropPath := ""
        targetDirectory := "downloads"
        installPath := "install" }
    agentVersion := "8.0.0"
    upgradeable := true }

/-- The upgrader of `okUpgrader` with a capability that blocks every upgrade. -/
def blockedUpgrader : Upgrader := { okUpgrader with caps := some (fun _ => true) }

/-- An upgrade action of fleet, to version 8.1.0. -/
def fleetUpgrade : ActionUpgrade :=
  { actionID := "action-1"
    actionType := "UPGRADE"
    startTime := ""
    expiration := ""
    version := "8.1.0"
    sourceURI := "" }

/-- The `upgradeAction` the handler wraps around `fleetUpgrade`. -/
def fleetAct : Action :=
  { version := "8.1.0", sourceURI := "", fleetAction := some fleetUpgrade }

/-- A manual upgrade to version 8.1.0: no fleet action. -/
def manualAct : Action :=
  { version := "8.1.0", sourceURI := "", fleetAction := none }

/-- The marker of an upgrade from `aaaaaa` to `bbbbbb` by `fleetUpgrade`, not yet
acked. -/
def marker0 : UpdateMarker :=
  { prevHash := "aaaaaa", hash := "bbbbbb", action := some fleetUpgrade, acked := false }

/-- A disk after the upgrade to `bbbbbb`, with the marker `marker0`. -/
def markedDisk : Disk :=
  { files := [(["opt", "Elastic", "Agent", "data", "elastic-agent-bbbbbb", "elastic-agent"], "new")]
    dirs := [["opt", "Elastic", "Agent", "data", "elastic-agent-bbbbbb"]]
    symlink := "bbbbbb"
    marker := some marker0 }

/-- The world of the handlers on `disk0`, at log level info, before any call. -/
def appWorld0 : AppWorld :=
  { world := { disk := { files := [], dirs := [], symlink := "aaaaaa", marker := none }, calls := [] }
    logLevel := "info"
    calls := [] }

/-- A handler of settings whose agent info accepts every log level. -/
def okSettings : handlers.Settings := { setLogLevelErr := fun _ => none }

/-- An acker of the handlers that succeeds. -/
def okFleetAcker : FleetAcker := { Ack := fun _ => none, Commit := none }

/-- A settings action of fleet that asks for the level debug. -/
def debugSettings : ActionSettings :=
  { actionID := "action-2", actionType := "SETTINGS", logLevel := "debug" }

/-- A settings action of fleet that asks for the level trace. -/
def traceSettings : ActionSettings :=
  { actionID := "action-3", actionType := "SETTINGS", logLevel := "trace" }

/-- A managed application that was unenrolled: its state store holds an
unenroll action. -/
def unenrolledManaged : Managed :=
  { stateStoreActions := [.other "*fleetapi.ActionUnenroll" "action-4" "UNENROLL"]
    reloadIDErr := none
    upgrader := okUpgrader
    gatewayStartErr := none }

/-- A managed application whose state store holds a policy change and whose
gateway fails to start. -/
def enrolledManaged : Managed :=
  { stateStoreActions := [.other "*fleetapi.ActionPolicyChange" "action-5" "POLICY_CHANGE"]
    reloadIDErr := none
    upgrader := okUpgrader
    gatewayStartErr := some (.other "gateway") }

/-- An app action with a response. -/
def appAction0 : ActionApp :=
  { actionID := "action-6"
    actionType := "INPUT_ACTION"
    inputType := "osquery"
    data := "select 1"
    response := [("rows", "1")]
    startedAt := "t0"
    completedAt := "t1"
    error := "" }

/-- A fleet acker of agent `agent-1` whose client fails every request. -/
def offlineAcker : fleet.World :=
  { acker := { agentID := "agent-1", client := fun _ => some (.other "connection refused") }
    requests := [] }

/-- A disk of the running install `aaaaaa` with one state file and no marker. -/
def disk0 : Disk :=
  { files := [(["opt", "Elastic", "Agent", "state.enc"], "state"),
      (["opt", "Elastic", "Agent", "data", "elastic-agent-aaaaaa", "elastic-agent"], "old")]
    dirs := [["opt", "Elastic", "Agent", "data", "elastic-agent-aaaaaa"]]
    symlink := "aaaaaa"
    marker := none }

/-- An acker of the handlers whose `Ack` fails. -/
def rejectingFleetAcker : FleetAcker := { Ack := fun _ => some (.other "offline"), Commit := none }

/-- The marker of a manual upgrade from `aaaaaa` to `bbbbbb`: no action, not yet
acked. -/
def manualMarker : UpdateMarker :=
  { prevHash := "aaaaaa", hash := "bbbbbb", action := none, acked := false }

/-- A disk after a manual upgrade to `bbbbbb`, with the marker `manualMarker`. -/
def manualMarkedDisk : Disk :=
  { files := [(["opt", "Elastic", "Agent", "data", "elastic-agent-bbbbbb", "elastic-agent"], "new")]
    dirs := [["opt", "Elastic", "Agent", "data", "elastic-agent-bbbbbb"]]
    symlink := "bbbbbb"
    marker := some manualMarker }

/-- An installed agent run by root from the installed binary, without the force
flag, whose user declines every prompt. -/
def declinedUninstall : UninstallEnv :=
  { hasRoot := (true, none)
    permissionUser := "root"
    status := (.Installed, "")
    runningInstalled := true
    executablePath := "/opt/Elastic/Agent/elastic-agent"
    force := false
    confirm := fun _ => (false, none)
    installPath := "/opt/Elastic/Agent"
    configFile := "/opt/Elastic/Agent/elastic-agent.yml"
    uninstallErr := none
    errorText := fun _ => "error" }

/-- The configuration of the test "fail when the referenced named output doesn't
exist": the outputs `default` and `infosec1`, and inputs that use the outputs
`special` and `donotexist`. -/
def unknownOutputConfig : PolicyConfig :=
  { outputs :=
      [{ name := "default", type := "elasticsearch", options := [("hosts", "xxx")] },
        { name := "infosec1", type := "elasticsearch", options := [("hosts", "yyy")] }]
    inputs :=
      [{ type := "log", useOutput := some "special", options := [] },
        { type := "system/metrics", useOutput := some "special", options := [] },
        { type := "log", useOutput := some "donotexist", options := [] }] }

/-- The environment of the encryption in which every file access succeeds. -/
def okEncryptEnv : EncryptEnv :=
  { agentStateStoreYmlFile := "state.yml"
    agentStateStoreFile := "state.enc"
    agentConfigYmlFile := "fleet.yml"
    agentConfigFile := "fleet.enc"
    statErr := fun _ => none
    readErr := fun _ => none
    saveErr := fun _ => none
    removeErr := fun _ => none
    encrypt := fun b => "enc:" ++ b
    now := 9 }

/-- The environment of `okEncryptEnv` in which no file can be read. -/
def unreadableEncryptEnv : EncryptEnv := { okEncryptEnv with readErr := fun _ => some (.other "io") }

/-- A configuration directory after a rollback: `fleet.enc` exists, and
`fleet.yml` was modified after it. -/
def rolledBackDir : ConfigDir := fun p =>
  if p = "fleet.yml" then some { modTime := 5, content := "new" }
  else if p = "fleet.enc" then some { modTime := 3, content := "enc:old" }
  else none

/-- A configuration directory that holds `fleet.yml` only. -/
def plainDir : ConfigDir := fun p =>
  if p = "fleet.yml" then some { modTime := 5, content := "new" } else none

/-- An operating system on which every call of `unzip` succeeds. -/
def okUnzipEnv : UnzipEnv :=
  { mkdirAllErr := fun _ => none, openFileErr := fun _ => none, copyErr := fun _ => none }

/-- A file entry whose name climbs out of the directory it is unpacked in. -/
def climbingEntry : ZipEntry :=
  { name := "../evil", isDir := false, content := "x", openErr := none, closeErr := none }

/-- A file entry with a plain name. -/
def plainEntry : ZipEntry :=
  { name := "pkg/bin/agent", isDir := false, content := "x", openErr := none, closeErr := none }

/-- A file system in which the home
`/opt/elastic-agent-8.0.0/data/elastic-agent-aaaaaa`
runs the pipeline `default` with the process directory `filebeat--8.0.0`, and
every copy succeeds. -/
def versionedHomeEnv : CallbackEnv :=
  { readDir := fun dir =>
      if dir = "/opt/elastic-agent-8.0.0/data/elastic-agent-aaaaaa/run" then
        .ok [{ name := "default", isDir := true }]
      else if dir = "/opt/elastic-agent-8.0.0/data/elastic-agent-aaaaaa/run/default" then
        .ok [{ name := "filebeat--8.0.0", isDir := true }, { name := "lock", isDir := false }]
      else .ok []
    copyDirErr := fun _ _ => none }

/-- The environment of `watcherFailsEnv` in which nothing can be removed. -/
def rollbackFailsEnv : Env :=
  { watcherFailsEnv with removeAllErr := fun _ => some (.other "busy") }

/-- The environment of `watcherFailsEnv` with the home of an agent that runs
with an unversioned home, the top directory itself. -/
def unversionedHomeEnv : Env := { watcherFailsEnv with pathsHome := ["opt", "Elastic", "Agent"] }

/-- The environment of `watcherFailsEnv` in which the symlink cannot be pointed
back at the running install `aaaaaa`. -/
def relinkFailsEnv : Env :=
  { watcherFailsEnv with
    changeSymlinkErr := fun hash => if hash = "aaaaaa" then some (.other "busy") else none }

/-- The disk `disk0` on which an install tree of the hash `bbbbbb` is left from
an earlier attempt. -/
def staleTreeDisk : Disk :=
  { files := [(["opt", "Elastic", "Agent", "state.enc"], "state"),
      (["opt", "Elastic", "Agent", "data", "elastic-agent-aaaaaa", "elastic-agent"], "old"),
      (["opt", "Elastic", "Agent", "data", "elastic-agent-bbbbbb", "notes"], "kept")]
    dirs := [["opt", "Elastic", "Agent", "data", "elastic-agent-aaaaaa"],
      ["opt", "Elastic", "Agent", "data", "elastic-agent-bbbbbb"]]
    symlink := "aaaaaa"
    marker := none }

/-- The disk `disk0` with the symlink at the install `cccccc`, not at the
running one. -/
def otherLinkDisk : Disk := { disk0 with symlink := "cccccc" }

/-! # Theorems -/

/-! ## The calls of the download step -/

theorem not_mem_of_forall_true {cs : List Call} {P : Call → Bool}
    (h : ∀ c ∈ cs, P c = true) {x : Call} (hx : P x = false) : x ∉ cs := by
  intro hmem
  have := h x hmem
  simp [hx] at this

theorem composedDownload_eq (env : Env) (spec : Spec) (version : String)
    (ds : List Downloader) (acc : Option Err) :
    ∃ cs r, (∀ c ∈ cs, ∃ d res, c = .sourceDownload d spec version res) ∧
      ∀ w, composedDownload env spec version ds acc w = (r, ⟨w.disk, w.calls ++ cs⟩) := by
  induction ds generalizing acc with
  | nil => exact ⟨[], ("", acc), by simp, fun w => by simp [composedDownload]⟩
  | cons d rest ih =>
    rcases hres : env.downloadRes d spec version with ⟨path, _ | e⟩
    · refine ⟨[.sourceDownload d spec version (path, none)], (path, none), ?_, fun w => ?_⟩
      · simp
      · simp [composedDownload, hres, World.log]
    · obtain ⟨cs, r, hcs, hw⟩ := ih (some (appendErr acc e))
      refine ⟨.sourceDownload d spec version (path, some e) :: cs, r, ?_, fun w => ?_⟩
      · intro c hc
        rcases List.mem_cons.mp hc with rfl | hc
        · exact ⟨_, _, rfl⟩
        · exact hcs c hc
      · simp [composedDownload, hres, World.log, hw]

theorem composedVerify_eq (env : Env) (spec : Spec) (version : String)
    (vs : List Verifier) (acc : Option Err) :
    ∃ cs r, (∀ c ∈ cs, ∃ v res, c = .sourceVerify v spec version res) ∧
      ∀ w, composedVerify env spec version vs acc w = (r, ⟨w.disk, w.calls ++ cs⟩) := by
  induction vs generalizing acc with
  | nil => exact ⟨[], acc, by simp, fun w => by simp [composedVerify]⟩
  | cons v rest ih =>
    rcases hres : env.verifyErr v spec version with _ | e
    · refine ⟨[.sourceVerify v spec version none], none, ?_, fun w => ?_⟩
      · simp
      · simp [composedVerify, hres, World.log]
    · obtain ⟨cs, r, hcs, hw⟩ := ih (some (appendErr acc e))
      refine ⟨.sourceVerify v spec version (some e) :: cs, r, ?_, fun w => ?_⟩
      · intro c hc
        rcases List.mem_cons.mp hc with rfl | hc
        · exact ⟨_, _, rfl⟩
        · exact hcs c hc
      · simp [composedVerify, hres, World.log, hw]

theorem downloadArtifactBody_def (env : Env) (u : Upgrader) (version sourceURI : String)
    (w : World) :
    Upgrader.downloadArtifactBody env u version sourceURI w
      = match newVerifier env version (downloadSettings u sourceURI) with
        | .error err => (("", some (.wrap err "initiating verifier")), w)
        | .ok verifier =>
          match newDownloader env version (downloadSettings u sourceURI) with
          | .error err => (("", some (.wrap err "initiating fetcher")), w)
          | .ok fetcher =>
            match fetcherDownload env fetcher agentSpec version w with
            | ((_, some err), w) => (("", some (.wrap err "failed upgrade of agent binary")), w)
            | ((path, none), w) =>
              match verifierVerify env verifier agentSpec version w with
              | (some err, w) =>
                (("", some (.wrap err "failed verification of agent binary")), w)
              | (none, w) => ((path, none), w) := by
  unfold Upgrader.downloadArtifactBody Upgrader.downloadArtifactSteps downloadSettings
  simp only []
  cases newVerifier env version (downloadArtifact.settingsStore u sourceURI).settings with
  | error e => rfl
  | ok verifier =>
    cases newDownloader env version (downloadArtifact.settingsStore u sourceURI).settings with
    | error e => rfl
    | ok fetcher =>
      simp only []
      rcases fetcherDownload env fetcher agentSpec version w with ⟨⟨path, _ | e⟩, w1⟩
      · simp only []
        rcases verifierVerify env verifier agentSpec version w1 with ⟨_ | e, w2⟩ <;> rfl
      · rfl

theorem downloadArtifactBody_eq (env : Env) (u : Upgrader) (version sourceURI : String) :
    ∃ cs r, (∀ c ∈ cs, c.isFetchStep = true) ∧
      ∀ w, Upgrader.downloadArtifactBody env u version sourceURI w
        = (r, ⟨w.disk, w.calls ++ cs⟩) := by
  simp only [downloadArtifactBody_def]
  cases newVerifier env version (downloadSettings u sourceURI) with
  | error e =>
    exact ⟨[], ("", some (.wrap e "initiating verifier")), by simp, fun w => by simp⟩
  | ok verifier =>
    cases newDownloader env version (downloadSettings u sourceURI) with
    | error e =>
      exact ⟨[], ("", some (.wrap e "initiating fetcher")), by simp, fun w => by simp⟩
    | ok fetcher =>
      obtain ⟨cs₁, r₁, h₁, hw₁⟩ := composedDownload_eq env agentSpec version fetcher none
      obtain ⟨cs₂, r₂, h₂, hw₂⟩ := composedVerify_eq env agentSpec version verifier none
      rcases r₁ with ⟨path, _ | e⟩
      · rcases r₂ with _ | e₂
        · refine ⟨cs₁ ++ [.fetcherDownload agentSpec version (path, none)] ++ cs₂
            ++ [.verifierVerify agentSpec version none], (path, none), ?_, fun w => ?_⟩
          · intro c hc
            simp only [List.mem_append, List.mem_singleton] at hc
            rcases hc with ((hc | rfl) | hc) | rfl
            · obtain ⟨d, res, rfl⟩ := h₁ c hc; rfl
            · rfl
            · obtain ⟨d, res, rfl⟩ := h₂ c hc; rfl
            · rfl
          · simp [fetcherDownload, verifierVerify, hw₁, hw₂, World.log]
        · refine ⟨cs₁ ++ [.fetcherDownload agentSpec version (path, none)] ++ cs₂
            ++ [.verifierVerify agentSpec version (some e₂)],
            ("", some (.wrap e₂ "failed verification of agent binary")), ?_, fun w => ?_⟩
          · intro c hc
            simp only [List.mem_append, List.mem_singleton] at hc
            rcases hc with ((hc | rfl) | hc) | rfl
            · obtain ⟨d, res, rfl⟩ := h₁ c hc; rfl
            · rfl
            · obtain ⟨d, res, rfl⟩ := h₂ c hc; rfl
            · rfl
          · simp [fetcherDownload, verifierVerify, hw₁, hw₂, World.log]
      · refine ⟨cs₁ ++ [.fetcherDownload agentSpec version (path, some e)],
          ("", some (.wrap e "failed upgrade of agent binary")), ?_, fun w => ?_⟩
        · intro c hc
          simp only [List.mem_append, List.mem_singleton] at hc
          rcases hc with hc | rfl
          · obtain ⟨d, res, rfl⟩ := h₁ c hc; rfl
          · rfl
        · simp [fetcherDownload, hw₁, World.log]

theorem downloadArtifact_eq (env : Env) (u : Upgrader) (version sourceURI : String) :
    ∃ cs r, (∀ c ∈ cs, c.isFetchStep = true) ∧
      ∀ w, Upgrader.downloadArtifact env u version sourceURI w
        = (r, ⟨w.disk, w.calls ++ (cs ++ [.downloadArtifact version sourceURI r])⟩) := by
  obtain ⟨cs, r, hcs, hw⟩ := downloadArtifactBody_eq env u version sourceURI
  exact ⟨cs, r, hcs, fun w => by simp [Upgrader.downloadArtifact, hw, World.log]⟩

theorem downloadArtifact_run (env : Env) (u : Upgrader) (version sourceURI : String)
    (w : World) :
    Upgrader.downloadArtifact env u version sourceURI w
      = (downloadResult env u version sourceURI,
          ⟨w.disk, w.calls ++ downloadCalls env u version sourceURI⟩) := by
  obtain ⟨cs, r, _, hw⟩ := downloadArtifact_eq env u version sourceURI
  simp [downloadResult, downloadCalls, hw, World.start]

theorem downloadCalls_eq (env : Env) (u : Upgrader) (version sourceURI : String) :
    ∃ cs, (∀ c ∈ cs, c.isFetchStep = true) ∧
      downloadCalls env u version sourceURI
        = cs ++ [.downloadArtifact version sourceURI (downloadResult env u version sourceURI)] := by
  obtain ⟨cs, r, hcs, hw⟩ := downloadArtifact_eq env u version sourceURI
  exact ⟨cs, hcs, by simp [downloadResult, downloadCalls, hw, World.start]⟩

/-! ## The exits of the body of Upgrade -/

theorem ackAction_run (u : Upgrader) (action : Option ActionUpgrade) (w : World) :
    u.ackAction action w = (ackResult u action, ⟨w.disk, w.calls ++ ackCalls u action⟩) := by
  unfold ackResult ackCalls Upgrader.ackAction
  cases u.acker.Ack action <;> cases u.acker.Commit <;> simp [World.log, World.start]

theorem capsBlocked_run (u : Upgrader) (a : Action) (w : World) :
    u.capsBlocked a w = (isBlocked u a, ⟨w.disk, w.calls ++ capsCalls u a⟩) := by
  unfold Upgrader.capsBlocked isBlocked capsCalls
  cases u.caps <;> simp [World.log]

theorem rollbackInstall_run (env : Env) (hash : String) (w : World) :
    rollbackInstall env hash w
      = ⟨rollbackDisk env hash w.disk, w.calls ++ rollbackCalls env hash⟩ := by
  simp [rollbackInstall, rollbackDisk, rollbackCalls, os.RemoveAll, ChangeSymlink]

theorem upgradeBody_exit (env : Env) (u : Upgrader) (a : Action) (reexecNow : Bool) (d : Disk) :
    UpgradeExit env u a reexecNow d (Upgrader.upgradeBody env u a reexecNow (.start d)).1
      (Upgrader.upgradeBody env u a reexecNow (.start d)).2 := by
  unfold Upgrader.upgradeBody
  simp only [cleanNonMatchingVersionsFromDownloads, capsBlocked_run, Upgrader.reportUpdating,
    World.log, World.start, downloadArtifact_run, Upgrader.unpack, copyActionStore,
    ChangeSymlink, Upgrader.markUpgrade, InvokeWatcher, rollbackInstall_run, os.RemoveAll,
    ackAction_run]
  cases hup : u.upgradeable
  · simpa [errNotUpgradeable] using UpgradeExit.notUpgradeable hup
  cases hb : isBlocked u a
  swap
  · simpa [cleanCall] using UpgradeExit.blocked hup hb
  rcases hdl : downloadResult env u a.version (u.sourceURI a.sourceURI) with ⟨p, _ | e⟩
  swap
  · simpa [fetchCalls, cleanCall, updatingCall] using UpgradeExit.downloadFailed hup hb p e hdl
  rcases hun : env.unpackRes a.version p with ⟨h, _ | e⟩
  swap
  · simpa [fetchCalls, cleanCall, updatingCall, Upgrader.unpack.effect, hun]
      using UpgradeExit.unpackFailed hup hb p hdl h e hun
  by_cases hne : h = ""
  · subst hne
    simpa [fetchCalls, cleanCall, updatingCall, Upgrader.unpack.effect, hun]
      using UpgradeExit.unknownHash hup hb p hdl hun
  cases hsame : strings.HasPrefix env.releaseCommit h
  swap
  · cases hfa : a.fleetAction with
    | none =>
      simpa [fetchCalls, cleanCall, updatingCall, Upgrader.unpack.effect, hun, hne, hsame, hfa]
        using UpgradeExit.sameVersionManual hup hb p hdl h hun hne hsame hfa
    | some action =>
      simpa [fetchCalls, cleanCall, updatingCall, Upgrader.unpack.effect, hun, hne, hsame, hfa]
        using UpgradeExit.sameVersion hup hb p hdl h hun hne hsame action hfa
  have hd1 : Upgrader.unpack.effect env a.version p d
      = d.unpacked (treePath env h) (env.unpackFiles a.version p) := by
    simp [Upgrader.unpack.effect, hun]
  cases hcopy : copyResult env a p h d with
  | some e =>
    have hcopy2 := hcopy
    unfold copyResult at hcopy2
    simpa [fetchCalls, cleanCall, updatingCall, hd1, hun, hne, hsame, copiedDisk, hcopy2]
      using UpgradeExit.copyFailed hup hb p hdl h hun hne hsame e hcopy
  | none =>
    have hcopy2 := hcopy
    unfold copyResult at hcopy2
    cases hswap : env.changeSymlinkErr h with
    | some e =>
      simpa [fetchCalls, cleanCall, updatingCall, hd1, hun, hne, hsame, copiedDisk, hcopy2,
        hswap, ChangeSymlink.effect]
        using UpgradeExit.swapFailed hup hb p hdl h hun hne hsame hcopy e hswap
    | none =>
      cases hmark : env.markUpgradeErr h a with
      | some e =>
        simpa [fetchCalls, cleanCall, updatingCall, hd1, hun, hne, hsame, copiedDisk, hcopy2,
          hswap, ChangeSymlink.effect, hmark, Upgrader.markUpgrade.effect]
          using UpgradeExit.markFailed hup hb p hdl h hun hne hsame hcopy hswap e hmark
      | none =>
        cases hwatch : env.invokeWatcherErr with
        | some e =>
          simpa [fetchCalls, cleanCall, updatingCall, hd1, hun, hne, hsame, copiedDisk, hcopy2,
            hswap, ChangeSymlink.effect, hmark, Upgrader.markUpgrade.effect, hwatch]
            using UpgradeExit.watcherFailed hup hb p hdl h hun hne hsame hcopy hswap hmark e
              hwatch
        | none =>
          cases reexecNow with
          | true =>
            simpa [fetchCalls, cleanCall, updatingCall, hd1, hun, hne, hsame, copiedDisk,
              hcopy2, hswap, ChangeSymlink.effect, hmark, Upgrader.markUpgrade.effect, hwatch,
              upgradeCallback]
              using UpgradeExit.reexec hup hb p hdl h hun hne hsame hcopy hswap hmark hwatch rfl
          | false =>
            simpa [fetchCalls, cleanCall, updatingCall, hd1, hun, hne, hsame, copiedDisk,
              hcopy2, hswap, ChangeSymlink.effect, hmark, Upgrader.markUpgrade.effect, hwatch,
              upgradeCallback]
              using UpgradeExit.returned hup hb p hdl h hun hne hsame hcopy hswap hmark hwatch
                rfl

theorem fetchCalls_isPrelude (env : Env) (u : Upgrader) (a : Action) :
    ∀ c ∈ fetchCalls env u a, c.isPrelude = true := by
  obtain ⟨cs, hcs, hdl⟩ := downloadCalls_eq env u a.version (u.sourceURI a.sourceURI)
  intro c hc
  simp only [fetchCalls, hdl, capsCalls, List.mem_append, List.mem_singleton] at hc
  rcases hc with ((rfl | hc) | rfl) | hc | rfl
  · rfl
  · cases hcaps : u.caps <;> simp [hcaps] at hc
    subst hc
    rfl
  · rfl
  · have := hcs c hc
    cases c <;> simp_all [Call.isFetchStep, Call.isPrelude]
  · rfl

theorem isPrelude_quiet {c : Call} (h : c.isPrelude = true) :
    c.isAckerAck = false ∧ c.isAckerCommit = false ∧ c.isFailedReport = false
      ∧ c.isInstallStep = false := by
  cases c <;>
    simp_all [Call.isPrelude, Call.isFetchStep, Call.isAckerAck, Call.isAckerCommit,
      Call.isFailedReport, Call.isInstallStep, Call.isSwapStep]

theorem quiet_append {l₁ l₂ : List Call} {P : Call → Prop} (h₁ : ∀ c ∈ l₁, P c)
    (h₂ : ∀ c ∈ l₂, P c) : ∀ c ∈ l₁ ++ l₂, P c := by
  intro c hc
  rcases List.mem_append.mp hc with hc | hc
  · exact h₁ c hc
  · exact h₂ c hc

theorem fetchCalls_quiet (env : Env) (u : Upgrader) (a : Action) :
    ∀ c ∈ fetchCalls env u a, c.isAckerAck = false ∧ c.isFailedReport = false :=
  fun c hc =>
    ⟨(isPrelude_quiet (fetchCalls_isPrelude env u a c hc)).1,
      (isPrelude_quiet (fetchCalls_isPrelude env u a c hc)).2.2.1⟩

theorem upgradeBody_error_quiet (env : Env) (u : Upgrader) (a : Action) (reexecNow : Bool)
    (d : Disk) (cb : Option ShutdownCallbackFn) (err : Err) (w : World)
    (h : UpgradeExit env u a reexecNow d (cb, some err) w) :
    ∀ c ∈ w.calls, c.isAckerAck = false ∧ c.isFailedReport = false := by
  cases h
  case notUpgradeable => simp
  all_goals
    first
    | refine quiet_append (quiet_append (fetchCalls_quiet env u a) ?_) ?_ <;>
        simp [rollbackCalls, Call.isAckerAck, Call.isFailedReport]
    | (refine quiet_append (fetchCalls_quiet env u a) ?_
       simp [cleanCall, Call.isAckerAck, Call.isFailedReport])

theorem upgradeDeferred_run (env : Env) (u : Upgrader) (a : Action) (err : Option Err)
    (w : World) :
    u.upgradeDeferred env a err w = ⟨w.disk, w.calls ++ deferredCalls env u a err⟩ := by
  unfold Upgrader.upgradeDeferred deferredCalls
  cases err <;> cases a.fleetAction <;> simp [Upgrader.reportFailure, World.log]

theorem Upgrade_exit (env : Env) (u : Upgrader) (a : Action) (reexecNow : Bool) (d : Disk) :
    ∃ res w, UpgradeExit env u a reexecNow d res w ∧
      Upgrader.Upgrade env u a reexecNow (.start d)
        = (res, ⟨w.disk, w.calls ++ deferredCalls env u a res.2⟩) := by
  have hexit := upgradeBody_exit env u a reexecNow d
  rcases hx : Upgrader.upgradeBody env u a reexecNow (.start d) with ⟨⟨cb, err⟩, w⟩
  rw [hx] at hexit
  exact ⟨(cb, err), w, hexit, by simp [Upgrader.Upgrade, hx, upgradeDeferred_run]⟩

theorem not_mem_fetchCalls (env : Env) (u : Upgrader) (a : Action) {x : Call}
    (hx : x.isPrelude = false) : x ∉ fetchCalls env u a :=
  not_mem_of_forall_true (fetchCalls_isPrelude env u a) hx

theorem not_mem_deferredCalls (env : Env) (u : Upgrader) (a : Action) (err : Option Err)
    {x : Call} (hx : (x.isAckerAck || x.isFailedReport) = false) :
    x ∉ deferredCalls env u a err := by
  intro hmem
  unfold deferredCalls at hmem
  rcases err with _ | e
  · simp at hmem
  · rcases hfa : a.fleetAction with _ | action <;> rw [hfa] at hmem <;> simp at hmem
    rcases hmem with rfl | rfl <;> simp [Call.isAckerAck, Call.isFailedReport] at hx

theorem removeAll_nothingWithin (d : Disk) (dir : Path) : (d.removeAll dir).nothingWithin dir := by
  constructor
  · intro f hf
    simpa [Disk.removeAll, Path.within] using (List.mem_filter.mp hf).2
  · intro q hq
    simpa [Disk.removeAll, Path.within] using (List.mem_filter.mp hq).2

theorem rollbackDisk_effect (env : Env) (h : String) (d : Disk) :
    (env.removeAllErr (treePath env h) = none →
      (rollbackDisk env h d).nothingWithin (treePath env h))
    ∧ (env.changeSymlinkErr env.releaseShortCommit = none →
      (rollbackDisk env h d).symlink = env.releaseShortCommit) := by
  constructor
  · intro hr
    have := removeAll_nothingWithin d (treePath env h)
    unfold rollbackDisk ChangeSymlink.effect os.RemoveAll.effect
    cases env.changeSymlinkErr env.releaseShortCommit <;> simpa [hr, Disk.nothingWithin] using this
  · intro hc
    simp [rollbackDisk, ChangeSymlink.effect, hc]

theorem ackCalls_isAckStep (u : Upgrader) (action : Option ActionUpgrade) :
    ∀ c ∈ ackCalls u action, c.isAckStep = true := by
  intro c hc
  unfold ackCalls Upgrader.ackAction at hc
  rcases hack : u.acker.Ack action with _ | e <;> rcases hcom : u.acker.Commit with _ | e2 <;>
    simp [hack, hcom, World.log, World.start] at hc
  all_goals rcases hc with rfl | rfl | rfl <;> rfl

theorem not_mem_ackCalls (u : Upgrader) (action : Option ActionUpgrade) {x : Call}
    (hx : x.isAckStep = false) : x ∉ ackCalls u action :=
  not_mem_of_forall_true (ackCalls_isAckStep u action) hx

theorem not_mem_capsCalls (u : Upgrader) (a : Action) {x : Call}
    (hx : x.isPrelude = false) : x ∉ capsCalls u a := by
  intro hmem
  unfold capsCalls at hmem
  rcases hcaps : u.caps with _ | apply <;> rw [hcaps] at hmem <;> simp at hmem
  subst hmem
  simp [Call.isPrelude] at hx

/-! ## C1 -/

/-- C1: whenever `Upgrader.Upgrade` returns an error and the action carries a
fleet action, the calls of the run end with one `acker.Ack` of that action
followed by the report of Failed with the text of the returned error, and no
earlier call is an `acker.Ack` or a report of Failed; when the action carries no
fleet action, no call of the run is an `acker.Ack` or a report of Failed. -/
theorem upgrade_failure_acked_and_reported (env : Env) (u : Upgrader) (a : Action)
    (reexecNow : Bool) (d : Disk) (cb : Option ShutdownCallbackFn) (err : Err)
    (h : (Upgrader.Upgrade env u a reexecNow (.start d)).1 = (cb, some err)) :
    (∀ action, a.fleetAction = some action →
      ∃ pre, (Upgrader.Upgrade env u a reexecNow (.start d)).2.calls
          = pre ++ [.ackerAck (some action) (u.acker.Ack (some action)),
              .OnStateChange "" agentName { status := .Failed, message := env.errorText err }]
        ∧ ∀ c ∈ pre, c.isAckerAck = false ∧ c.isFailedReport = false)
    ∧ (a.fleetAction = none →
      ∀ c ∈ (Upgrader.Upgrade env u a reexecNow (.start d)).2.calls,
        c.isAckerAck = false ∧ c.isFailedReport = false) := by
  have hexit := upgradeBody_exit env u a reexecNow d
  rcases hx : Upgrader.upgradeBody env u a reexecNow (.start d) with ⟨⟨cb1, err1⟩, w1⟩
  rw [hx] at hexit
  simp only [Upgrader.Upgrade, hx] at h ⊢
  obtain ⟨rfl, rfl⟩ := Prod.mk.inj h
  have hquiet := upgradeBody_error_quiet env u a reexecNow d _ _ _ hexit
  constructor
  · intro action hfa
    exact ⟨w1.calls, by simp [Upgrader.upgradeDeferred, hfa, Upgrader.reportFailure, World.log],
      hquiet⟩
  · intro hfa
    simpa [Upgrader.upgradeDeferred, hfa] using hquiet

/-- Witness of C1: the watcher fails to start in a fleet upgrade. -/
theorem upgrade_failure_acked_and_reported_witness :
    (Upgrader.Upgrade { okEnv with invokeWatcherErr := some (.other "spawn") } okUpgrader
        fleetAct true (.start disk0)).1
      = (none, some (.wrap (.other "spawn") "failed to invoke rollback watcher"))
    ∧ ∃ pre, (Upgrader.Upgrade { okEnv with invokeWatcherErr := some (.other "spawn") }
          okUpgrader fleetAct true (.start disk0)).2.calls
        = pre ++ [.ackerAck (some fleetUpgrade) none,
            .OnStateChange "" agentName { status := .Failed, message := "upgrade failed" }]
      ∧ ∀ c ∈ pre, c.isAckerAck = false ∧ c.isFailedReport = false :=
  ⟨by decide,
    (upgrade_failure_acked_and_reported { okEnv with invokeWatcherErr := some (.other "spawn") }
      okUpgrader fleetAct true disk0 none
      (.wrap (.other "spawn") "failed to invoke rollback watcher") (by decide)).1
      fleetUpgrade rfl⟩

/-! ## C2 -/

/-- C2: if in a run of `Upgrader.Upgrade` the call `markUpgrade` for the new
hash `h` returned an error, or returned nil and `InvokeWatcher` returned an
error (both happen only after `ChangeSymlink` for `h` returned nil), then
`Upgrade` returns an error, the last calls before the deferred failure report
are `os.RemoveAll` of the install tree of `h` under the data path followed by
`ChangeSymlink` to `release.ShortCommit()`, and `ReExec` is never called; when
that `RemoveAll` succeeds nothing is left at or below the tree, and when that
`ChangeSymlink` succeeds the symlink points at the short commit. -/
theorem upgrade_rolls_back_after_swap (env : Env) (u : Upgrader) (a : Action)
    (reexecNow : Bool) (d : Disk) (h : String) (e : Err)
    (hfail : Call.markUpgrade h a (some e)
        ∈ (Upgrader.Upgrade env u a reexecNow (.start d)).2.calls
      ∨ (Call.markUpgrade h a none
          ∈ (Upgrader.Upgrade env u a reexecNow (.start d)).2.calls
        ∧ Call.InvokeWatcher (some e)
          ∈ (Upgrader.Upgrade env u a reexecNow (.start d)).2.calls)) :
    Call.ChangeSymlink h none ∈ (Upgrader.Upgrade env u a reexecNow (.start d)).2.calls
    ∧ (∃ err, (Upgrader.Upgrade env u a reexecNow (.start d)).1 = (none, some err)
      ∧ ∃ pre, (Upgrader.Upgrade env u a reexecNow (.start d)).2.calls
        = pre ++ [.RemoveAll (treePath env h) (env.removeAllErr (treePath env h)),
            .ChangeSymlink env.releaseShortCommit
              (env.changeSymlinkErr env.releaseShortCommit)]
          ++ deferredCalls env u a (some err))
    ∧ (∀ cb, Call.ReExec cb ∉ (Upgrader.Upgrade env u a reexecNow (.start d)).2.calls)
    ∧ (env.removeAllErr (treePath env h) = none →
      (Upgrader.Upgrade env u a reexecNow (.start d)).2.disk.nothingWithin (treePath env h))
    ∧ (env.changeSymlinkErr env.releaseShortCommit = none →
      (Upgrader.Upgrade env u a reexecNow (.start d)).2.disk.symlink
        = env.releaseShortCommit) := by
  obtain ⟨res, w, hexit, hrun⟩ := Upgrade_exit env u a reexecNow d
  rw [hrun] at hfail ⊢
  clear hrun
  simp only at hfail ⊢
  cases hexit
  case markFailed hup hb p hdl h1 hun hne hnew hcopy hswap1 e1 hmark =>
    simp [not_mem_fetchCalls, not_mem_deferredCalls, rollbackCalls, Call.isPrelude,
      Call.isFetchStep, Call.isAckerAck, Call.isFailedReport] at hfail
    obtain ⟨rfl, rfl⟩ := hfail
    refine ⟨by simp, ⟨e, rfl, fetchCalls env u a ++ [.unpack a.version p (h, none),
        .copyActionStore h none, .ChangeSymlink h none, .markUpgrade h a (some e)],
        by simp [rollbackCalls]⟩, ?_,
      (rollbackDisk_effect env h _).1, (rollbackDisk_effect env h _).2⟩
    simp [not_mem_fetchCalls, not_mem_deferredCalls, rollbackCalls, Call.isPrelude,
      Call.isFetchStep, Call.isAckerAck, Call.isFailedReport]
  case watcherFailed hup hb p hdl h1 hun hne hnew hcopy hswap1 hmark e1 hwatch =>
    simp [not_mem_fetchCalls, not_mem_deferredCalls, rollbackCalls, Call.isPrelude,
      Call.isFetchStep, Call.isAckerAck, Call.isFailedReport] at hfail
    obtain ⟨rfl, rfl⟩ := hfail
    refine ⟨by simp, ⟨_, rfl, fetchCalls env u a ++ [.unpack a.version p (h, none),
        .copyActionStore h none, .ChangeSymlink h none, .markUpgrade h a none,
        .InvokeWatcher (some e)], by simp [rollbackCalls]⟩, ?_,
      (rollbackDisk_effect env h _).1, (rollbackDisk_effect env h _).2⟩
    simp [not_mem_fetchCalls, not_mem_deferredCalls, rollbackCalls, Call.isPrelude,
      Call.isFetchStep, Call.isAckerAck, Call.isFailedReport]
  all_goals
    simp [not_mem_fetchCalls, not_mem_deferredCalls, not_mem_ackCalls, not_mem_capsCalls,
      rollbackCalls, Call.isPrelude, Call.isFetchStep, Call.isAckerAck, Call.isFailedReport,
      Call.isAckStep, cleanCall] at hfail

/-- Witness of C2: the watcher fails to start after the marker was written. -/
theorem upgrade_rolls_back_after_swap_witness :
    (Call.markUpgrade "bbbbbb" fleetAct none
        ∈ (Upgrader.Upgrade watcherFailsEnv okUpgrader fleetAct true (.start disk0)).2.calls
      ∧ Call.InvokeWatcher (some (.other "spawn"))
        ∈ (Upgrader.Upgrade watcherFailsEnv okUpgrader fleetAct true (.start disk0)).2.calls)
    ∧ (∀ cb, Call.ReExec cb
        ∉ (Upgrader.Upgrade watcherFailsEnv okUpgrader fleetAct true (.start disk0)).2.calls)
    ∧ (Upgrader.Upgrade watcherFailsEnv okUpgrader fleetAct true (.start disk0)).2.disk.symlink
        = "aaaaaa" :=
  ⟨by decide,
    (upgrade_rolls_back_after_swap watcherFailsEnv okUpgrader fleetAct true disk0 "bbbbbb"
      (.other "spawn") (Or.inr (by decide))).2.2.1,
    (upgrade_rolls_back_after_swap watcherFailsEnv okUpgrader fleetAct true disk0 "bbbbbb"
      (.other "spawn") (Or.inr (by decide))).2.2.2.2 rfl⟩

/-! ## C3 -/

theorem within_append (dir rest : Path) : Path.within (dir ++ rest) dir = true := by
  simp [Path.within]

theorem WriteFile_frame (env : Env) (dir : Path) (name content : String) (d : Disk) :
    (os.WriteFile env (Path.join dir name) content d).2.files.filter
        (fun f => !(dir.isPrefixOf f.1))
      = d.files.filter (fun f => !(dir.isPrefixOf f.1))
    ∧ (os.WriteFile env (Path.join dir name) content d).2.dirs = d.dirs
    ∧ (os.WriteFile env (Path.join dir name) content d).2.symlink = d.symlink
    ∧ (os.WriteFile env (Path.join dir name) content d).2.marker = d.marker := by
  unfold os.WriteFile
  cases env.writeFileErr (Path.join dir name) with
  | some e => simp
  | none =>
    refine ⟨?_, rfl, rfl, rfl⟩
    have hpre : List.isPrefixOf dir (dir ++ [name]) = true := by simp
    simp only [Path.join, List.filter_cons, hpre, Bool.not_true, Bool.false_eq_true, if_false,
      List.filter_filter]
    apply List.filter_congr
    intro f _
    by_cases hf : List.isPrefixOf dir f.1 = true
    · simp [hf]
    · have hne : f.1 ≠ dir ++ [name] := fun heq => hf (heq ▸ hpre)
      simp [hf, hne]

theorem copyActionStoreLoop_frame (env : Env) (dir : Path) (paths : List Path) (d : Disk) :
    (copyActionStoreLoop env dir paths d).2.files.filter (fun f => !(dir.isPrefixOf f.1))
      = d.files.filter (fun f => !(dir.isPrefixOf f.1))
    ∧ (copyActionStoreLoop env dir paths d).2.dirs = d.dirs
    ∧ (copyActionStoreLoop env dir paths d).2.symlink = d.symlink
    ∧ (copyActionStoreLoop env dir paths d).2.marker = d.marker := by
  induction paths generalizing d with
  | nil => simp [copyActionStoreLoop]
  | cons q rest ih =>
    unfold copyActionStoreLoop
    simp only []
    cases os.ReadFile env q d with
    | notExist => exact ih d
    | failed e => simp
    | ok content =>
      have hw := WriteFile_frame env dir (Path.base q) content d
      rcases hres : os.WriteFile env (Path.join dir (Path.base q)) content d with ⟨_ | e, d1⟩
      · rw [hres] at hw
        simp only [hres] at hw ⊢
        obtain ⟨h1, h2, h3, h4⟩ := ih d1
        exact ⟨h1.trans hw.1, h2.trans hw.2.1, h3.trans hw.2.2.1, h4.trans hw.2.2.2⟩
      · rw [hres] at hw
        simpa [hres] using hw

theorem copiedDisk_frame (env : Env) (a : Action) (p h : String) (d : Disk)
    (hhome : Path.dir env.pathsHome = env.pathsData) :
    (copiedDisk env a p h d).files.filter (fun f => !((treePath env h).isPrefixOf f.1))
      = d.files.filter (fun f => !((treePath env h).isPrefixOf f.1))
    ∧ (copiedDisk env a p h d).dirs = treePath env h :: d.dirs
    ∧ (copiedDisk env a p h d).symlink = d.symlink
    ∧ (copiedDisk env a p h d).marker = d.marker := by
  have hdir : newHome env h = treePath env h := by simp [newHome, treePath, hhome]
  obtain ⟨h1, h2, h3, h4⟩ := copyActionStoreLoop_frame env (treePath env h) (storePaths env)
    (d.unpacked (treePath env h) (env.unpackFiles a.version p))
  unfold copiedDisk copyActionStore.run
  rw [hdir]
  refine ⟨?_, h2, h3, h4⟩
  rw [h1]
  simp [Disk.unpacked, List.filter_append, List.filter_map, List.filter_eq_nil_iff]

theorem rollbackDisk_restores (env : Env) (a : Action) (p h : String) (d D : Disk)
    (hhome : Path.dir env.pathsHome = env.pathsData)
    (hfresh : d.nothingWithin (treePath env h))
    (hrm : env.removeAllErr (treePath env h) = none)
    (hcs : env.changeSymlinkErr env.releaseShortCommit = none)
    (hfiles : D.files = (copiedDisk env a p h d).files)
    (hdirs : D.dirs = (copiedDisk env a p h d).dirs) :
    rollbackDisk env h D
      = { files := d.files, dirs := d.dirs, symlink := env.releaseShortCommit,
          marker := D.marker } := by
  obtain ⟨h1, h2, _, _⟩ := copiedDisk_frame env a p h d hhome
  have hf : d.files.filter (fun f => !((treePath env h).isPrefixOf f.1)) = d.files := by
    rw [List.filter_eq_self]
    intro f hf
    simpa [Path.within] using hfresh.1 f hf
  have hd : d.dirs.filter (fun q => !((treePath env h).isPrefixOf q)) = d.dirs := by
    rw [List.filter_eq_self]
    intro q hq
    simpa [Path.within] using hfresh.2 q hq
  simp [rollbackDisk, ChangeSymlink.effect, os.RemoveAll.effect, hrm, hcs, Disk.removeAll,
    hfiles, hdirs, h1, h2, hf, hd, List.filter_cons]

/-- C3, as stated, fails, in each of five runs in which the watcher fails to
start and `Upgrade` rolls back.  When `os.RemoveAll` fails in the rollback, its
error is dropped and the state file `copyActionStore` copied stays on disk.
When `ChangeSymlink` fails in the rollback, its error is dropped and the symlink
stays at the new install.  When an install tree of the new hash was on disk
before, the rollback removes it.  When the symlink was not at
`release.ShortCommit()` before, it is there after.  When the home is not
directly under the data path, the copied state file is outside the tree the
rollback removes and stays on disk. -/
theorem rollback_not_restoring_counterexample :
    (Call.InvokeWatcher (some (.other "spawn"))
        ∈ (Upgrader.Upgrade rollbackFailsEnv okUpgrader fleetAct true (.start disk0)).2.calls
      ∧ Call.RemoveAll (treePath rollbackFailsEnv "bbbbbb") (some (.other "busy"))
        ∈ (Upgrader.Upgrade rollbackFailsEnv okUpgrader fleetAct true (.start disk0)).2.calls
      ∧ (["opt", "Elastic", "Agent", "data", "elastic-agent-bbbbbb", "state.enc"], "state")
        ∈ (Upgrader.Upgrade rollbackFailsEnv okUpgrader fleetAct true (.start disk0)).2.disk.files
      ∧ (["opt", "Elastic", "Agent", "data", "elastic-agent-bbbbbb", "state.enc"], "state")
        ∉ disk0.files)
    ∧ (Call.ChangeSymlink "aaaaaa" (some (.other "busy"))
        ∈ (Upgrader.Upgrade relinkFailsEnv okUpgrader fleetAct true (.start disk0)).2.calls
      ∧ disk0.symlink = "aaaaaa"
      ∧ (Upgrader.Upgrade relinkFailsEnv okUpgrader fleetAct true (.start disk0)).2.disk.symlink
        = "bbbbbb")
    ∧ (Call.RemoveAll (treePath watcherFailsEnv "bbbbbb") none
        ∈ (Upgrader.Upgrade watcherFailsEnv okUpgrader fleetAct true
            (.start staleTreeDisk)).2.calls
      ∧ (["opt", "Elastic", "Agent", "data", "elastic-agent-bbbbbb", "notes"], "kept")
        ∈ staleTreeDisk.files
      ∧ (["opt", "Elastic", "Agent", "data", "elastic-agent-bbbbbb", "notes"], "kept")
        ∉ (Upgrader.Upgrade watcherFailsEnv okUpgrader fleetAct true
            (.start staleTreeDisk)).2.disk.files)
    ∧ (Call.ChangeSymlink "aaaaaa" none
        ∈ (Upgrader.Upgrade watcherFailsEnv okUpgrader fleetAct true
            (.start otherLinkDisk)).2.calls
      ∧ otherLinkDisk.symlink = "cccccc"
      ∧ (Upgrader.Upgrade watcherFailsEnv okUpgrader fleetAct true
            (.start otherLinkDisk)).2.disk.symlink = "aaaaaa")
    ∧ (Call.RemoveAll (treePath unversionedHomeEnv "bbbbbb") none
        ∈ (Upgrader.Upgrade unversionedHomeEnv okUpgrader fleetAct true (.start disk0)).2.calls
      ∧ (["opt", "Elastic", "elastic-agent-bbbbbb", "state.enc"], "state")
        ∈ (Upgrader.Upgrade unversionedHomeEnv okUpgrader fleetAct true
            (.start disk0)).2.disk.files
      ∧ (["opt", "Elastic", "elastic-agent-bbbbbb", "state.enc"], "state") ∉ disk0.files) := by
  decide

/-- C3, amended: let the home be an install directory directly under the data
path, let nothing be on disk at or below the install tree of the new hash `h`
before the upgrade, let the symlink point at `release.ShortCommit()`, and let
both calls of the rollback succeed.  If `Upgrade` rolled back because
`markUpgrade` failed or because `InvokeWatcher` failed, the files (install
trees and copied action-store files), the directories and the symlink target
after it are those before it.  Nothing is said of the upgrade marker. -/
theorem rollback_restores_trees_and_symlink (env : Env) (u : Upgrader) (a : Action)
    (reexecNow : Bool) (d : Disk) (h : String) (e : Err)
    (hhome : Path.dir env.pathsHome = env.pathsData)
    (hfresh : d.nothingWithin (treePath env h))
    (hsym : d.symlink = env.releaseShortCommit)
    (hrm : env.removeAllErr (treePath env h) = none)
    (hcs : env.changeSymlinkErr env.releaseShortCommit = none)
    (hfail : Call.markUpgrade h a (some e)
        ∈ (Upgrader.Upgrade env u a reexecNow (.start d)).2.calls
      ∨ (Call.markUpgrade h a none ∈ (Upgrader.Upgrade env u a reexecNow (.start d)).2.calls
        ∧ Call.InvokeWatcher (some e)
          ∈ (Upgrader.Upgrade env u a reexecNow (.start d)).2.calls)) :
    (Upgrader.Upgrade env u a reexecNow (.start d)).2.disk.files = d.files
    ∧ (Upgrader.Upgrade env u a reexecNow (.start d)).2.disk.dirs = d.dirs
    ∧ (Upgrader.Upgrade env u a reexecNow (.start d)).2.disk.symlink = d.symlink := by
  obtain ⟨res, w, hexit, hrun⟩ := Upgrade_exit env u a reexecNow d
  rw [hrun] at hfail ⊢
  clear hrun
  simp only at hfail ⊢
  rcases hfail with hfail | hfail
  · cases hexit
    case markFailed hup hb p hdl h1 hun hne hnew hcopy hswap1 e1 hmark =>
      simp [not_mem_fetchCalls, not_mem_deferredCalls, rollbackCalls, Call.isPrelude,
        Call.isFetchStep, Call.isAckerAck, Call.isFailedReport] at hfail
      obtain ⟨rfl, rfl⟩ := hfail
      simp only
      rw [rollbackDisk_restores env a p h d { copiedDisk env a p h d with symlink := h } hhome
        hfresh hrm hcs rfl rfl]
      exact ⟨rfl, rfl, hsym.symm⟩
    all_goals
      simp [not_mem_fetchCalls, not_mem_deferredCalls, not_mem_ackCalls, not_mem_capsCalls,
        rollbackCalls, Call.isPrelude, Call.isFetchStep, Call.isAckerAck, Call.isFailedReport,
        Call.isAckStep, cleanCall] at hfail
  · cases hexit
    case watcherFailed hup hb p hdl h1 hun hne hnew hcopy hswap1 hmark e1 hwatch =>
      simp [not_mem_fetchCalls, not_mem_deferredCalls, rollbackCalls, Call.isPrelude,
        Call.isFetchStep, Call.isAckerAck, Call.isFailedReport] at hfail
      obtain ⟨rfl, rfl⟩ := hfail
      simp only
      rw [rollbackDisk_restores env a p h d
        { copiedDisk env a p h d with symlink := h, marker := some (newMarker env h a) } hhome
        hfresh hrm hcs rfl rfl]
      exact ⟨rfl, rfl, hsym.symm⟩
    all_goals
      simp [not_mem_fetchCalls, not_mem_deferredCalls, not_mem_ackCalls, not_mem_capsCalls,
        rollbackCalls, Call.isPrelude, Call.isFetchStep, Call.isAckerAck, Call.isFailedReport,
        Call.isAckStep, cleanCall] at hfail

/-- Witness of the amended C3: the watcher fails to start in the fleet upgrade
from `disk0`. -/
theorem rollback_restores_trees_and_symlink_witness :
    Path.dir watcherFailsEnv.pathsHome = watcherFailsEnv.pathsData
    ∧ disk0.nothingWithin (treePath watcherFailsEnv "bbbbbb")
    ∧ Call.InvokeWatcher (some (.other "spawn"))
      ∈ (Upgrader.Upgrade watcherFailsEnv okUpgrader fleetAct true (.start disk0)).2.calls
    ∧ (Upgrader.Upgrade watcherFailsEnv okUpgrader fleetAct true (.start disk0)).2.disk.files
      = disk0.files
    ∧ (Upgrader.Upgrade watcherFailsEnv okUpgrader fleetAct true (.start disk0)).2.disk.dirs
      = disk0.dirs
    ∧ (Upgrader.Upgrade watcherFailsEnv okUpgrader fleetAct true (.start disk0)).2.disk.symlink
      = disk0.symlink :=
  ⟨rfl, by decide, by decide,
    rollback_restores_trees_and_symlink watcherFailsEnv okUpgrader fleetAct true disk0 "bbbbbb"
      (.other "spawn") rfl (by decide) rfl rfl rfl (Or.inr ⟨by decide, by decide⟩)⟩

/-! ## C4 -/

theorem mem_fetchCalls_downloadArtifact (env : Env) (u : Upgrader) (a : Action)
    (v s : String) (r : String × Option Err) :
    Call.downloadArtifact v s r ∈ fetchCalls env u a ↔
      v = a.version ∧ s = u.sourceURI a.sourceURI
        ∧ r = downloadResult env u a.version (u.sourceURI a.sourceURI) := by
  obtain ⟨cs, hcs, hdl⟩ := downloadCalls_eq env u a.version (u.sourceURI a.sourceURI)
  constructor
  · intro hmem
    simp only [fetchCalls, hdl, List.mem_append, List.mem_singleton] at hmem
    rcases hmem with ((hmem | hmem) | hmem) | hmem | hmem
    · simp [cleanCall] at hmem
    · unfold capsCalls at hmem
      rcases hcaps : u.caps with _ | apply <;> rw [hcaps] at hmem <;> simp at hmem
    · simp [updatingCall] at hmem
    · have := hcs _ hmem
      simp [Call.isFetchStep] at this
    · simpa using hmem
  · rintro ⟨rfl, rfl, rfl⟩
    simp [fetchCalls, hdl]

/-- C4, as stated, fails: no file can be written, so the action-store copy
fails after the unpack; `Upgrade` returns the error without any call of
`os.RemoveAll` or `ChangeSymlink`, and the install tree of the new hash is
still on the disk. -/
theorem upgrade_copy_failure_counterexample :
    Call.copyActionStore "bbbbbb" (some (.other "read-only"))
      ∈ (Upgrader.Upgrade copyFailsEnv okUpgrader fleetAct true (.start disk0)).2.calls
    ∧ (Upgrader.Upgrade copyFailsEnv okUpgrader fleetAct true (.start disk0)).1
      = (none, some (.wrap (.other "read-only") "failed to copy action store"))
    ∧ (∀ c ∈ (Upgrader.Upgrade copyFailsEnv okUpgrader fleetAct true (.start disk0)).2.calls,
        c.isRollbackStep = false)
    ∧ treePath copyFailsEnv "bbbbbb"
      ∈ (Upgrader.Upgrade copyFailsEnv okUpgrader fleetAct true (.start disk0)).2.disk.dirs := by
  decide

theorem downloadArtifact_not_mem_capsCalls (u : Upgrader) (a : Action) (v s : String)
    (r : String × Option Err) : Call.downloadArtifact v s r ∉ capsCalls u a := by
  intro hmem
  unfold capsCalls at hmem
  rcases hcaps : u.caps with _ | apply <;> rw [hcaps] at hmem <;> simp at hmem

theorem fetchCalls_no_rollback (env : Env) (u : Upgrader) (a : Action) :
    ∀ c ∈ fetchCalls env u a, c.isRollbackStep = false := by
  intro c hc
  have := fetchCalls_isPrelude env u a c hc
  cases c <;> simp_all [Call.isPrelude, Call.isFetchStep, Call.isRollbackStep]

theorem deferredCalls_no_rollback (env : Env) (u : Upgrader) (a : Action) (err : Option Err) :
    ∀ c ∈ deferredCalls env u a err, c.isRollbackStep = false := by
  intro c hc
  unfold deferredCalls at hc
  rcases err with _ | e
  · simp at hc
  · rcases hfa : a.fleetAction with _ | action <;> rw [hfa] at hc <;> simp at hc
    rcases hc with rfl | rfl <;> rfl

theorem copiedDisk_symlink (env : Env) (a : Action) (p h : String) (d : Disk) :
    (copiedDisk env a p h d).symlink = d.symlink :=
  (copyActionStoreLoop_frame env (newHome env h) (storePaths env)
    (d.unpacked (treePath env h) (env.unpackFiles a.version p))).2.2.1

/-- C4, amended: when `downloadArtifact` (download or verification), the
unpack, the hash check or the action-store copy fails, `Upgrade` returns an
error without rollback: it makes no call of `os.RemoveAll` or `ChangeSymlink`
and the symlink is as before.  When the action-store copy for the new hash `h`
succeeded and then the symlink swap, the marking or the watcher invocation
fails, `Upgrade` returns an error and its last calls before the deferred
failure report are those of the rollback: `os.RemoveAll` of the install tree of
`h`, then `ChangeSymlink` to `release.ShortCommit()`. -/
theorem upgrade_rollback_only_after_copy (env : Env) (u : Upgrader) (a : Action)
    (reexecNow : Bool) (d : Disk) :
    (∀ v s p h e,
      (Call.downloadArtifact v s (p, some e)
          ∈ (Upgrader.Upgrade env u a reexecNow (.start d)).2.calls
        ∨ Call.unpack v p (h, some e)
          ∈ (Upgrader.Upgrade env u a reexecNow (.start d)).2.calls
        ∨ Call.unpack v p ("", none)
          ∈ (Upgrader.Upgrade env u a reexecNow (.start d)).2.calls
        ∨ Call.copyActionStore h (some e)
          ∈ (Upgrader.Upgrade env u a reexecNow (.start d)).2.calls) →
      (∃ err, (Upgrader.Upgrade env u a reexecNow (.start d)).1 = (none, some err))
      ∧ (∀ c ∈ (Upgrader.Upgrade env u a reexecNow (.start d)).2.calls,
          c.isRollbackStep = false)
      ∧ (Upgrader.Upgrade env u a reexecNow (.start d)).2.disk.symlink = d.symlink)
    ∧ (∀ h e,
      Call.copyActionStore h none ∈ (Upgrader.Upgrade env u a reexecNow (.start d)).2.calls →
      (Call.ChangeSymlink h (some e)
          ∈ (Upgrader.Upgrade env u a reexecNow (.start d)).2.calls
        ∨ Call.markUpgrade h a (some e)
          ∈ (Upgrader.Upgrade env u a reexecNow (.start d)).2.calls
        ∨ Call.InvokeWatcher (some e)
          ∈ (Upgrader.Upgrade env u a reexecNow (.start d)).2.calls) →
      ∃ err, (Upgrader.Upgrade env u a reexecNow (.start d)).1 = (none, some err)
        ∧ ∃ pre, (Upgrader.Upgrade env u a reexecNow (.start d)).2.calls
          = pre ++ [.RemoveAll (treePath env h) (env.removeAllErr (treePath env h)),
              .ChangeSymlink env.releaseShortCommit
                (env.changeSymlinkErr env.releaseShortCommit)]
            ++ deferredCalls env u a (some err)) := by
  obtain ⟨res, w, hexit, hrun⟩ := Upgrade_exit env u a reexecNow d
  rw [hrun]
  clear hrun
  simp only
  constructor
  · intro v s p h e hfail
    cases hexit
    case downloadFailed hup hb p1 e1 hdl =>
      refine ⟨⟨_, rfl⟩, ?_, rfl⟩
      refine quiet_append (quiet_append (fetchCalls_no_rollback env u a) ?_)
        (deferredCalls_no_rollback env u a _)
      simp [cleanCall, Call.isRollbackStep]
    case unpackFailed hup hb p1 hdl h1 e1 hun =>
      refine ⟨⟨_, rfl⟩, ?_, rfl⟩
      refine quiet_append (quiet_append (fetchCalls_no_rollback env u a) ?_)
        (deferredCalls_no_rollback env u a _)
      simp [Call.isRollbackStep]
    case unknownHash hup hb p1 hdl hun =>
      refine ⟨⟨_, rfl⟩, ?_, rfl⟩
      refine quiet_append (quiet_append (fetchCalls_no_rollback env u a) ?_)
        (deferredCalls_no_rollback env u a _)
      simp [Call.isRollbackStep]
    case copyFailed hup hb p1 hdl h1 hun hne hnew e1 hcopy =>
      refine ⟨⟨_, rfl⟩, ?_, copiedDisk_symlink env a p1 h1 d⟩
      refine quiet_append (quiet_append (fetchCalls_no_rollback env u a) ?_)
        (deferredCalls_no_rollback env u a _)
      simp [Call.isRollbackStep]
    all_goals
      try simp [mem_fetchCalls_downloadArtifact, not_mem_fetchCalls, not_mem_deferredCalls,
        not_mem_ackCalls, not_mem_capsCalls, downloadArtifact_not_mem_capsCalls, rollbackCalls,
        Call.isPrelude, Call.isFetchStep, Call.isAckerAck, Call.isFailedReport, Call.isAckStep,
        cleanCall, *] at hfail
    all_goals
      obtain ⟨-, -, rfl⟩ := hfail
      contradiction
  · intro h e hcopied hfail
    cases hexit
    case swapFailed hup hb p hdl h1 hun hne hnew hcopy e1 hswap =>
      simp [not_mem_fetchCalls, not_mem_deferredCalls, rollbackCalls, Call.isPrelude,
        Call.isFetchStep, Call.isAckerAck, Call.isFailedReport] at hcopied
      subst hcopied
      exact ⟨_, rfl, fetchCalls env u a ++ [.unpack a.version p (h, none),
        .copyActionStore h none, .ChangeSymlink h (some e1)], by simp [rollbackCalls]⟩
    case markFailed hup hb p hdl h1 hun hne hnew hcopy hswap e1 hmark =>
      simp [not_mem_fetchCalls, not_mem_deferredCalls, rollbackCalls, Call.isPrelude,
        Call.isFetchStep, Call.isAckerAck, Call.isFailedReport] at hcopied
      subst hcopied
      exact ⟨_, rfl, fetchCalls env u a ++ [.unpack a.version p (h, none),
        .copyActionStore h none, .ChangeSymlink h none, .markUpgrade h a (some e1)],
        by simp [rollbackCalls]⟩
    case watcherFailed hup hb p hdl h1 hun hne hnew hcopy hswap hmark e1 hwatch =>
      simp [not_mem_fetchCalls, not_mem_deferredCalls, rollbackCalls, Call.isPrelude,
        Call.isFetchStep, Call.isAckerAck, Call.isFailedReport] at hcopied
      subst hcopied
      exact ⟨_, rfl, fetchCalls env u a ++ [.unpack a.version p (h, none),
        .copyActionStore h none, .ChangeSymlink h none, .markUpgrade h a none,
        .InvokeWatcher (some e1)], by simp [rollbackCalls]⟩
    all_goals
      simp [not_mem_fetchCalls, not_mem_deferredCalls, not_mem_ackCalls, not_mem_capsCalls,
        rollbackCalls, Call.isPrelude, Call.isFetchStep, Call.isAckerAck, Call.isFailedReport,
        Call.isAckStep, cleanCall] at hfail hcopied

/-- Witness of the amended C4: the action-store copy fails (no rollback call),
and the watcher fails to start (rollback). -/
theorem upgrade_rollback_only_after_copy_witness :
    (∀ c ∈ (Upgrader.Upgrade copyFailsEnv okUpgrader fleetAct true (.start disk0)).2.calls,
      c.isRollbackStep = false)
    ∧ ∃ err, (Upgrader.Upgrade watcherFailsEnv okUpgrader fleetAct true (.start disk0)).1
        = (none, some err)
      ∧ ∃ pre, (Upgrader.Upgrade watcherFailsEnv okUpgrader fleetAct true (.start disk0)).2.calls
        = pre ++ [.RemoveAll (treePath watcherFailsEnv "bbbbbb")
              (watcherFailsEnv.removeAllErr (treePath watcherFailsEnv "bbbbbb")),
            .ChangeSymlink watcherFailsEnv.releaseShortCommit
              (watcherFailsEnv.changeSymlinkErr watcherFailsEnv.releaseShortCommit)]
          ++ deferredCalls watcherFailsEnv okUpgrader fleetAct (some err) :=
  ⟨((upgrade_rollback_only_after_copy copyFailsEnv okUpgrader fleetAct true disk0).1
      "" "" "" "bbbbbb" (.other "read-only") (Or.inr (Or.inr (Or.inr (by decide))))).2.1,
    (upgrade_rollback_only_after_copy watcherFailsEnv okUpgrader fleetAct true disk0).2
      "bbbbbb" (.other "spawn") (by decide) (Or.inr (Or.inr (by decide)))⟩

/-! ## C5 -/

theorem fetchCalls_no_install (env : Env) (u : Upgrader) (a : Action) :
    ∀ c ∈ fetchCalls env u a, c.isInstallStep = false :=
  fun c hc => (isPrelude_quiet (fetchCalls_isPrelude env u a c hc)).2.2.2

theorem deferredCalls_no_install (env : Env) (u : Upgrader) (a : Action) (err : Option Err) :
    ∀ c ∈ deferredCalls env u a err, c.isInstallStep = false := by
  intro c hc
  unfold deferredCalls at hc
  rcases err with _ | e
  · simp at hc
  · rcases hfa : a.fleetAction with _ | action <;> rw [hfa] at hc <;> simp at hc
    rcases hc with rfl | rfl <;> rfl

/-- C5: if in a run of `Upgrader.Upgrade` the call of `downloadArtifact` returned
an error `e`, then `Upgrade` returns `(nil, e)`; no call of the run is a call
of unpack, copyActionStore, ChangeSymlink, markUpgrade, InvokeWatcher or ReExec,
and the disk (so the symlink) is as before; the calls of the run end with
those of the deferred failure report, which for a fleet action are the
`acker.Ack` of that action and the report of Failed with the text of `e`. -/
theorem upgrade_download_failure (env : Env) (u : Upgrader) (a : Action) (reexecNow : Bool)
    (d : Disk) (v s p : String) (e : Err)
    (hdl : Call.downloadArtifact v s (p, some e)
      ∈ (Upgrader.Upgrade env u a reexecNow (.start d)).2.calls) :
    (Upgrader.Upgrade env u a reexecNow (.start d)).1 = (none, some e)
    ∧ (∀ c ∈ (Upgrader.Upgrade env u a reexecNow (.start d)).2.calls, c.isInstallStep = false)
    ∧ (Upgrader.Upgrade env u a reexecNow (.start d)).2.disk = d
    ∧ (Upgrader.Upgrade env u a reexecNow (.start d)).2.calls
      = fetchCalls env u a ++ [cleanCall env u] ++ deferredCalls env u a (some e)
    ∧ (∀ action, a.fleetAction = some action →
      deferredCalls env u a (some e)
        = [.ackerAck (some action) (u.acker.Ack (some action)),
            .OnStateChange "" agentName { status := .Failed, message := env.errorText e }])
    ∧ (a.fleetAction = none → deferredCalls env u a (some e) = []) := by
  obtain ⟨res, w, hexit, hrun⟩ := Upgrade_exit env u a reexecNow d
  rw [hrun] at hdl ⊢
  clear hrun
  simp only at hdl ⊢
  cases hexit
  case downloadFailed hup hb p1 e1 hdl1 =>
    simp [mem_fetchCalls_downloadArtifact, not_mem_deferredCalls, Call.isAckerAck,
      Call.isFailedReport, cleanCall, hdl1] at hdl
    obtain ⟨-, -, -, rfl⟩ := hdl
    refine ⟨rfl, ?_, rfl, rfl, ?_, ?_⟩
    · refine quiet_append (quiet_append (fetchCalls_no_install env u a) ?_)
        (deferredCalls_no_install env u a _)
      simp [cleanCall, Call.isInstallStep, Call.isSwapStep]
    · intro action hfa
      simp [deferredCalls, hfa]
    · intro hfa
      simp [deferredCalls, hfa]
  all_goals
    simp [mem_fetchCalls_downloadArtifact, not_mem_fetchCalls, not_mem_deferredCalls,
      not_mem_ackCalls, not_mem_capsCalls, downloadArtifact_not_mem_capsCalls, rollbackCalls,
      Call.isPrelude, Call.isFetchStep, Call.isAckerAck, Call.isFailedReport, Call.isAckStep,
      cleanCall, *] at hdl

/-- Witness of C5: every verifier rejects the archive of a fleet upgrade. -/
theorem upgrade_download_failure_witness :
    (Upgrader.Upgrade verifyFailsEnv okUpgrader fleetAct true (.start disk0)).1
      = (none, some (.wrap (.join (.other "bad signature") (.other "bad signature"))
          "failed verification of agent binary"))
    ∧ (∀ c ∈ (Upgrader.Upgrade verifyFailsEnv okUpgrader fleetAct true (.start disk0)).2.calls,
      c.isInstallStep = false)
    ∧ (Upgrader.Upgrade verifyFailsEnv okUpgrader fleetAct true (.start disk0)).2.disk = disk0 :=
  ⟨(upgrade_download_failure verifyFailsEnv okUpgrader fleetAct true disk0 "8.1.0"
      "https://artifacts.elastic.co/downloads/" ""
      (.wrap (.join (.other "bad signature") (.other "bad signature"))
        "failed verification of agent binary") (by decide)).1,
    (upgrade_download_failure verifyFailsEnv okUpgrader fleetAct true disk0 "8.1.0"
      "https://artifacts.elastic.co/downloads/" ""
      (.wrap (.join (.other "bad signature") (.other "bad signature"))
        "failed verification of agent binary") (by decide)).2.1,
    (upgrade_download_failure verifyFailsEnv okUpgrader fleetAct true disk0 "8.1.0"
      "https://artifacts.elastic.co/downloads/" ""
      (.wrap (.join (.other "bad signature") (.other "bad signature"))
        "failed verification of agent binary") (by decide)).2.2.1⟩

/-! ## C6 -/

theorem ackCalls_eq (u : Upgrader) (action : Option ActionUpgrade) :
    ackCalls u action
      = .ackerAck action (u.acker.Ack action) ::
        (match u.acker.Ack action with
          | some _ => []
          | none =>
            .ackerCommit u.acker.Commit ::
              (match u.acker.Commit with
                | some _ => []
                | none => [.OnStateChange "" agentName { status := .Healthy, message := "" }])) := by
  unfold ackCalls Upgrader.ackAction
  rcases hack : u.acker.Ack action with _ | e <;> rcases hcom : u.acker.Commit with _ | e2 <;>
    simp [World.log, World.start]

theorem ackCalls_quiet (u : Upgrader) (action : Option ActionUpgrade) :
    ∀ c ∈ ackCalls u action, c.isSwapStep = false ∧ c.isFailedReport = false := by
  intro c hc
  have := ackCalls_isAckStep u action c hc
  cases c <;> simp_all [Call.isAckStep, Call.isSwapStep, Call.isFailedReport]

/-- C6: if in a run of `Upgrader.Upgrade` the unpack returned a hash `h` with no
error (which happens only after `downloadArtifact`, download and verification,
returned no error), `h` is not empty and is a prefix of `release.Commit()`, then
`Upgrade` returns `(nil, nil)`; after the unpack the run makes the calls of
`ackAction` on the fleet action if there is one (`acker.Ack`, then
`acker.Commit` if the ack returned nil, then the report of Healthy if the
commit returned nil) and no call otherwise; no call of the run is a call of
copyActionStore, ChangeSymlink, markUpgrade, InvokeWatcher or ReExec, or a
report of Failed. -/
theorem upgrade_same_version (env : Env) (u : Upgrader) (a : Action) (reexecNow : Bool)
    (d : Disk) (v p h : String)
    (hun : Call.unpack v p (h, none) ∈ (Upgrader.Upgrade env u a reexecNow (.start d)).2.calls)
    (hne : h ≠ "") (hsame : strings.HasPrefix env.releaseCommit h = true) :
    (Upgrader.Upgrade env u a reexecNow (.start d)).1 = (none, none)
    ∧ Call.downloadArtifact a.version (u.sourceURI a.sourceURI) (p, none)
      ∈ (Upgrader.Upgrade env u a reexecNow (.start d)).2.calls
    ∧ (Upgrader.Upgrade env u a reexecNow (.start d)).2.calls
      = fetchCalls env u a ++ [.unpack v p (h, none)]
        ++ (match a.fleetAction with
          | some action =>
            .ackerAck (some action) (u.acker.Ack (some action)) ::
              (match u.acker.Ack (some action) with
                | some _ => []
                | none =>
                  .ackerCommit u.acker.Commit ::
                    (match u.acker.Commit with
                      | some _ => []
                      | none =>
                        [.OnStateChange "" agentName { status := .Healthy, message := "" }]))
          | none => [])
    ∧ (∀ c ∈ (Upgrader.Upgrade env u a reexecNow (.start d)).2.calls,
      c.isSwapStep = false ∧ c.isFailedReport = false) := by
  obtain ⟨res, w, hexit, hrun⟩ := Upgrade_exit env u a reexecNow d
  rw [hrun] at hun ⊢
  clear hrun
  simp only at hun ⊢
  have hfq : ∀ c ∈ fetchCalls env u a, c.isSwapStep = false ∧ c.isFailedReport = false := by
    intro c hc
    have hq := isPrelude_quiet (fetchCalls_isPrelude env u a c hc)
    refine ⟨?_, hq.2.2.1⟩
    have := hq.2.2.2
    cases c <;> simp_all [Call.isInstallStep]
  cases hexit
  case sameVersion hup hb p1 hdl h1 hun1 hne1 hsame1 action hfa =>
    simp [not_mem_fetchCalls, not_mem_ackCalls, not_mem_deferredCalls, deferredCalls,
      Call.isPrelude, Call.isFetchStep, Call.isAckStep] at hun
    obtain ⟨rfl, rfl, rfl⟩ := hun
    refine ⟨rfl, ?_, ?_, ?_⟩
    · simp [mem_fetchCalls_downloadArtifact, hdl]
    · simp [deferredCalls, hfa, ackCalls_eq]
    · simp only [deferredCalls, List.append_nil]
      refine quiet_append (quiet_append hfq ?_) (ackCalls_quiet u _)
      simp [Call.isSwapStep, Call.isFailedReport]
  case sameVersionManual hup hb p1 hdl h1 hun1 hne1 hsame1 hfa =>
    simp [not_mem_fetchCalls, not_mem_deferredCalls, deferredCalls,
      Call.isPrelude, Call.isFetchStep] at hun
    obtain ⟨rfl, rfl, rfl⟩ := hun
    refine ⟨rfl, ?_, ?_, ?_⟩
    · simp [mem_fetchCalls_downloadArtifact, hdl]
    · simp [deferredCalls, hfa]
    · simp only [deferredCalls, List.append_nil]
      refine quiet_append hfq ?_
      simp [Call.isSwapStep, Call.isFailedReport]
  all_goals
    try simp [not_mem_fetchCalls, not_mem_deferredCalls, not_mem_ackCalls, not_mem_capsCalls,
      rollbackCalls, Call.isPrelude, Call.isFetchStep, Call.isAckerAck, Call.isFailedReport,
      Call.isAckStep, cleanCall] at hun
  all_goals
    obtain ⟨-, -, rfl, -⟩ := hun
    simp_all

/-- Witness of C6: the archive of a fleet upgrade unpacks to the running commit. -/
theorem upgrade_same_version_witness :
    (Upgrader.Upgrade sameVersionEnv okUpgrader fleetAct true (.start disk0)).1 = (none, none)
    ∧ (∀ c ∈ (Upgrader.Upgrade sameVersionEnv okUpgrader fleetAct true (.start disk0)).2.calls,
      c.isSwapStep = false ∧ c.isFailedReport = false) :=
  ⟨(upgrade_same_version sameVersionEnv okUpgrader fleetAct true disk0 "8.1.0"
      "archive.tar.gz" "aaaaaa" (by decide) (by decide) (by decide)).1,
    (upgrade_same_version sameVersionEnv okUpgrader fleetAct true disk0 "8.1.0"
      "archive.tar.gz" "aaaaaa" (by decide) (by decide) (by decide)).2.2.2⟩

/-! ## C7 -/

/-- C7: `Upgrader.Ack` on a disk `d`.  When `LoadMarker` fails it returns that
error after no other call.  When there is no marker, or the marker is acked, it
returns nil after no call but `LoadMarker`, and the disk is untouched.  When the
marker `m` is not acked it calls `acker.Ack` on the action of `m`: if the ack
fails, or the ack succeeds and the commit fails, it returns that error with no
call of `saveMarker` and the disk untouched; if both succeed it reports Healthy
and calls `saveMarker` on `m` with `acked` set and every other field as in `m`,
returns what `saveMarker` returns, and after a successful save that marker is
the one on the disk.  So a call of `acker.Ack` is made exactly when a marker was
loaded and is not acked. -/
theorem ack_sends_deferred_ack (env : Env) (u : Upgrader) (d : Disk) :
    (∀ err, env.loadMarkerErr = some err →
      Upgrader.Ack env u (.start d) = (some err, ⟨d, [.LoadMarker (none, some err)]⟩))
    ∧ (env.loadMarkerErr = none →
      (d.marker = none ∨ ∃ m, d.marker = some m ∧ m.acked = true) →
      Upgrader.Ack env u (.start d) = (none, ⟨d, [.LoadMarker (d.marker, none)]⟩))
    ∧ (∀ m, env.loadMarkerErr = none → d.marker = some m → m.acked = false →
      (∀ err, u.acker.Ack m.action = some err →
        Upgrader.Ack env u (.start d)
          = (some err, ⟨d, [.LoadMarker (some m, none), .ackerAck m.action (some err)]⟩))
      ∧ (∀ err, u.acker.Ack m.action = none → u.acker.Commit = some err →
        Upgrader.Ack env u (.start d)
          = (some err, ⟨d, [.LoadMarker (some m, none), .ackerAck m.action none,
              .ackerCommit (some err)]⟩))
      ∧ (u.acker.Ack m.action = none → u.acker.Commit = none →
        Upgrader.Ack env u (.start d)
          = (env.saveMarkerErr { m with acked := true },
              ⟨saveMarker.effect env { m with acked := true } d,
                [.LoadMarker (some m, none), .ackerAck m.action none, .ackerCommit none,
                  .OnStateChange "" agentName { status := .Healthy, message := "" },
                  .saveMarker { m with acked := true }
                    (env.saveMarkerErr { m with acked := true })]⟩)
        ∧ (env.saveMarkerErr { m with acked := true } = none →
          (Upgrader.Ack env u (.start d)).2.disk.marker
            = some
              { prevHash := m.prevHash
                hash := m.hash
                action := m.action
                acked := true })))
    ∧ ((∃ x r, Call.ackerAck x r ∈ (Upgrader.Ack env u (.start d)).2.calls) ↔
      (env.loadMarkerErr = none ∧ ∃ m, d.marker = some m ∧ m.acked = false)) := by
  refine ⟨?_, ?_, ?_, ?_⟩
  · intro err herr
    simp [Upgrader.Ack, LoadMarker, LoadMarker.result, herr, World.log, World.start]
  · intro hload hm
    rcases hm with hm | ⟨m, hm, hacked⟩
    · simp [Upgrader.Ack, LoadMarker, LoadMarker.result, hload, hm, World.log, World.start]
    · simp [Upgrader.Ack, LoadMarker, LoadMarker.result, hload, hm, hacked, World.log,
        World.start]
  · intro m hload hm hacked
    refine ⟨?_, ?_, ?_⟩
    · intro err hack
      simp [Upgrader.Ack, LoadMarker, LoadMarker.result, hload, hm, hacked, World.log,
        World.start, Upgrader.ackAction, hack]
    · intro err hack hcom
      simp [Upgrader.Ack, LoadMarker, LoadMarker.result, hload, hm, hacked, World.log,
        World.start, Upgrader.ackAction, hack, hcom]
    · intro hack hcom
      have hrun : Upgrader.Ack env u (.start d)
          = (env.saveMarkerErr { m with acked := true },
              ⟨saveMarker.effect env { m with acked := true } d,
                [.LoadMarker (some m, none), .ackerAck m.action none, .ackerCommit none,
                  .OnStateChange "" agentName { status := .Healthy, message := "" },
                  .saveMarker { m with acked := true }
                    (env.saveMarkerErr { m with acked := true })]⟩) := by
        simp [Upgrader.Ack, LoadMarker, LoadMarker.result, hload, hm, hacked, World.log,
          World.start, Upgrader.ackAction, hack, hcom, saveMarker]
      refine ⟨hrun, fun hsave => ?_⟩
      rw [hrun]
      simp [saveMarker.effect, hsave]
  · constructor
    · rintro ⟨x, r, hmem⟩
      rcases hload : env.loadMarkerErr with _ | err
      · refine ⟨rfl, ?_⟩
        rcases hm : d.marker with _ | m
        · simp [Upgrader.Ack, LoadMarker, LoadMarker.result, hload, hm, World.log,
            World.start] at hmem
        · rcases hacked : m.acked with _ | _
          · exact ⟨m, rfl, hacked⟩
          · simp [Upgrader.Ack, LoadMarker, LoadMarker.result, hload, hm, hacked, World.log,
              World.start] at hmem
      · simp [Upgrader.Ack, LoadMarker, LoadMarker.result, hload, World.log,
          World.start] at hmem
    · rintro ⟨hload, m, hm, hacked⟩
      refine ⟨m.action, u.acker.Ack m.action, ?_⟩
      rcases hack : u.acker.Ack m.action with _ | e <;>
        rcases hcom : u.acker.Commit with _ | e2 <;>
        simp [Upgrader.Ack, LoadMarker, LoadMarker.result, hload, hm, hacked, World.log,
          World.start, Upgrader.ackAction, hack, hcom, saveMarker]

/-- Witness of C7: the new version starts on `markedDisk` and the ack goes
through. -/
theorem ack_sends_deferred_ack_witness :
    Upgrader.Ack okEnv okUpgrader (.start markedDisk)
      = (none,
          ⟨{ markedDisk with marker := some { marker0 with acked := true } },
            [.LoadMarker (some marker0, none), .ackerAck (some fleetUpgrade) none,
              .ackerCommit none,
              .OnStateChange "" agentName { status := .Healthy, message := "" },
              .saveMarker { marker0 with acked := true } none]⟩) :=
  (((ack_sends_deferred_ack okEnv okUpgrader markedDisk).2.2.1 marker0 rfl rfl rfl).2.2
    rfl rfl).1

/-! ## C8 -/

theorem RemoveAll_effect_marker (env : Env) (p : Path) (d : Disk) :
    (os.RemoveAll.effect env p d).marker = d.marker := by
  unfold os.RemoveAll.effect
  cases env.removeAllErr p <;> rfl

/-- C8: if in a run of `Upgrader.Upgrade` `downloadArtifact` (download and
verification), the unpack to hash `h`, `copyActionStore`, `ChangeSymlink`,
`markUpgrade` and `InvokeWatcher` all returned no error, then no call of the run
is a call of `acker.Ack` or `acker.Commit`, `Upgrade` returns no error, with
`reexecNow` the last call of the run is `ReExec`, and the marker left on the
disk is the one `markUpgrade` wrote: it carries the fleet action of the upgrade
and is not acked. -/
theorem upgrade_success_defers_ack (env : Env) (u : Upgrader) (a : Action) (reexecNow : Bool)
    (d : Disk) (v s p h : String)
    (hok : Call.downloadArtifact v s (p, none)
        ∈ (Upgrader.Upgrade env u a reexecNow (.start d)).2.calls
      ∧ Call.unpack v p (h, none) ∈ (Upgrader.Upgrade env u a reexecNow (.start d)).2.calls
      ∧ Call.copyActionStore h none ∈ (Upgrader.Upgrade env u a reexecNow (.start d)).2.calls
      ∧ Call.ChangeSymlink h none ∈ (Upgrader.Upgrade env u a reexecNow (.start d)).2.calls
      ∧ Call.markUpgrade h a none ∈ (Upgrader.Upgrade env u a reexecNow (.start d)).2.calls
      ∧ Call.InvokeWatcher none ∈ (Upgrader.Upgrade env u a reexecNow (.start d)).2.calls) :
    (∀ c ∈ (Upgrader.Upgrade env u a reexecNow (.start d)).2.calls,
      c.isAckerAck = false ∧ c.isAckerCommit = false)
    ∧ (Upgrader.Upgrade env u a reexecNow (.start d)).1.2 = none
    ∧ (reexecNow = true →
      ∃ pre cb, (Upgrader.Upgrade env u a reexecNow (.start d)).2.calls = pre ++ [.ReExec cb])
    ∧ (Upgrader.Upgrade env u a reexecNow (.start d)).2.disk.marker
      = some (newMarker env h a)
    ∧ (newMarker env h a).action = a.fleetAction ∧ (newMarker env h a).acked = false := by
  obtain ⟨res, w, hexit, hrun⟩ := Upgrade_exit env u a reexecNow d
  rw [hrun] at hok ⊢
  clear hrun
  simp only at hok ⊢
  have hfq : ∀ c ∈ fetchCalls env u a, c.isAckerAck = false ∧ c.isAckerCommit = false :=
    fun c hc => ⟨(isPrelude_quiet (fetchCalls_isPrelude env u a c hc)).1,
      (isPrelude_quiet (fetchCalls_isPrelude env u a c hc)).2.1⟩
  obtain ⟨-, -, -, -, hmark, hwatch⟩ := hok
  cases hexit
  case reexec hup hb p1 hdl h1 hun hne hnew hcopy hswap hmark1 hwatch1 hre =>
    simp [not_mem_fetchCalls, deferredCalls, Call.isPrelude, Call.isFetchStep] at hmark
    subst hmark
    refine ⟨?_, rfl, fun _ => ⟨fetchCalls env u a ++ [.unpack a.version p1 (h, none),
      .copyActionStore h none, .ChangeSymlink h none, .markUpgrade h a none,
      .InvokeWatcher none, .RemoveAll env.pathsDownloads (env.removeAllErr env.pathsDownloads)],
      upgradeCallback env a h, by simp [deferredCalls]⟩, ?_, rfl, rfl⟩
    · simp only [deferredCalls, List.append_nil]
      refine quiet_append hfq ?_
      simp [Call.isAckerAck, Call.isAckerCommit]
    · simp [RemoveAll_effect_marker]
  case returned hup hb p1 hdl h1 hun hne hnew hcopy hswap hmark1 hwatch1 hre =>
    simp [not_mem_fetchCalls, deferredCalls, Call.isPrelude, Call.isFetchStep] at hmark
    subst hmark
    refine ⟨?_, rfl, fun hre2 => by simp [hre] at hre2, ?_, rfl, rfl⟩
    · simp only [deferredCalls, List.append_nil]
      refine quiet_append hfq ?_
      simp [Call.isAckerAck, Call.isAckerCommit]
    · simp [RemoveAll_effect_marker]
  all_goals
    simp [not_mem_fetchCalls, not_mem_deferredCalls, not_mem_ackCalls, not_mem_capsCalls,
      rollbackCalls, Call.isPrelude, Call.isFetchStep, Call.isAckerAck, Call.isFailedReport,
      Call.isAckStep, cleanCall] at hmark hwatch

/-- Witness of C8: the fleet upgrade in which every step succeeds. -/
theorem upgrade_success_defers_ack_witness :
    (∀ c ∈ (Upgrader.Upgrade okEnv okUpgrader fleetAct true (.start disk0)).2.calls,
      c.isAckerAck = false ∧ c.isAckerCommit = false)
    ∧ (Upgrader.Upgrade okEnv okUpgrader fleetAct true (.start disk0)).2.disk.marker
      = some (newMarker okEnv "bbbbbb" fleetAct) :=
  ⟨(upgrade_success_defers_ack okEnv okUpgrader fleetAct true disk0 "8.1.0"
      "https://artifacts.elastic.co/downloads/" "archive.tar.gz" "bbbbbb" (by decide)).1,
    (upgrade_success_defers_ack okEnv okUpgrader fleetAct true disk0 "8.1.0"
      "https://artifacts.elastic.co/downloads/" "archive.tar.gz" "bbbbbb"
      (by decide)).2.2.2.1⟩

/-! ## C9 -/

theorem composedDownload_run (env : Env) (spec : Spec) (version : String)
    (ds : List Downloader) (acc : Option Err) (w : World) :
    composedDownload env spec version ds acc w
      = (composedDownloadResult env spec version ds acc,
          ⟨w.disk, w.calls ++ sourceDownloadCalls env spec version ds⟩) := by
  induction ds generalizing acc w with
  | nil => simp [composedDownload, composedDownloadResult, sourceDownloadCalls, attempted]
  | cons d rest ih =>
    rcases hres : env.downloadRes d spec version with ⟨path, _ | e⟩
    · simp [composedDownload, composedDownloadResult, sourceDownloadCalls, attempted, hres,
        World.log]
    · simp [composedDownload, composedDownloadResult, sourceDownloadCalls, attempted, hres,
        World.log, ih]

theorem composedVerify_run (env : Env) (spec : Spec) (version : String)
    (vs : List Verifier) (acc : Option Err) (w : World) :
    composedVerify env spec version vs acc w
      = (composedVerifyResult env spec version vs acc,
          ⟨w.disk, w.calls ++ sourceVerifyCalls env spec version vs⟩) := by
  induction vs generalizing acc w with
  | nil => simp [composedVerify, composedVerifyResult, sourceVerifyCalls, attempted]
  | cons v rest ih =>
    rcases hres : env.verifyErr v spec version with _ | e
    · simp [composedVerify, composedVerifyResult, sourceVerifyCalls, attempted, hres,
        World.log]
    · simp [composedVerify, composedVerifyResult, sourceVerifyCalls, attempted, hres,
        World.log, ih]

theorem downloadArtifact_sources (env : Env) (u : Upgrader) (version sourceURI : String)
    (vs : List Verifier) (ds : List Downloader)
    (hv : newVerifier env version (downloadSettings u sourceURI) = .ok vs)
    (hd : newDownloader env version (downloadSettings u sourceURI) = .ok ds) (w : World) :
    (∀ path e, composedDownloadResult env agentSpec version ds none = (path, some e) →
      Upgrader.downloadArtifact env u version sourceURI w
        = (("", some (.wrap e "failed upgrade of agent binary")),
            ⟨w.disk, w.calls ++ sourceDownloadCalls env agentSpec version ds
              ++ [.fetcherDownload agentSpec version (path, some e),
                .downloadArtifact version sourceURI
                  ("", some (.wrap e "failed upgrade of agent binary"))]⟩))
    ∧ (∀ path e, composedDownloadResult env agentSpec version ds none = (path, none) →
      composedVerifyResult env agentSpec version vs none = some e →
      Upgrader.downloadArtifact env u version sourceURI w
        = (("", some (.wrap e "failed verification of agent binary")),
            ⟨w.disk, w.calls ++ sourceDownloadCalls env agentSpec version ds
              ++ [.fetcherDownload agentSpec version (path, none)]
              ++ sourceVerifyCalls env agentSpec version vs
              ++ [.verifierVerify agentSpec version (some e),
                .downloadArtifact version sourceURI
                  ("", some (.wrap e "failed verification of agent binary"))]⟩))
    ∧ (∀ path, composedDownloadResult env agentSpec version ds none = (path, none) →
      composedVerifyResult env agentSpec version vs none = none →
      Upgrader.downloadArtifact env u version sourceURI w
        = ((path, none),
            ⟨w.disk, w.calls ++ sourceDownloadCalls env agentSpec version ds
              ++ [.fetcherDownload agentSpec version (path, none)]
              ++ sourceVerifyCalls env agentSpec version vs
              ++ [.verifierVerify agentSpec version none,
                .downloadArtifact version sourceURI (path, none)]⟩)) := by
  refine ⟨?_, ?_, ?_⟩
  · intro path e hdl
    simp [Upgrader.downloadArtifact, downloadArtifactBody_def, hv, hd, fetcherDownload,
      composedDownload_run, hdl, World.log]
  · intro path e hdl hvf
    simp [Upgrader.downloadArtifact, downloadArtifactBody_def, hv, hd, fetcherDownload,
      verifierVerify, composedDownload_run, composedVerify_run, hdl, hvf, World.log]
  · intro path hdl hvf
    simp [Upgrader.downloadArtifact, downloadArtifactBody_def, hv, hd, fetcherDownload,
      verifierVerify, composedDownload_run, composedVerify_run, hdl, hvf, World.log]

theorem mem_sourceDownloadCalls (env : Env) (spec : Spec) (version : String)
    (ds : List Downloader) (c : Call) (hc : c ∈ sourceDownloadCalls env spec version ds) :
    ∃ d, d ∈ ds ∧ c = .sourceDownload d spec version (env.downloadRes d spec version) := by
  induction ds with
  | nil => simp [sourceDownloadCalls, attempted] at hc
  | cons d rest ih =>
    unfold sourceDownloadCalls attempted at hc
    split at hc
    · simp at hc
      exact ⟨d, by simp, hc⟩
    · simp only [List.map_cons, List.mem_cons] at hc
      rcases hc with rfl | hc
      · exact ⟨d, by simp, rfl⟩
      · obtain ⟨d1, hd1, rfl⟩ := ih hc
        exact ⟨d1, by simp [hd1], rfl⟩

theorem mem_sourceVerifyCalls (env : Env) (spec : Spec) (version : String)
    (vs : List Verifier) (c : Call) (hc : c ∈ sourceVerifyCalls env spec version vs) :
    ∃ v, v ∈ vs ∧ c = .sourceVerify v spec version (env.verifyErr v spec version) := by
  induction vs with
  | nil => simp [sourceVerifyCalls, attempted] at hc
  | cons v rest ih =>
    unfold sourceVerifyCalls attempted at hc
    split at hc
    · simp at hc
      exact ⟨v, by simp, hc⟩
    · simp only [List.map_cons, List.mem_cons] at hc
      rcases hc with rfl | hc
      · exact ⟨v, by simp, rfl⟩
      · obtain ⟨v1, hv1, rfl⟩ := ih hc
        exact ⟨v1, by simp [hv1], rfl⟩

/-- C9: if `downloadArtifact` returns a path with a nil error, then its calls
are: downloads by sources, the return of the fetcher's `Download` with that
path and no error, then verifications by sources, then the return of
`verifier.Verify` for `agentSpec` and the same version with nil.  And whenever
in a run of `downloadArtifact` `verifier.Verify` returned an error,
`downloadArtifact` returns the empty path and an error that wraps it. -/
theorem downloadArtifact_verifies (env : Env) (u : Upgrader) (version sourceURI : String)
    (d : Disk) :
    (∀ path, (Upgrader.downloadArtifact env u version sourceURI (.start d)).1 = (path, none) →
      ∃ pre mid, (Upgrader.downloadArtifact env u version sourceURI (.start d)).2.calls
          = pre ++ [.fetcherDownload agentSpec version (path, none)] ++ mid
            ++ [.verifierVerify agentSpec version none,
              .downloadArtifact version sourceURI (path, none)]
        ∧ (∀ c ∈ pre, ∃ src res, c = .sourceDownload src agentSpec version res)
        ∧ (∀ c ∈ mid, ∃ src res, c = .sourceVerify src agentSpec version res))
    ∧ (∀ spec ver e,
      Call.verifierVerify spec ver (some e)
        ∈ (Upgrader.downloadArtifact env u version sourceURI (.start d)).2.calls →
      (Upgrader.downloadArtifact env u version sourceURI (.start d)).1
        = ("", some (.wrap e "failed verification of agent binary"))) := by
  rcases hv : newVerifier env version (downloadSettings u sourceURI) with e1 | vs
  · constructor
    · intro path h
      simp [Upgrader.downloadArtifact, downloadArtifactBody_def, hv] at h
    · intro spec ver e h
      simp [Upgrader.downloadArtifact, downloadArtifactBody_def, hv, World.log,
        World.start] at h
  rcases hd : newDownloader env version (downloadSettings u sourceURI) with e1 | ds
  · constructor
    · intro path h
      simp [Upgrader.downloadArtifact, downloadArtifactBody_def, hv, hd] at h
    · intro spec ver e h
      simp [Upgrader.downloadArtifact, downloadArtifactBody_def, hv, hd, World.log,
        World.start] at h
  obtain ⟨h1, h2, h3⟩ := downloadArtifact_sources env u version sourceURI vs ds hv hd (.start d)
  rcases hdl : composedDownloadResult env agentSpec version ds none with ⟨path1, _ | e1⟩
  · rcases hvf : composedVerifyResult env agentSpec version vs none with _ | e2
    · rw [h3 path1 hdl hvf]
      constructor
      · intro path h
        simp only [Prod.mk.injEq, and_true] at h
        subst h
        refine ⟨sourceDownloadCalls env agentSpec version ds,
          sourceVerifyCalls env agentSpec version vs, by simp [World.start], ?_, ?_⟩
        · intro c hc
          obtain ⟨src, _, rfl⟩ := mem_sourceDownloadCalls env agentSpec version ds c hc
          exact ⟨_, _, rfl⟩
        · intro c hc
          obtain ⟨src, _, rfl⟩ := mem_sourceVerifyCalls env agentSpec version vs c hc
          exact ⟨_, _, rfl⟩
      · intro spec ver e h
        simp only [World.start, List.nil_append, List.mem_append, List.mem_cons,
          List.mem_singleton, List.mem_nil_iff] at h
        rcases h with ((h | h) | h) | h
        · obtain ⟨src, _, h⟩ := mem_sourceDownloadCalls env agentSpec version ds _ h
          simp at h
        · simp at h
        · obtain ⟨src, _, h⟩ := mem_sourceVerifyCalls env agentSpec version vs _ h
          simp at h
        · simp at h
    · rw [h2 path1 e2 hdl hvf]
      constructor
      · intro path h
        simp at h
      · intro spec ver e h
        simp only [World.start, List.nil_append, List.mem_append, List.mem_cons,
          List.mem_singleton, List.mem_nil_iff] at h
        rcases h with ((h | h) | h) | h
        · obtain ⟨src, _, h⟩ := mem_sourceDownloadCalls env agentSpec version ds _ h
          simp at h
        · simp at h
        · obtain ⟨src, _, h⟩ := mem_sourceVerifyCalls env agentSpec version vs _ h
          simp at h
        · simp at h
          obtain ⟨-, -, rfl⟩ := h
          rfl
  · rw [h1 path1 e1 hdl]
    constructor
    · intro path h
      simp at h
    · intro spec ver e h
      simp only [World.start, List.nil_append, List.mem_append, List.mem_cons,
        List.mem_singleton, List.mem_nil_iff] at h
      rcases h with h | h
      · obtain ⟨src, _, h⟩ := mem_sourceDownloadCalls env agentSpec version ds _ h
        simp at h
      · simp at h

/-- Witness of C9: the download of a release goes through and its verifier
accepts it; and, where every verifier rejects the archive, the error comes back
with the empty path. -/
theorem downloadArtifact_verifies_witness :
    (∃ pre mid,
      (Upgrader.downloadArtifact okEnv okUpgrader "8.1.0" "" (.start disk0)).2.calls
          = pre ++ [.fetcherDownload agentSpec "8.1.0" ("archive.tar.gz", none)] ++ mid
            ++ [.verifierVerify agentSpec "8.1.0" none,
              .downloadArtifact "8.1.0" "" ("archive.tar.gz", none)]
        ∧ (∀ c ∈ pre, ∃ src res, c = .sourceDownload src agentSpec "8.1.0" res)
        ∧ (∀ c ∈ mid, ∃ src res, c = .sourceVerify src agentSpec "8.1.0" res))
    ∧ (Upgrader.downloadArtifact verifyFailsEnv okUpgrader "8.1.0" "" (.start disk0)).1
      = ("", some (.wrap (.join (.other "bad signature") (.other "bad signature"))
          "failed verification of agent binary")) :=
  ⟨(downloadArtifact_verifies okEnv okUpgrader "8.1.0" "" disk0).1 "archive.tar.gz"
      (by decide),
    (downloadArtifact_verifies verifyFailsEnv okUpgrader "8.1.0" "" disk0).2 agentSpec "8.1.0"
      (.join (.other "bad signature") (.other "bad signature")) (by decide)⟩

/-! ## C10 -/

theorem composedDownloadResult_error (env : Env) (spec : Spec) (version : String)
    (ds : List Downloader) (acc : Option Err) (path : String) (e : Err)
    (h : composedDownloadResult env spec version ds acc = (path, some e)) :
    ∀ src ∈ ds, (env.downloadRes src spec version).2 ≠ none := by
  induction ds generalizing acc with
  | nil => simp
  | cons d rest ih =>
    rcases hres : env.downloadRes d spec version with ⟨p1, _ | e1⟩
    · simp [composedDownloadResult, hres] at h
    · simp only [composedDownloadResult, hres] at h
      intro src hsrc
      rcases List.mem_cons.mp hsrc with rfl | hsrc
      · simp [hres]
      · exact ih _ h src hsrc

theorem composedVerifyResult_error (env : Env) (spec : Spec) (version : String)
    (vs : List Verifier) (acc : Option Err) (e : Err)
    (h : composedVerifyResult env spec version vs acc = some e) :
    ∀ v ∈ vs, env.verifyErr v spec version ≠ none := by
  induction vs generalizing acc with
  | nil => simp
  | cons v rest ih =>
    rcases hres : env.verifyErr v spec version with _ | e1
    · simp [composedVerifyResult, hres] at h
    · simp only [composedVerifyResult, hres] at h
      intro x hx
      rcases List.mem_cons.mp hx with rfl | hx
      · simp [hres]
      · exact ih _ h x hx

theorem mem_attempted {α : Type} (ok : α → Bool) (pre : List α) (x : α) (post : List α)
    (hpre : ∀ y ∈ pre, ok y = false) : x ∈ attempted ok (pre ++ x :: post) := by
  induction pre with
  | nil =>
    simp only [List.nil_append, attempted]
    split <;> simp
  | cons y rest ih =>
    have hy : ok y = false := hpre y (by simp)
    simp only [List.cons_append, attempted, hy, Bool.false_eq_true, if_false, List.mem_cons]
    exact Or.inr (ih (fun z hz => hpre z (by simp [hz])))

/-- C10, as stated, fails: the verifier of the local source rejects the archive
the local source delivered; the next source is asked to verify, not to
download: the only download of the run is that of the local source. -/
theorem download_not_repeated_counterexample :
    (Upgrader.downloadArtifact fsVerifyFailsEnv okUpgrader "8.1.0" "" (.start disk0)).2.calls
      = [.sourceDownload (.fs okUpgrader.settings) agentSpec "8.1.0" ("archive.tar.gz", none),
          .fetcherDownload agentSpec "8.1.0" ("archive.tar.gz", none),
          .sourceVerify (.fs okUpgrader.settings false "key") agentSpec "8.1.0"
            (some (.other "bad signature")),
          .sourceVerify (.http okUpgrader.settings false "key") agentSpec "8.1.0" none,
          .verifierVerify agentSpec "8.1.0" none,
          .downloadArtifact "8.1.0" "" ("archive.tar.gz", none)]
    ∧ Call.sourceDownload (.http okUpgrader.settings) agentSpec "8.1.0" ("archive.tar.gz", none)
      ∉ (Upgrader.downloadArtifact fsVerifyFailsEnv okUpgrader "8.1.0" ""
          (.start disk0)).2.calls := by
  decide

/-- C10, amended: once the verifier and the fetcher are built, every download
by a source comes before every verification by a source (no source downloads
again after a verification failed); when the download returned an archive,
each source's verifier is tried as long as the verifiers before it failed; and
`downloadArtifact` returns an error only when the download failed at every
source or the verification failed at every source. -/
theorem downloadArtifact_tries_each_verifier (env : Env) (u : Upgrader)
    (version sourceURI : String) (d : Disk) (vs : List Verifier) (ds : List Downloader)
    (hv : newVerifier env version (downloadSettings u sourceURI) = .ok vs)
    (hd : newDownloader env version (downloadSettings u sourceURI) = .ok ds) :
    (∃ dl rest, (Upgrader.downloadArtifact env u version sourceURI (.start d)).2.calls
        = dl ++ rest
      ∧ (∀ c ∈ dl, c.isSourceVerify = false) ∧ (∀ c ∈ rest, c.isSourceDownload = false))
    ∧ (∀ path pre v post,
      composedDownloadResult env agentSpec version ds none = (path, none) →
      vs = pre ++ v :: post →
      (∀ x ∈ pre, env.verifyErr x agentSpec version ≠ none) →
      Call.sourceVerify v agentSpec version (env.verifyErr v agentSpec version)
        ∈ (Upgrader.downloadArtifact env u version sourceURI (.start d)).2.calls)
    ∧ (∀ path e,
      (Upgrader.downloadArtifact env u version sourceURI (.start d)).1 = (path, some e) →
      (∀ src ∈ ds, (env.downloadRes src agentSpec version).2 ≠ none)
        ∨ (∀ v ∈ vs, env.verifyErr v agentSpec version ≠ none)) := by
  obtain ⟨h1, h2, h3⟩ := downloadArtifact_sources env u version sourceURI vs ds hv hd (.start d)
  have hdq : ∀ c ∈ sourceDownloadCalls env agentSpec version ds, c.isSourceVerify = false := by
    intro c hc
    obtain ⟨src, _, rfl⟩ := mem_sourceDownloadCalls env agentSpec version ds c hc
    rfl
  have hvq : ∀ c ∈ sourceVerifyCalls env agentSpec version vs, c.isSourceDownload = false := by
    intro c hc
    obtain ⟨src, _, rfl⟩ := mem_sourceVerifyCalls env agentSpec version vs c hc
    rfl
  have hmem : ∀ pre v post, vs = pre ++ v :: post →
      (∀ x ∈ pre, env.verifyErr x agentSpec version ≠ none) →
      Call.sourceVerify v agentSpec version (env.verifyErr v agentSpec version)
        ∈ sourceVerifyCalls env agentSpec version vs := by
    intro pre v post hvs hpre
    subst hvs
    unfold sourceVerifyCalls
    refine List.mem_map.mpr ⟨v, mem_attempted _ pre v post ?_, rfl⟩
    intro y hy
    have := hpre y hy
    cases hres : env.verifyErr y agentSpec version <;> simp_all
  rcases hdl : composedDownloadResult env agentSpec version ds none with ⟨path1, _ | e1⟩
  · rcases hvf : composedVerifyResult env agentSpec version vs none with _ | e2
    · rw [h3 path1 hdl hvf]
      refine ⟨⟨sourceDownloadCalls env agentSpec version ds
          ++ [.fetcherDownload agentSpec version (path1, none)],
        sourceVerifyCalls env agentSpec version vs
          ++ [.verifierVerify agentSpec version none,
            .downloadArtifact version sourceURI (path1, none)],
        by simp [World.start], ?_, ?_⟩, ?_, ?_⟩
      · exact quiet_append hdq (by simp [Call.isSourceVerify])
      · exact quiet_append hvq (by simp [Call.isSourceDownload])
      · intro path pre v post _ hvs hpre
        simp [World.start, hmem pre v post hvs hpre]
      · intro path e h
        simp at h
    · rw [h2 path1 e2 hdl hvf]
      refine ⟨⟨sourceDownloadCalls env agentSpec version ds
          ++ [.fetcherDownload agentSpec version (path1, none)],
        sourceVerifyCalls env agentSpec version vs
          ++ [.verifierVerify agentSpec version (some e2),
            .downloadArtifact version sourceURI
              ("", some (.wrap e2 "failed verification of agent binary"))],
        by simp [World.start], ?_, ?_⟩, ?_, ?_⟩
      · exact quiet_append hdq (by simp [Call.isSourceVerify])
      · exact quiet_append hvq (by simp [Call.isSourceDownload])
      · intro path pre v post _ hvs hpre
        simp [World.start, hmem pre v post hvs hpre]
      · intro path e _
        exact Or.inr (composedVerifyResult_error env agentSpec version vs none e2 hvf)
  · rw [h1 path1 e1 hdl]
    refine ⟨⟨sourceDownloadCalls env agentSpec version ds
        ++ [.fetcherDownload agentSpec version (path1, some e1)],
      [.downloadArtifact version sourceURI
        ("", some (.wrap e1 "failed upgrade of agent binary"))],
      by simp [World.start], ?_, ?_⟩, ?_, ?_⟩
    · exact quiet_append hdq (by simp [Call.isSourceVerify])
    · simp [Call.isSourceDownload]
    · intro path pre v post h
      simp at h
    · intro path e _
      exact Or.inl (composedDownloadResult_error env agentSpec version ds none path1 e1 hdl)

/-- Witness of the amended C10: the local verifier rejects the archive and the
verifier of the next source is tried. -/
theorem downloadArtifact_tries_each_verifier_witness :
    Call.sourceVerify (.http okUpgrader.settings false "key") agentSpec "8.1.0" none
      ∈ (Upgrader.downloadArtifact fsVerifyFailsEnv okUpgrader "8.1.0" ""
          (.start disk0)).2.calls :=
  (downloadArtifact_tries_each_verifier fsVerifyFailsEnv okUpgrader "8.1.0" "" disk0
    [.fs okUpgrader.settings false "key", .http okUpgrader.settings false "key"]
    [.fs okUpgrader.settings, .http okUpgrader.settings] rfl rfl).2.1
    "archive.tar.gz" [.fs okUpgrader.settings false "key"]
    (.http okUpgrader.settings false "key") [] (by decide) rfl (by decide)

/-! ## C11 -/

theorem HasSuffix_iff (s p : String) :
    strings.HasSuffix s p = true ↔ ∃ t : String, s = t ++ p := by
  unfold strings.HasSuffix
  rw [List.isPrefixOf_iff_prefix, List.reverse_prefix]
  constructor
  · rintro ⟨t, ht⟩
    exact ⟨String.mk t, by simp [String.ext_iff, ht]⟩
  · rintro ⟨t, rfl⟩
    exact ⟨t.data, by simp⟩

/-- C11: `strings.HasSuffix version "-SNAPSHOT"` holds exactly when the version
ends with `-SNAPSHOT`.  Whenever `newDownloader` returns a downloader, it is the
composition local-FS, snapshot, HTTPS in that order if the version ends with
`-SNAPSHOT`, and the release composition local-FS, HTTPS if it does not;
`newVerifier` makes the same choice with the same order; and both return their
composition when no constructor fails. -/
theorem newDownloader_by_suffix (env : Env) (version : String) (settings : Config) :
    (strings.HasSuffix version "-SNAPSHOT" = true ↔ ∃ t : String, version = t ++ "-SNAPSHOT")
    ∧ (∀ ds, newDownloader env version settings = .ok ds →
      (strings.HasSuffix version "-SNAPSHOT" = true
          ∧ ds = [.fs settings, .snapshot settings version, .http settings])
        ∨ (strings.HasSuffix version "-SNAPSHOT" = false
          ∧ ds = [.fs settings, .http settings]))
    ∧ (∀ vs, newVerifier env version settings = .ok vs →
      (strings.HasSuffix version "-SNAPSHOT" = true
          ∧ vs = [.fs settings env.releasePGP.1 env.releasePGP.2,
            .snapshot settings env.releasePGP.1 env.releasePGP.2 version,
            .http settings env.releasePGP.1 env.releasePGP.2])
        ∨ (strings.HasSuffix version "-SNAPSHOT" = false
          ∧ vs = [.fs settings env.releasePGP.1 env.releasePGP.2,
            .http settings env.releasePGP.1 env.releasePGP.2]))
    ∧ ((∀ src, env.newDownloaderErr src = none) →
      ∃ ds, newDownloader env version settings = .ok ds)
    ∧ ((∀ src, env.newVerifierErr src = none) →
      ∃ vs, newVerifier env version settings = .ok vs) := by
  refine ⟨HasSuffix_iff version "-SNAPSHOT", ?_, ?_, ?_, ?_⟩
  · intro ds h
    unfold newDownloader localremote.NewDownloader at h
    cases hsuf : strings.HasSuffix version "-SNAPSHOT" <;> simp only [hsuf] at h
    · right
      cases hh : env.newDownloaderErr (.http settings) <;> simp [hh] at h
      exact ⟨rfl, h.symm⟩
    · left
      cases hs : env.newDownloaderErr (.snapshot settings version) <;>
        cases hh : env.newDownloaderErr (.http settings) <;> simp [hs, hh] at h
      exact ⟨rfl, h.symm⟩
  · intro vs h
    unfold newVerifier localremote.NewVerifier at h
    cases hsuf : strings.HasSuffix version "-SNAPSHOT" <;> simp only [hsuf] at h
    · right
      cases hf : env.newVerifierErr (.fs settings env.releasePGP.1 env.releasePGP.2) <;>
        cases hh : env.newVerifierErr (.http settings env.releasePGP.1 env.releasePGP.2) <;>
        simp [hf, hh] at h
      exact ⟨rfl, h.symm⟩
    · left
      cases hf : env.newVerifierErr (.fs settings env.releasePGP.1 env.releasePGP.2) <;>
        cases hs : env.newVerifierErr
          (.snapshot settings env.releasePGP.1 env.releasePGP.2 version) <;>
        cases hh : env.newVerifierErr (.http settings env.releasePGP.1 env.releasePGP.2) <;>
        simp [hf, hs, hh] at h
      exact ⟨rfl, h.symm⟩
  · intro hok
    unfold newDownloader localremote.NewDownloader
    cases strings.HasSuffix version "-SNAPSHOT" <;> simp [hok]
  · intro hok
    unfold newVerifier localremote.NewVerifier
    cases strings.HasSuffix version "-SNAPSHOT" <;> simp [hok]

/-- Witness of C11: a snapshot version and a release version. -/
theorem newDownloader_by_suffix_witness :
    (strings.HasSuffix "8.1.0-SNAPSHOT" "-SNAPSHOT" = true
      ∧ [Downloader.fs settings0, .snapshot settings0 "8.1.0-SNAPSHOT", .http settings0]
        = [.fs settings0, .snapshot settings0 "8.1.0-SNAPSHOT", .http settings0])
    ∨ (strings.HasSuffix "8.1.0-SNAPSHOT" "-SNAPSHOT" = false
      ∧ [Downloader.fs settings0, .snapshot settings0 "8.1.0-SNAPSHOT", .http settings0]
        = [.fs settings0, .http settings0]) :=
  (newDownloader_by_suffix okEnv "8.1.0-SNAPSHOT" settings0).2.1
    [.fs settings0, .snapshot settings0 "8.1.0-SNAPSHOT", .http settings0] rfl

/-! ## C12 -/

theorem capsApply_mem_capsCalls (u : Upgrader) (a a1 : Action) (b : Bool)
    (hmem : Call.capsApply a1 b ∈ capsCalls u a) : a1 = a ∧ b = isBlocked u a := by
  unfold capsCalls at hmem
  unfold isBlocked
  rcases hcaps : u.caps with _ | apply <;> rw [hcaps] at hmem <;> simp at hmem
  exact hmem

theorem capsApply_mem_fetchCalls (env : Env) (u : Upgrader) (a a1 : Action) (b : Bool)
    (hmem : Call.capsApply a1 b ∈ fetchCalls env u a) : a1 = a ∧ b = isBlocked u a := by
  obtain ⟨cs, hcs, hdl⟩ := downloadCalls_eq env u a.version (u.sourceURI a.sourceURI)
  simp only [fetchCalls, hdl, List.mem_append, List.mem_singleton] at hmem
  rcases hmem with ((hmem | hmem) | hmem) | hmem | hmem
  · simp [cleanCall] at hmem
  · exact capsApply_mem_capsCalls u a a1 b hmem
  · simp [updatingCall] at hmem
  · have := hcs _ hmem
    simp [Call.isFetchStep] at this
  · simp at hmem

/-- C12, as stated, fails: the capability blocks the fleet upgrade; `Upgrade`
returns `(nil, nil)` after the cleanup of the downloads and the capability
check, and no call of the run is a call of `acker.Ack` or `acker.Commit`: the
action is not acknowledged. -/
theorem upgrade_blocked_no_ack_counterexample :
    (Upgrader.Upgrade okEnv blockedUpgrader fleetAct true (.start disk0)).1 = (none, none)
    ∧ (Upgrader.Upgrade okEnv blockedUpgrader fleetAct true (.start disk0)).2.calls
      = [.cleanNonMatchingVersionsFromDownloads "8.0.0" none, .capsApply fleetAct true]
    ∧ (∀ c ∈ (Upgrader.Upgrade okEnv blockedUpgrader fleetAct true (.start disk0)).2.calls,
      c.isAckerAck = false ∧ c.isAckerCommit = false) := by
  decide

/-- C12, amended: when the capability check blocks the upgrade (`caps.Apply`
returned an error that is `ErrBlocked`), `Upgrade` returns `(nil, nil)` and the
calls of the run are the cleanup of the downloads and the capability check
alone: it makes no call of the acker, does not report Updating, does not
download, unpack, change the symlink or re-exec, and the disk is as before. -/
theorem upgrade_blocked_returns_idle (env : Env) (u : Upgrader) (a : Action)
    (reexecNow : Bool) (d : Disk)
    (hb : Call.capsApply a true ∈ (Upgrader.Upgrade env u a reexecNow (.start d)).2.calls) :
    (Upgrader.Upgrade env u a reexecNow (.start d)).1 = (none, none)
    ∧ (Upgrader.Upgrade env u a reexecNow (.start d)).2.calls
      = [cleanCall env u, .capsApply a true]
    ∧ (∀ c ∈ (Upgrader.Upgrade env u a reexecNow (.start d)).2.calls,
      c.isAckStep = false ∧ c.isUpdatingReport = false ∧ c.isFetchStep = false
        ∧ c.isInstallStep = false)
    ∧ (Upgrader.Upgrade env u a reexecNow (.start d)).2.disk = d := by
  obtain ⟨res, w, hexit, hrun⟩ := Upgrade_exit env u a reexecNow d
  rw [hrun] at hb ⊢
  clear hrun
  simp only at hb ⊢
  have hf : ∀ b, Call.capsApply a b ∈ fetchCalls env u a → b = isBlocked u a :=
    fun b hm => (capsApply_mem_fetchCalls env u a a b hm).2
  cases hexit
  case blocked hup hblk =>
    have hcalls : capsCalls u a = [.capsApply a true] := by
      unfold capsCalls
      unfold isBlocked at hblk
      rcases hcaps : u.caps with _ | apply <;> rw [hcaps] at hblk <;> simp at hblk ⊢
      exact hblk
    simp [deferredCalls, hcalls, cleanCall, Call.isAckStep, Call.isUpdatingReport,
      Call.isFetchStep, Call.isInstallStep, Call.isSwapStep]
  case notUpgradeable hup =>
    simp [not_mem_deferredCalls, Call.isAckerAck, Call.isFailedReport] at hb
  all_goals
    simp only [List.mem_append, List.append_assoc] at hb
    have hfalse : (true = isBlocked u a) → False := by simp_all
    rcases hb with hb | hb
    · exact absurd (hf true hb) (by simp_all)
    · simp [not_mem_deferredCalls, not_mem_ackCalls, rollbackCalls, Call.isAckerAck,
        Call.isFailedReport, Call.isAckStep, cleanCall] at hb

/-- Witness of the amended C12: the capability blocks the fleet upgrade. -/
theorem upgrade_blocked_returns_idle_witness :
    (Upgrader.Upgrade okEnv blockedUpgrader fleetAct true (.start disk0)).1 = (none, none)
    ∧ (Upgrader.Upgrade okEnv blockedUpgrader fleetAct true (.start disk0)).2.disk = disk0 :=
  ⟨(upgrade_blocked_returns_idle okEnv blockedUpgrader fleetAct true disk0 (by decide)).1,
    (upgrade_blocked_returns_idle okEnv blockedUpgrader fleetAct true disk0
      (by decide)).2.2.2⟩

/-! ## C14 -/

theorem isSupportedLogLevel_iff (level : String) :
    isSupportedLogLevel level = true ↔
      level = "debug" ∨ level = "info" ∨ level = "warning" ∨ level = "error" := by
  simp only [isSupportedLogLevel, Bool.or_eq_true, beq_iff_eq]
  tauto

/-- C14: `isSupportedLogLevel level` is true if and only if `level` is one of
the four strings debug, info, warning, error; the empty string, trace, warn and
DEBUG are rejected. -/
theorem isSupportedLogLevel_exact (level : String) :
    (isSupportedLogLevel level = true ↔
      level = "debug" ∨ level = "info" ∨ level = "warning" ∨ level = "error")
    ∧ isSupportedLogLevel "" = false ∧ isSupportedLogLevel "trace" = false
    ∧ isSupportedLogLevel "warn" = false ∧ isSupportedLogLevel "DEBUG" = false :=
  ⟨isSupportedLogLevel_iff level, by decide, by decide, by decide, by decide⟩

/-! ## C13 -/

/-- C13: for every settings action whose log level is none of debug, info,
warning, error, `Settings.Handle` returns an error and leaves the world as it
was: no call of `SetLogLevel`, `acker.Ack`, `acker.Commit` or `ReExec`, and the
log level unchanged; the same holds for every action that is not a settings
action. -/
theorem settings_invalid_level_rejected (h : handlers.Settings) (acker : FleetAcker)
    (w : AppWorld) :
    (∀ action : ActionSettings,
      action.logLevel ≠ "debug" → action.logLevel ≠ "info" → action.logLevel ≠ "warning" →
      action.logLevel ≠ "error" →
      ∃ err, handlers.Settings.Handle h (.settings action) acker w = (some err, w))
    ∧ (∀ a : fleetapi.Action, (∀ action, a ≠ .settings action) →
      ∃ err, handlers.Settings.Handle h a acker w = (some err, w)) := by
  constructor
  · intro action h1 h2 h3 h4
    have hns : isSupportedLogLevel action.logLevel = false := by
      cases hs : isSupportedLogLevel action.logLevel
      · rfl
      · rcases (isSupportedLogLevel_iff _).mp hs with hl | hl | hl | hl
        · exact absurd hl h1
        · exact absurd hl h2
        · exact absurd hl h3
        · exact absurd hl h4
    exact ⟨.errorf ("invalid log level, expected debug|info|warning|error and received '"
      ++ action.logLevel ++ "'"), by simp [handlers.Settings.Handle, hns]⟩
  · intro a ha
    cases a with
    | settings action => exact absurd rfl (ha action)
    | upgrade _ => exact ⟨_, rfl⟩
    | app _ => exact ⟨_, rfl⟩
    | other _ _ _ => exact ⟨_, rfl⟩

/-- Witness of C13: the level trace, and an upgrade action handed to the
settings handler. -/
theorem settings_invalid_level_rejected_witness :
    (∃ err, handlers.Settings.Handle okSettings (.settings traceSettings) okFleetAcker appWorld0
      = (some err, appWorld0))
    ∧ (∃ err, handlers.Settings.Handle okSettings (.upgrade fleetUpgrade) okFleetAcker appWorld0
      = (some err, appWorld0)) :=
  ⟨(settings_invalid_level_rejected okSettings okFleetAcker appWorld0).1 traceSettings
      (by decide) (by decide) (by decide) (by decide),
    (settings_invalid_level_rejected okSettings okFleetAcker appWorld0).2
      (.upgrade fleetUpgrade) (fun _ => by simp)⟩

/-! ## C15 -/

/-- C15: for every settings action with a supported log level, when
`SetLogLevel`, `Ack` and `Commit` all return nil, `Settings.Handle` returns nil
and its calls are, in this order and each once: `SetLogLevel` with the level,
`acker.Ack` of the action, `acker.Commit`, `ReExec` with a nil callback; the log
level of the agent info is then the new one. -/
theorem settings_success_sequence (h : handlers.Settings) (acker : FleetAcker) (w : AppWorld)
    (action : ActionSettings) (hlevel : isSupportedLogLevel action.logLevel = true)
    (hset : h.setLogLevelErr action.logLevel = none)
    (hack : acker.Ack (.settings action) = none) (hcommit : acker.Commit = none) :
    handlers.Settings.Handle h (.settings action) acker w
      = (none,
          { world := w.world
            logLevel := action.logLevel
            calls := w.calls ++ [.SetLogLevel action.logLevel none,
              .ackerAck (.settings action) none, .ackerCommit none, .ReExec none] }) := by
  simp [handlers.Settings.Handle, hlevel, AgentInfo.SetLogLevel, hset, handlers.Settings.ack,
    hack, hcommit, AppWorld.log]

/-- Witness of C15: the level debug is set, acked and committed. -/
theorem settings_success_sequence_witness :
    handlers.Settings.Handle okSettings (.settings debugSettings) okFleetAcker appWorld0
      = (none,
          { world := appWorld0.world
            logLevel := "debug"
            calls := [.SetLogLevel "debug" none, .ackerAck (.settings debugSettings) none,
              .ackerCommit none, .ReExec none] }) :=
  settings_success_sequence okSettings okFleetAcker appWorld0 debugSettings (by decide) rfl rfl
    rfl

/-! ## C16 -/

theorem wasUnenrolledLoop_iff (actions : List fleetapi.Action) :
    wasUnenrolledLoop actions = true ↔ ∃ a ∈ actions, a.Type = "UNENROLL" := by
  induction actions with
  | nil => simp [wasUnenrolledLoop]
  | cons a rest ih =>
    unfold wasUnenrolledLoop
    by_cases ha : a.Type = "UNENROLL"
    · simp [ha]
    · simp [ha, ih]

/-- C16: `wasUnenrolled` is true if and only if some action of the state store
has the type `UNENROLL`.  When it is true `Managed.Start` returns nil and makes
no call: no `ReloadID`, no `upgrader.Ack`, no `gateway.Start`.  When it is false
and `ReloadID` fails, `Start` returns that error after that call alone; when it
is false and `ReloadID` succeeds, `Start` calls `upgrader.Ack` (its error is
only logged), then `gateway.Start`, and returns what `gateway.Start` returns. -/
theorem managed_start_unenrolled (env : Env) (m : Managed) (w : AppWorld) :
    (m.wasUnenrolled = true ↔ ∃ a ∈ m.stateStoreActions, a.Type = "UNENROLL")
    ∧ (m.wasUnenrolled = true → Managed.Start env m w = (none, w))
    ∧ (m.wasUnenrolled = false → ∀ err, m.reloadIDErr = some err →
      Managed.Start env m w = (some err, w.log (.ReloadID (some err))))
    ∧ (m.wasUnenrolled = false → m.reloadIDErr = none →
      Managed.Start env m w
        = (m.gatewayStartErr,
            { world := (Upgrader.Ack env m.upgrader w.world).2
              logLevel := w.logLevel
              calls := w.calls ++ [.ReloadID none,
                .upgraderAck (Upgrader.Ack env m.upgrader w.world).1,
                .gatewayStart m.gatewayStartErr] })) := by
  refine ⟨wasUnenrolledLoop_iff m.stateStoreActions, ?_, ?_, ?_⟩
  · intro hun
    simp [Managed.Start, hun]
  · intro hun err herr
    simp [Managed.Start, hun, herr]
  · intro hun hre
    simp [Managed.Start, hun, hre, AppWorld.log]

/-- Witness of C16: an unenrolled application starts without any call, and an
enrolled one returns the error of its gateway. -/
theorem managed_start_unenrolled_witness :
    Managed.Start okEnv unenrolledManaged appWorld0 = (none, appWorld0)
    ∧ (Managed.Start okEnv enrolledManaged appWorld0).1 = some (.other "gateway") :=
  ⟨(managed_start_unenrolled okEnv unenrolledManaged appWorld0).2.1 (by decide),
    congrArg Prod.fst
      ((managed_start_unenrolled okEnv enrolledManaged appWorld0).2.2.2 (by decide) rfl)⟩

/-! ## C17 -/

/-- C17: for every action, agent id and reading of the clock, the event of
`constructEvent` has the event type `ACTION_RESULT`, the sub type
`ACKNOWLEDGED`, the id of the action, the given agent id and the message
`Action '<id>' of type '<type>' acknowledged.`; for an app action its six
further fields are those of the action, and for every other action they are at
their zero values. -/
theorem constructEvent_fields (now : String) (action : fleetapi.Action) (agentID : String) :
    (constructEvent now action agentID).eventType = "ACTION_RESULT"
    ∧ (constructEvent now action agentID).subType = "ACKNOWLEDGED"
    ∧ (constructEvent now action agentID).actionID = action.ID
    ∧ (constructEvent now action agentID).agentID = agentID
    ∧ (constructEvent now action agentID).message
      = "Action '" ++ action.ID ++ "' of type '" ++ action.Type ++ "' acknowledged."
    ∧ (∀ a, action = .app a →
      (constructEvent now action agentID).actionInputType = a.inputType
      ∧ (constructEvent now action agentID).actionData = a.data
      ∧ (constructEvent now action agentID).actionResponse = a.response
      ∧ (constructEvent now action agentID).startedAt = a.startedAt
      ∧ (constructEvent now action agentID).completedAt = a.completedAt
      ∧ (constructEvent now action agentID).error = a.error)
    ∧ ((∀ a, action ≠ .app a) →
      (constructEvent now action agentID).actionInputType = ""
      ∧ (constructEvent now action agentID).actionData = ""
      ∧ (constructEvent now action agentID).actionResponse = []
      ∧ (constructEvent now action agentID).startedAt = ""
      ∧ (constructEvent now action agentID).completedAt = ""
      ∧ (constructEvent now action agentID).error = "") := by
  cases action with
  | app a =>
    refine ⟨rfl, rfl, rfl, rfl, rfl, ?_, ?_⟩
    · intro a1 h
      cases h
      exact ⟨rfl, rfl, rfl, rfl, rfl, rfl⟩
    · intro h
      exact absurd rfl (h a)
  | upgrade a =>
    exact ⟨rfl, rfl, rfl, rfl, rfl, fun a1 h => (by cases h),
      fun _ => ⟨rfl, rfl, rfl, rfl, rfl, rfl⟩⟩
  | settings a =>
    exact ⟨rfl, rfl, rfl, rfl, rfl, fun a1 h => (by cases h),
      fun _ => ⟨rfl, rfl, rfl, rfl, rfl, rfl⟩⟩
  | other t i k =>
    exact ⟨rfl, rfl, rfl, rfl, rfl, fun a1 h => (by cases h),
      fun _ => ⟨rfl, rfl, rfl, rfl, rfl, rfl⟩⟩

/-- Witness of C17: an app action carries its fields into the event, an upgrade
action leaves them empty. -/
theorem constructEvent_fields_witness :
    ((constructEvent "now" (.app appAction0) "agent-1").actionInputType = "osquery"
      ∧ (constructEvent "now" (.app appAction0) "agent-1").actionData = "select 1"
      ∧ (constructEvent "now" (.app appAction0) "agent-1").actionResponse = [("rows", "1")]
      ∧ (constructEvent "now" (.app appAction0) "agent-1").startedAt = "t0"
      ∧ (constructEvent "now" (.app appAction0) "agent-1").completedAt = "t1"
      ∧ (constructEvent "now" (.app appAction0) "agent-1").error = "")
    ∧ ((constructEvent "now" (.upgrade fleetUpgrade) "agent-1").actionInputType = ""
      ∧ (constructEvent "now" (.upgrade fleetUpgrade) "agent-1").actionData = ""
      ∧ (constructEvent "now" (.upgrade fleetUpgrade) "agent-1").actionResponse = []
      ∧ (constructEvent "now" (.upgrade fleetUpgrade) "agent-1").startedAt = ""
      ∧ (constructEvent "now" (.upgrade fleetUpgrade) "agent-1").completedAt = ""
      ∧ (constructEvent "now" (.upgrade fleetUpgrade) "agent-1").error = "") :=
  ⟨(constructEvent_fields "now" (.app appAction0) "agent-1").2.2.2.2.2.1 appAction0 rfl,
    (constructEvent_fields "now" (.upgrade fleetUpgrade) "agent-1").2.2.2.2.2.2
      (fun _ => by simp)⟩

/-! ## C18 -/

theorem ackBatchEvents_length (now : Nat → String) (agentID : String)
    (actions : List fleetapi.Action) (i : Nat) :
    (ackBatchEvents now agentID actions i).length = actions.length := by
  induction actions generalizing i with
  | nil => rfl
  | cons a rest ih => simp [ackBatchEvents, ih]

/-- C18: when the client fails the request, `Acker.Ack` returns an error, the
acker is as before and the failed request is the only one executed; the same
holds for `Acker.AckBatch` on a list of actions that is not empty; and
`Acker.Commit`, also right after such a failure, returns nil, executes no
request and leaves the acker as it is. -/
theorem fleet_acker_retains_nothing (now : String) (nowB : Nat → String)
    (fmtV : List fleetapi.Action → String) (w : fleet.World) :
    (∀ action e,
      w.acker.client { events := [constructEvent now action w.acker.agentID] } = some e →
      (∃ err, (fleet.Acker.Ack now action w).1 = some err)
      ∧ (fleet.Acker.Ack now action w).2.acker = w.acker
      ∧ (fleet.Acker.Ack now action w).2.requests
        = w.requests ++ [({ events := [constructEvent now action w.acker.agentID] }, some e)]
      ∧ fleet.Acker.Commit (fleet.Acker.Ack now action w).2
        = (none, (fleet.Acker.Ack now action w).2))
    ∧ (∀ actions e, actions ≠ [] →
      w.acker.client { events := ackBatchEvents nowB w.acker.agentID actions 0 } = some e →
      (∃ err, (fleet.Acker.AckBatch nowB fmtV actions w).1 = some err)
      ∧ (fleet.Acker.AckBatch nowB fmtV actions w).2.acker = w.acker
      ∧ (fleet.Acker.AckBatch nowB fmtV actions w).2.requests
        = w.requests ++ [({ events := ackBatchEvents nowB w.acker.agentID actions 0 }, some e)]
      ∧ fleet.Acker.Commit (fleet.Acker.AckBatch nowB fmtV actions w).2
        = (none, (fleet.Acker.AckBatch nowB fmtV actions w).2))
    ∧ (∀ w1 : fleet.World, fleet.Acker.Commit w1 = (none, w1)) := by
  refine ⟨?_, ?_, fun _ => rfl⟩
  · intro action e he
    simp [fleet.Acker.Ack, he, fleet.Acker.Commit]
  · intro actions e hne he
    have hlen : ((ackBatchEvents nowB w.acker.agentID actions 0).length == 0) = false := by
      rw [ackBatchEvents_length]
      cases actions with
      | nil => exact absurd rfl hne
      | cons a rest => simp
    simp [fleet.Acker.AckBatch, hlen, he, fleet.Acker.Commit]

/-- Witness of C18: the client of the acker refuses the connection. -/
theorem fleet_acker_retains_nothing_witness :
    (∃ err, (fleet.Acker.Ack "now" (.upgrade fleetUpgrade) offlineAcker).1 = some err)
    ∧ (∃ err, (fleet.Acker.AckBatch (fun _ => "now") (fun _ => "")
        [.upgrade fleetUpgrade, .settings debugSettings] offlineAcker).1 = some err) :=
  ⟨((fleet_acker_retains_nothing "now" (fun _ => "now") (fun _ => "") offlineAcker).1
      (.upgrade fleetUpgrade) (.other "connection refused") rfl).1,
    ((fleet_acker_retains_nothing "now" (fun _ => "now") (fun _ => "") offlineAcker).2.1
      [.upgrade fleetUpgrade, .settings debugSettings] (.other "connection refused")
      (by simp) rfl).1⟩

/-! ## C19 -/

/-- C19: for every upgrade action, `Upgrade.Handle` makes one call of
`Upgrader.Upgrade`, on the `upgradeAction` of the action (its version, its
source URI, and the action itself as fleet action) with `reexecNow` true, and
returns the error that call returned; for an action of any other type it
returns an error and leaves the world as it was, without a call of the
upgrader. -/
theorem handle_upgrade_invokes_once (env : Env) (u : Upgrader) (w : AppWorld) :
    (∀ action : ActionUpgrade,
      handlers.Upgrade.Handle env u (.upgrade action) w
        = ((Upgrader.Upgrade env u
              { version := action.version, sourceURI := action.sourceURI,
                fleetAction := some action } true w.world).1.2,
            { world := (Upgrader.Upgrade env u
                { version := action.version, sourceURI := action.sourceURI,
                  fleetAction := some action } true w.world).2
              logLevel := w.logLevel
              calls := w.calls ++ [.upgraderUpgrade
                { version := action.version, sourceURI := action.sourceURI,
                  fleetAction := some action } true
                (Upgrader.Upgrade env u
                  { version := action.version, sourceURI := action.sourceURI,
                    fleetAction := some action } true w.world).1] }))
    ∧ (∀ a : fleetapi.Action, (∀ action, a ≠ .upgrade action) →
      ∃ err, handlers.Upgrade.Handle env u a w = (some err, w)) := by
  constructor
  · intro action
    rfl
  · intro a ha
    cases a with
    | upgrade action => exact absurd rfl (ha action)
    | settings _ => exact ⟨_, rfl⟩
    | app _ => exact ⟨_, rfl⟩
    | other _ _ _ => exact ⟨_, rfl⟩

/-- Witness of C19: a settings action handed to the upgrade handler. -/
theorem handle_upgrade_invokes_once_witness :
    ∃ err, handlers.Upgrade.Handle okEnv okUpgrader (.settings debugSettings) appWorld0
      = (some err, appWorld0) :=
  (handle_upgrade_invokes_once okEnv okUpgrader appWorld0).2 (.settings debugSettings)
    (fun _ => by simp)

/-! ## C20 -/

theorem fetchCalls_no_reexec (env : Env) (u : Upgrader) (a : Action) :
    ∀ c ∈ fetchCalls env u a, c.isReExec = false := by
  intro c hc
  have := fetchCalls_isPrelude env u a c hc
  cases c <;> simp_all [Call.isPrelude, Call.isFetchStep, Call.isReExec]

/-- C20: if in a run of `Upgrader.Upgrade` `markUpgrade` for the new hash `h`
and `InvokeWatcher` returned nil (every step of the upgrade succeeded), then the
run calls `os.RemoveAll` on the downloads directory and returns no error,
whatever that call returns; with `reexecNow` true it returns `(nil, nil)` and
its last call, its only call of `ReExec`, carries the shutdown callback; with
`reexecNow` false it returns that callback and makes no call of `ReExec`. -/
theorem upgrade_success_reexec_or_callback (env : Env) (u : Upgrader) (a : Action)
    (reexecNow : Bool) (d : Disk) (h : String)
    (hok : Call.markUpgrade h a none ∈ (Upgrader.Upgrade env u a reexecNow (.start d)).2.calls
      ∧ Call.InvokeWatcher none ∈ (Upgrader.Upgrade env u a reexecNow (.start d)).2.calls) :
    Call.RemoveAll env.pathsDownloads (env.removeAllErr env.pathsDownloads)
      ∈ (Upgrader.Upgrade env u a reexecNow (.start d)).2.calls
    ∧ (Upgrader.Upgrade env u a reexecNow (.start d)).1.2 = none
    ∧ (reexecNow = true →
      (Upgrader.Upgrade env u a reexecNow (.start d)).1 = (none, none)
      ∧ ∃ pre, (Upgrader.Upgrade env u a reexecNow (.start d)).2.calls
          = pre ++ [.ReExec (shutdownCallback env env.pathsHome env.releaseVersion a.version
              (env.releaseTrimCommit h))]
        ∧ ∀ c ∈ pre, c.isReExec = false)
    ∧ (reexecNow = false →
      (Upgrader.Upgrade env u a reexecNow (.start d)).1
        = (some (shutdownCallback env env.pathsHome env.releaseVersion a.version
            (env.releaseTrimCommit h)), none)
      ∧ ∀ c ∈ (Upgrader.Upgrade env u a reexecNow (.start d)).2.calls, c.isReExec = false) := by
  obtain ⟨res, w, hexit, hrun⟩ := Upgrade_exit env u a reexecNow d
  rw [hrun] at hok ⊢
  clear hrun
  simp only at hok ⊢
  obtain ⟨hmark, hwatch⟩ := hok
  cases hexit
  case reexec hup hb p1 hdl h1 hun hne hnew hcopy hswap hmark1 hwatch1 hre =>
    simp [not_mem_fetchCalls, deferredCalls, Call.isPrelude, Call.isFetchStep] at hmark
    subst hmark
    refine ⟨by simp [deferredCalls], rfl, fun _ => ⟨rfl,
      fetchCalls env u a ++ [.unpack a.version p1 (h, none), .copyActionStore h none,
        .ChangeSymlink h none, .markUpgrade h a none, .InvokeWatcher none,
        .RemoveAll env.pathsDownloads (env.removeAllErr env.pathsDownloads)],
      by simp [deferredCalls, upgradeCallback], ?_⟩, fun hre2 => by simp [hre] at hre2⟩
    refine quiet_append (fetchCalls_no_reexec env u a) ?_
    simp [Call.isReExec]
  case returned hup hb p1 hdl h1 hun hne hnew hcopy hswap hmark1 hwatch1 hre =>
    simp [not_mem_fetchCalls, deferredCalls, Call.isPrelude, Call.isFetchStep] at hmark
    subst hmark
    refine ⟨by simp [deferredCalls], rfl, fun hre2 => by simp [hre] at hre2,
      fun _ => ⟨by simp [upgradeCallback], ?_⟩⟩
    simp only [deferredCalls, List.append_nil]
    refine quiet_append (fetchCalls_no_reexec env u a) ?_
    simp [Call.isReExec]
  all_goals
    simp [not_mem_fetchCalls, not_mem_deferredCalls, not_mem_ackCalls, not_mem_capsCalls,
      rollbackCalls, Call.isPrelude, Call.isFetchStep, Call.isAckerAck, Call.isFailedReport,
      Call.isAckStep, cleanCall] at hmark hwatch

/-- Witness of C20: every step succeeds but the removal of the downloads
directory; with and without `reexecNow`. -/
theorem upgrade_success_reexec_or_callback_witness :
    (Upgrader.Upgrade removeFailsEnv okUpgrader fleetAct true (.start disk0)).1 = (none, none)
    ∧ (Upgrader.Upgrade removeFailsEnv okUpgrader fleetAct false (.start disk0)).1
      = (some (shutdownCallback removeFailsEnv removeFailsEnv.pathsHome
          removeFailsEnv.releaseVersion fleetAct.version
          (removeFailsEnv.releaseTrimCommit "bbbbbb")), none)
    ∧ Call.RemoveAll removeFailsEnv.pathsDownloads (some (.other "busy"))
      ∈ (Upgrader.Upgrade removeFailsEnv okUpgrader fleetAct true (.start disk0)).2.calls :=
  ⟨((upgrade_success_reexec_or_callback removeFailsEnv okUpgrader fleetAct true disk0 "bbbbbb"
      (by decide)).2.2.1 rfl).1,
    ((upgrade_success_reexec_or_callback removeFailsEnv okUpgrader fleetAct false disk0 "bbbbbb"
      (by decide)).2.2.2 rfl).1,
    (upgrade_success_reexec_or_callback removeFailsEnv okUpgrader fleetAct true disk0 "bbbbbb"
      (by decide)).1⟩

/-! ## C26 -/

theorem constructEvent_ids (now : String) (action : fleetapi.Action) (agentID : String) :
    (constructEvent now action agentID).actionID = action.ID ∧
      (constructEvent now action agentID).agentID = agentID := by
  cases action <;> exact ⟨rfl, rfl⟩

theorem ackBatchEvents_getElem (now : Nat → String) (agentID : String)
    (actions : List fleetapi.Action) :
    ∀ (i k : Nat) (a : fleetapi.Action), actions[k]? = some a →
      (ackBatchEvents now agentID actions i)[k]? = some (constructEvent (now (i + k)) a agentID) := by
  induction actions with
  | nil => intro i k a h; simp at h
  | cons x rest ih =>
    intro i k a h
    cases k with
    | zero =>
      simp at h
      simp [ackBatchEvents, h]
    | succ k =>
      simp at h
      have := ih (i + 1) k a h
      simp [ackBatchEvents, this]
      congr 2
      omega

/-- C26: `Acker.AckBatch` sends no request and returns nil for an empty list of
actions; for a list that is not empty it sends exactly one request, with as
many events as actions, the event of index `i` carrying the id of the action of
index `i` and the agent id of the acker. -/
theorem ackBatch_single_request (now : Nat → String) (fmtV : List fleetapi.Action → String)
    (actions : List fleetapi.Action) (w : fleet.World) :
    (actions = [] → fleet.Acker.AckBatch now fmtV actions w = (none, w)) ∧
    (actions ≠ [] → ∃ req : AckRequest,
      (fleet.Acker.AckBatch now fmtV actions w).2.requests
          = w.requests ++ [(req, w.acker.client req)] ∧
        req.events.length = actions.length ∧
        ∀ (i : Nat) (a : fleetapi.Action), actions[i]? = some a →
          ∃ e, req.events[i]? = some e ∧ e.actionID = a.ID ∧ e.agentID = w.acker.agentID) := by
  refine ⟨?_, ?_⟩
  · intro h
    subst h
    rfl
  · intro h
    refine ⟨{ events := ackBatchEvents now w.acker.agentID actions 0 }, ?_, ?_, ?_⟩
    · have hlen : (ackBatchEvents now w.acker.agentID actions 0).length ≠ 0 := by
        rw [ackBatchEvents_length]
        exact fun h0 => h (List.length_eq_zero.mp h0)
      unfold fleet.Acker.AckBatch
      simp only [beq_iff_eq, hlen, if_false]
      cases hc : w.acker.client { events := ackBatchEvents now w.acker.agentID actions 0 } <;> rfl
    · exact ackBatchEvents_length now w.acker.agentID actions 0
    · intro i a hi
      refine ⟨constructEvent (now (0 + i)) a w.acker.agentID, ?_, ?_, ?_⟩
      · exact ackBatchEvents_getElem now w.acker.agentID actions 0 i a hi
      · exact (constructEvent_ids _ a _).1
      · exact (constructEvent_ids _ a _).2

theorem ackBatch_single_request_witness :
    [fleetapi.Action.upgrade fleetUpgrade, .app appAction0] ≠ [] ∧
      ∃ req : AckRequest,
        (fleet.Acker.AckBatch (fun _ => "t") (fun _ => "")
            [.upgrade fleetUpgrade, .app appAction0] offlineAcker).2.requests
          = offlineAcker.requests ++ [(req, offlineAcker.acker.client req)] ∧
        req.events.length = [fleetapi.Action.upgrade fleetUpgrade, .app appAction0].length ∧
        ∀ (i : Nat) (a : fleetapi.Action),
          [fleetapi.Action.upgrade fleetUpgrade, .app appAction0][i]? = some a →
          ∃ e, req.events[i]? = some e ∧ e.actionID = a.ID ∧
            e.agentID = offlineAcker.acker.agentID :=
  ⟨by decide, (ackBatch_single_request (fun _ => "t") (fun _ => "")
    [.upgrade fleetUpgrade, .app appAction0] offlineAcker).2 (by decide)⟩

/-! ## C28 -/

/-- C28: in `Settings.Handle` on a settings action with a supported level, when
`SetLogLevel` returns nil the calls are `SetLogLevel`, `Ack`, `Commit` only if
`Ack` returned nil, and one `ReExec(nil)` whatever `Ack` and `Commit` returned,
and the result is nil; when `SetLogLevel` fails the result is an error and
`SetLogLevel` is the only call. -/
theorem settings_ack_failure_not_fatal (h : handlers.Settings) (action : ActionSettings)
    (acker : FleetAcker) (w : AppWorld)
    (hlevel : isSupportedLogLevel action.logLevel = true) :
    (h.setLogLevelErr action.logLevel = none →
      (handlers.Settings.Handle h (.settings action) acker w).1 = none ∧
      (handlers.Settings.Handle h (.settings action) acker w).2.calls
        = w.calls ++ [.SetLogLevel action.logLevel none,
            .ackerAck (.settings action) (acker.Ack (.settings action))]
          ++ (if (acker.Ack (.settings action)).isNone then [.ackerCommit acker.Commit] else [])
          ++ [.ReExec none]) ∧
    (∀ err, h.setLogLevelErr action.logLevel = some err →
      (handlers.Settings.Handle h (.settings action) acker w).1
        = some (.wrap err "failed to update log level") ∧
      (handlers.Settings.Handle h (.settings action) acker w).2.calls
        = w.calls ++ [.SetLogLevel action.logLevel (some err)]) := by
  refine ⟨?_, ?_⟩
  · intro hset
    cases hack : acker.Ack (.settings action) <;>
      simp [handlers.Settings.Handle, hlevel, AgentInfo.SetLogLevel, hset, handlers.Settings.ack,
        hack, AppWorld.log]
  · intro err hset
    simp [handlers.Settings.Handle, hlevel, AgentInfo.SetLogLevel, hset]

theorem settings_ack_failure_not_fatal_witness :
    isSupportedLogLevel debugSettings.logLevel = true ∧
      (handlers.Settings.Handle okSettings (.settings debugSettings) rejectingFleetAcker appWorld0).1
        = none ∧
      (handlers.Settings.Handle okSettings (.settings debugSettings) rejectingFleetAcker
          appWorld0).2.calls
        = [.SetLogLevel "debug" none,
            .ackerAck (.settings debugSettings) (some (.other "offline")), .ReExec none] :=
  ⟨by decide,
    ((settings_ack_failure_not_fatal okSettings debugSettings rejectingFleetAcker appWorld0
      (by decide)).1 rfl).1,
    ((settings_ack_failure_not_fatal okSettings debugSettings rejectingFleetAcker appWorld0
      (by decide)).1 rfl).2⟩

/-! ## C25 -/

theorem HasPrefix_iff (s p : String) :
    strings.HasPrefix s p = true ↔ ∃ rest : String, s = p ++ rest := by
  unfold strings.HasPrefix
  rw [List.isPrefixOf_iff_prefix]
  constructor
  · rintro ⟨t, ht⟩
    exact ⟨String.mk t, by simp [String.ext_iff, ht]⟩
  · rintro ⟨t, rfl⟩
    exact ⟨t.data, by simp⟩

theorem TrimPrefix_append (p rest : String) : strings.TrimPrefix (p ++ rest) p = rest := by
  have hp : strings.HasPrefix (p ++ rest) p = true := (HasPrefix_iff _ _).mpr ⟨rest, rfl⟩
  simp [strings.TrimPrefix, hp, String.ext_iff]

theorem newDownloader_config (env : Env) (version : String) (settings : Config)
    (ds : List Downloader) (h : newDownloader env version settings = .ok ds) :
    ∀ s ∈ ds, s.config = settings := by
  unfold newDownloader localremote.NewDownloader at h
  (repeat' split at h) <;> simp at h <;> subst h <;> simp [Downloader.config]

theorem newVerifier_config (env : Env) (version : String) (settings : Config)
    (vs : List Verifier) (h : newVerifier env version settings = .ok vs) :
    ∀ s ∈ vs, s.config = settings := by
  unfold newVerifier localremote.NewVerifier at h
  simp only [] at h
  (repeat' split at h) <;> simp at h <;> subst h <;> simp [Verifier.config]

theorem downloadArtifactSteps_store (env : Env) (u : Upgrader) (version sourceURI : String)
    (w : World) :
    (Upgrader.downloadArtifactSteps env u version sourceURI w).1.2
      = downloadArtifact.settingsStore u sourceURI := by
  unfold Upgrader.downloadArtifactSteps
  simp only []
  cases newVerifier env version (downloadArtifact.settingsStore u sourceURI).settings with
  | error e => rfl
  | ok verifier =>
    cases newDownloader env version (downloadArtifact.settingsStore u sourceURI).settings with
    | error e => rfl
    | ok fetcher =>
      simp only []
      rcases fetcherDownload env fetcher agentSpec version w with ⟨⟨path, _ | e⟩, w1⟩
      · simp only []
        rcases verifierVerify env verifier agentSpec version w1 with ⟨_ | e, w2⟩ <;> rfl
      · rfl

theorem settingsStore_upgrader (u : Upgrader) (sourceURI : String) :
    (downloadArtifact.settingsStore u sourceURI).upgrader = u.settings := by
  unfold downloadArtifact.settingsStore
  split
  · split <;> rfl
  · rfl

theorem downloadArtifact_source_configs (env : Env) (u : Upgrader) (version sourceURI : String)
    (d : Disk) :
    (∀ s spec v res, Call.sourceDownload s spec v res
        ∈ (Upgrader.downloadArtifact env u version sourceURI (.start d)).2.calls →
      s.config = downloadSettings u sourceURI) ∧
    (∀ s spec v err, Call.sourceVerify s spec v err
        ∈ (Upgrader.downloadArtifact env u version sourceURI (.start d)).2.calls →
      s.config = downloadSettings u sourceURI) := by
  rcases hv : newVerifier env version (downloadSettings u sourceURI) with e1 | vs
  · simp [Upgrader.downloadArtifact, downloadArtifactBody_def, hv, World.log, World.start]
  rcases hd : newDownloader env version (downloadSettings u sourceURI) with e1 | ds
  · simp [Upgrader.downloadArtifact, downloadArtifactBody_def, hv, hd, World.log, World.start]
  have hdc := newDownloader_config env version _ ds hd
  have hvc := newVerifier_config env version _ vs hv
  obtain ⟨h1, h2, h3⟩ := downloadArtifact_sources env u version sourceURI vs ds hv hd (.start d)
  have hdl : ∀ s spec v res, Call.sourceDownload s spec v res
      ∈ sourceDownloadCalls env agentSpec version ds → s.config = downloadSettings u sourceURI := by
    intro s spec v res hmem
    obtain ⟨s1, hs1, heq⟩ := mem_sourceDownloadCalls env agentSpec version ds _ hmem
    cases heq
    exact hdc s hs1
  have hvf : ∀ s spec v err, Call.sourceVerify s spec v err
      ∈ sourceVerifyCalls env agentSpec version vs → s.config = downloadSettings u sourceURI := by
    intro s spec v err hmem
    obtain ⟨s1, hs1, heq⟩ := mem_sourceVerifyCalls env agentSpec version vs _ hmem
    cases heq
    exact hvc s hs1
  have hnv : ∀ s spec v res, Call.sourceDownload s spec v res
      ∉ sourceVerifyCalls env agentSpec version vs := by
    intro s spec v res hmem
    obtain ⟨s1, _, heq⟩ := mem_sourceVerifyCalls env agentSpec version vs _ hmem
    cases heq
  have hnd : ∀ s spec v err, Call.sourceVerify s spec v err
      ∉ sourceDownloadCalls env agentSpec version ds := by
    intro s spec v err hmem
    obtain ⟨s1, _, heq⟩ := mem_sourceDownloadCalls env agentSpec version ds _ hmem
    cases heq
  rcases hres : composedDownloadResult env agentSpec version ds none with ⟨path, _ | e⟩
  · rcases hver : composedVerifyResult env agentSpec version vs none with _ | e
    · rw [h3 path hres hver]
      constructor
      · intro s spec v res hmem
        simp [World.start] at hmem
        rcases hmem with hmem | hmem
        · exact hdl s spec v res hmem
        · exact absurd hmem (hnv s spec v res)
      · intro s spec v err hmem
        simp [World.start] at hmem
        rcases hmem with hmem | hmem
        · exact absurd hmem (hnd s spec v err)
        · exact hvf s spec v err hmem
    · rw [h2 path e hres hver]
      constructor
      · intro s spec v res hmem
        simp [World.start] at hmem
        rcases hmem with hmem | hmem
        · exact hdl s spec v res hmem
        · exact absurd hmem (hnv s spec v res)
      · intro s spec v err hmem
        simp [World.start] at hmem
        rcases hmem with hmem | hmem
        · exact absurd hmem (hnd s spec v err)
        · exact hvf s spec v err hmem
  · rw [h1 path e hres]
    constructor
    · intro s spec v res hmem
      simp [World.start] at hmem
      exact hdl s spec v res hmem
    · intro s spec v err hmem
      simp [World.start] at hmem
      exact absurd hmem (hnd s spec v err)

/-- C25: when `downloadArtifact` returns, the configuration `u.settings` points
at is the one it pointed at before, and every source the call downloads from or
verifies with was built with the private copy; on the copy, a source URI
`file://` followed by `rest` sets `DropPath` to `rest` and nothing else, any
other source URI that is not empty sets `SourceURI` to it and nothing else, and
the empty source URI leaves the copy equal to the settings of the upgrader. -/
theorem downloadArtifact_settings_private (env : Env) (u : Upgrader)
    (version sourceURI : String) (d : Disk) :
    (Upgrader.downloadArtifactSteps env u version sourceURI (.start d)).1.2.upgrader
      = u.settings ∧
    (Upgrader.downloadArtifactSteps env u version sourceURI (.start d)).1.2.settings
      = downloadSettings u sourceURI ∧
    (∀ s spec v res, Call.sourceDownload s spec v res
        ∈ (Upgrader.downloadArtifact env u version sourceURI (.start d)).2.calls →
      s.config = downloadSettings u sourceURI) ∧
    (∀ s spec v err, Call.sourceVerify s spec v err
        ∈ (Upgrader.downloadArtifact env u version sourceURI (.start d)).2.calls →
      s.config = downloadSettings u sourceURI) ∧
    (∀ rest : String, sourceURI = "file://" ++ rest →
      downloadSettings u sourceURI = { u.settings with dropPath := rest }) ∧
    (sourceURI ≠ "" → (∀ rest : String, sourceURI ≠ "file://" ++ rest) →
      downloadSettings u sourceURI = { u.settings with sourceURI := sourceURI }) ∧
    (sourceURI = "" → downloadSettings u sourceURI = u.settings) := by
  refine ⟨?_, ?_, (downloadArtifact_source_configs env u version sourceURI d).1,
    (downloadArtifact_source_configs env u version sourceURI d).2, ?_, ?_, ?_⟩
  · rw [downloadArtifactSteps_store, settingsStore_upgrader]
  · rw [downloadArtifactSteps_store]
    rfl
  · intro rest hrest
    subst hrest
    have hp : strings.HasPrefix ("file://" ++ rest) "file://" = true :=
      (HasPrefix_iff _ _).mpr ⟨rest, rfl⟩
    have hne : ("file://" ++ rest) ≠ "" := by
      intro h
      have := congrArg String.data h
      simp at this
    simp [downloadSettings, downloadArtifact.settingsStore, hne, hp, TrimPrefix_append]
  · intro hne hrest
    have hp : strings.HasPrefix sourceURI "file://" = false := by
      cases hpre : strings.HasPrefix sourceURI "file://" with
      | false => rfl
      | true =>
        obtain ⟨rest, h⟩ := (HasPrefix_iff _ _).mp hpre
        exact absurd h (hrest rest)
    simp [downloadSettings, downloadArtifact.settingsStore, hne, hp]
  · intro h
    simp [downloadSettings, downloadArtifact.settingsStore, h]

theorem downloadArtifact_settings_private_witness :
    "file:///tmp/drop" = "file://" ++ "/tmp/drop" ∧
      (Upgrader.downloadArtifactSteps okEnv okUpgrader "8.1.0" "file:///tmp/drop"
          (.start disk0)).1.2.upgrader = okUpgrader.settings ∧
      downloadSettings okUpgrader "file:///tmp/drop"
        = { okUpgrader.settings with dropPath := "/tmp/drop" } ∧
      (downloadSettings okUpgrader "file:///tmp/drop").dropPath ≠ okUpgrader.settings.dropPath :=
  ⟨by decide,
    (downloadArtifact_settings_private okEnv okUpgrader "8.1.0" "file:///tmp/drop" disk0).1,
    (downloadArtifact_settings_private okEnv okUpgrader "8.1.0" "file:///tmp/drop"
      disk0).2.2.2.2.1 "/tmp/drop" (by decide),
    by decide⟩

/-! ## C29 -/

/-- C29: the marker a manual upgrade leaves holds no action and is not acked,
and on it `Upgrader.Ack` calls `acker.Ack` with the absent action. -/
theorem ack_hands_absent_action :
    ((Upgrader.Upgrade okEnv okUpgrader manualAct false (.start disk0)).2.disk.marker.map
        fun m => (m.action, m.acked)) = some (none, false) ∧
      Call.ackerAck none none
        ∈ (Upgrader.Ack okEnv okUpgrader
            (.start (Upgrader.Upgrade okEnv okUpgrader manualAct false (.start disk0)).2.disk)).2.calls ∧
      Call.ackerAck none none
        ∈ (Upgrader.Ack okEnv okUpgrader (.start manualMarkedDisk)).2.calls := by
  decide

/-! ## C21 -/

/-- C21: in `uninstallCmd`, without the force flag a call of `install.Uninstall`
comes only after a prompt that returned true, and a declined prompt gives the
error "uninstall was cancelled by the user" with no call of `install.Uninstall`
or `install.RemovePath`; with the force flag there is no prompt; and
`install.Uninstall` is called only when `HasRoot` returned true without an
error, the status is not `NotInstalled`, and the running binary is the installed
one when the status is `Installed`. -/
theorem uninstall_asks_before_removal (env : UninstallEnv) :
    (env.force = false → (∃ c ∈ (uninstallCmd env).2, c.isUninstall = true) →
      ∃ prompt, UninstallCall.Confirm prompt true (true, none)
        ∈ (uninstallCmd env).2.takeWhile (fun c => !c.isUninstall)) ∧
    (env.force = false →
      ∀ prompt d, UninstallCall.Confirm prompt d (false, none) ∈ (uninstallCmd env).2 →
        (uninstallCmd env).1 = some (.errorf "uninstall was cancelled by the user") ∧
        ∀ c ∈ (uninstallCmd env).2, c.isUninstall = false ∧ c.isRemovePath = false) ∧
    (env.force = true → ∀ c ∈ (uninstallCmd env).2, c.isConfirm = false) ∧
    ((∃ c ∈ (uninstallCmd env).2, c.isUninstall = true) →
      env.hasRoot = (true, none) ∧ env.status.1 ≠ .NotInstalled ∧
        (env.status.1 = .Installed → env.runningInstalled = true)) := by
  unfold uninstallCmd
  split
  · simp
  · simp
  · rename_i hroot
    simp only [hroot, true_and]
    split_ifs with h1 h2 h3 h4 h5
    · simp
    · simp
    · unfold uninstallCmd.ask uninstallCmd.remove
      (repeat' split) <;>
        simp_all [UninstallCall.isUninstall, UninstallCall.isRemovePath, UninstallCall.isConfirm]
    · unfold uninstallCmd.remove
      (repeat' split) <;>
        simp_all [UninstallCall.isUninstall, UninstallCall.isRemovePath, UninstallCall.isConfirm]
    · unfold uninstallCmd.ask uninstallCmd.remove
      (repeat' split) <;>
        simp_all [UninstallCall.isUninstall, UninstallCall.isRemovePath, UninstallCall.isConfirm]
    · unfold uninstallCmd.remove
      (repeat' split) <;>
        simp_all [UninstallCall.isUninstall, UninstallCall.isRemovePath, UninstallCall.isConfirm]

theorem uninstall_asks_before_removal_witness :
    declinedUninstall.force = false ∧
      UninstallCall.Confirm
          "Elastic Agent will be uninstalled from your system at /opt/Elastic/Agent. Do you want to continue?"
          true (false, none) ∈ (uninstallCmd declinedUninstall).2 ∧
      (uninstallCmd declinedUninstall).1 = some (.errorf "uninstall was cancelled by the user") ∧
      ∀ c ∈ (uninstallCmd declinedUninstall).2, c.isUninstall = false ∧ c.isRemovePath = false :=
  ⟨rfl, by decide,
    (uninstall_asks_before_removal declinedUninstall).2.1 rfl
      "Elastic Agent will be uninstalled from your system at /opt/Elastic/Agent. Do you want to continue?"
      true (by decide)⟩

/-! ## C22 -/

theorem addToGroup_names (target : String) (input : InputConfig) (groups groups1 : List OutputGroup)
    (h : addToGroup target input groups = some groups1) :
    groups1.map (fun g => g.output.name) = groups.map (fun g => g.output.name) := by
  induction groups generalizing groups1 with
  | nil => simp [addToGroup] at h
  | cons g rest ih =>
    unfold addToGroup at h
    split at h
    · cases h
      rfl
    · cases hrest : addToGroup target input rest with
      | none => simp [hrest] at h
      | some r =>
        simp [hrest] at h
        subst h
        simp [ih r hrest]

theorem addToGroup_none (target : String) (input : InputConfig) (groups : List OutputGroup)
    (h : target ∉ groups.map (fun g => g.output.name)) :
    addToGroup target input groups = none := by
  induction groups with
  | nil => rfl
  | cons g rest ih =>
    simp at h
    have hne : ¬ g.output.name = target := fun e => h.1 e.symm
    have hrest : target ∉ rest.map (fun g => g.output.name) := by
      simpa using h.2
    simp [addToGroup, hne, ih hrest]

theorem groupInputs_unknown (inputs : List InputConfig) (groups : List OutputGroup)
    (h : ∃ input ∈ inputs, findOutputName input ∉ groups.map (fun g => g.output.name)) :
    ∃ err, groupInputs inputs groups = .error err := by
  induction inputs generalizing groups with
  | nil => simp at h
  | cons input rest ih =>
    unfold groupInputs
    cases hadd : addToGroup (findOutputName input) input groups with
    | none => exact ⟨_, rfl⟩
    | some groups1 =>
      simp only
      apply ih
      obtain ⟨bad, hmem, hbad⟩ := h
      rw [addToGroup_names _ _ _ _ hadd]
      rcases List.mem_cons.mp hmem with hb | hb
      · subst hb
        rw [addToGroup_none _ _ _ hbad] at hadd
        cases hadd
      · exact ⟨bad, hb, hbad⟩

/-- C22: when some input's `use_output` names an output that is not among the
names under `outputs`, `groupByOutputs` returns an error and no grouping. -/
theorem groupByOutputs_unknown_output (cfg : PolicyConfig)
    (h : ∃ input ∈ cfg.inputs, ∃ name, input.useOutput = some name ∧
      name ∉ cfg.outputs.map (fun o => o.name)) :
    ∃ err, groupByOutputs cfg = .error err := by
  obtain ⟨input, hmem, name, huse, hname⟩ := h
  have hbad : ∃ input ∈ cfg.inputs, findOutputName input
      ∉ (cfg.outputs.map fun o => ({ output := o, inputs := [] } : OutputGroup)).map
        (fun g => g.output.name) := by
    refine ⟨input, hmem, ?_⟩
    simpa [findOutputName, huse, List.map_map, Function.comp_def] using hname
  obtain ⟨err, herr⟩ := groupInputs_unknown _ _ hbad
  exact ⟨err, by simp [groupByOutputs, herr]⟩

theorem groupByOutputs_unknown_output_witness :
    (∃ input ∈ unknownOutputConfig.inputs, ∃ name, input.useOutput = some name ∧
        name ∉ unknownOutputConfig.outputs.map (fun o => o.name)) ∧
      ∃ err, groupByOutputs unknownOutputConfig = .error err :=
  ⟨⟨{ type := "log", useOutput := some "donotexist", options := [] }, by decide, "donotexist",
      rfl, by decide⟩,
    groupByOutputs_unknown_output unknownOutputConfig
      ⟨{ type := "log", useOutput := some "donotexist", options := [] }, by decide, "donotexist",
        rfl, by decide⟩⟩

/-! ## C23 -/

/-- C23, as stated, fails: with `fleet.enc` present and `fleet.yml` modified
after it, `fleet.yml` is encrypted again; and with `fleet.yml` present, no
`fleet.enc` and a failing read, `fleet.yml` is not encrypted. -/
theorem encrypt_again_counterexample :
    (rolledBackDir "fleet.yml").isSome = true ∧ (rolledBackDir "fleet.enc").isSome = true ∧
      EncryptCall.Save "fleet.enc" "new" none
        ∈ (encryptConfigIfNeeded okEncryptEnv { dir := rolledBackDir, calls := [] }).2.calls ∧
      (plainDir "fleet.yml").isSome = true ∧ (plainDir "fleet.enc").isSome = false ∧
      (encryptConfigIfNeeded unreadableEncryptEnv { dir := plainDir, calls := [] }).2.calls = [] := by
  decide

theorem encryptConfigIfNeeded_tail (env : EncryptEnv) (w : EncryptWorld) :
    (encryptConfigIfNeeded env w).1
        = (encryptLoop env [(env.agentStateStoreYmlFile, env.agentStateStoreFile),
            (env.agentConfigYmlFile, env.agentConfigFile)] w).1 ∧
      ∃ tail, (∀ c ∈ tail, ∃ p e, c = EncryptCall.Remove p e) ∧
        (encryptConfigIfNeeded env w).2.calls
          = (encryptLoop env [(env.agentStateStoreYmlFile, env.agentStateStoreFile),
              (env.agentConfigYmlFile, env.agentConfigFile)] w).2.calls ++ tail := by
  unfold encryptConfigIfNeeded
  rcases hloop : encryptLoop env [(env.agentStateStoreYmlFile, env.agentStateStoreFile),
    (env.agentConfigYmlFile, env.agentConfigFile)] w with ⟨_ | err, w1⟩
  · simp only
    split
    · cases env.removeErr env.agentStateStoreYmlFile with
      | none => exact ⟨rfl, [.Remove _ none], by simp, rfl⟩
      | some e => exact ⟨rfl, [.Remove _ (some e)], by simp, rfl⟩
    · exact ⟨rfl, [], by simp, by simp⟩
  · exact ⟨rfl, [], by simp, by simp⟩

theorem save_mem_tail (env : EncryptEnv) (w : EncryptWorld) (dst : String) :
    (∃ b e, EncryptCall.Save dst b e ∈ (encryptConfigIfNeeded env w).2.calls) ↔
      ∃ b e, EncryptCall.Save dst b e
        ∈ (encryptLoop env [(env.agentStateStoreYmlFile, env.agentStateStoreFile),
            (env.agentConfigYmlFile, env.agentConfigFile)] w).2.calls := by
  obtain ⟨_, tail, htail, hcalls⟩ := encryptConfigIfNeeded_tail env w
  rw [hcalls]
  constructor
  · rintro ⟨b, e, hmem⟩
    rcases List.mem_append.mp hmem with h | h
    · exact ⟨b, e, h⟩
    · obtain ⟨p, e1, hc⟩ := htail _ h
      cases hc
  · rintro ⟨b, e, hmem⟩
    exact ⟨b, e, List.mem_append.mpr (Or.inl hmem)⟩

/-- C23, amended: when no file access fails, `encryptConfigIfNeeded` returns nil
and encrypts a yml file into its enc file if and only if the yml file exists and
the enc file either does not exist or has a modification time the yml file is
not before; so an enc file that exists stops the encryption only when the yml
file is older than it. -/
theorem encrypt_iff_yml_not_older (env : EncryptEnv) (d : ConfigDir)
    (hstat : ∀ p, env.statErr p = none) (hread : ∀ p, env.readErr p = none)
    (hsave : ∀ p, env.saveErr p = none)
    (h1 : env.agentStateStoreFile ≠ env.agentConfigYmlFile)
    (h2 : env.agentStateStoreFile ≠ env.agentConfigFile) :
    (encryptConfigIfNeeded env { dir := d, calls := [] }).1 = none ∧
    ((∃ b e, EncryptCall.Save env.agentStateStoreFile b e
          ∈ (encryptConfigIfNeeded env { dir := d, calls := [] }).2.calls) ↔
      ∃ yml, d env.agentStateStoreYmlFile = some yml ∧
        ∀ enc, d env.agentStateStoreFile = some enc → ¬ yml.modTime < enc.modTime) ∧
    ((∃ b e, EncryptCall.Save env.agentConfigFile b e
          ∈ (encryptConfigIfNeeded env { dir := d, calls := [] }).2.calls) ↔
      ∃ yml, d env.agentConfigYmlFile = some yml ∧
        ∀ enc, d env.agentConfigFile = some enc → ¬ yml.modTime < enc.modTime) := by
  have h1s := Ne.symm h1
  have h2s := Ne.symm h2
  rw [save_mem_tail, save_mem_tail, (encryptConfigIfNeeded_tail env _).1]
  simp only [encryptLoop, fileutil.GetModTimeExists, hstat, hread, hsave]
  rcases hsy : d env.agentStateStoreYmlFile with _ | sy <;>
  rcases hse : d env.agentStateStoreFile with _ | se <;>
  rcases hfy : d env.agentConfigYmlFile with _ | fy <;>
  rcases hfe : d env.agentConfigFile with _ | fe <;>
  simp [*, ConfigDir.write] <;>
  (repeat' split) <;> simp_all

theorem encrypt_iff_yml_not_older_witness :
    okEncryptEnv.agentStateStoreFile ≠ okEncryptEnv.agentConfigYmlFile ∧
      okEncryptEnv.agentStateStoreFile ≠ okEncryptEnv.agentConfigFile ∧
      (encryptConfigIfNeeded okEncryptEnv { dir := rolledBackDir, calls := [] }).1 = none ∧
      ((∃ b e, EncryptCall.Save okEncryptEnv.agentConfigFile b e
            ∈ (encryptConfigIfNeeded okEncryptEnv { dir := rolledBackDir, calls := [] }).2.calls) ↔
        ∃ yml, rolledBackDir okEncryptEnv.agentConfigYmlFile = some yml ∧
          ∀ enc, rolledBackDir okEncryptEnv.agentConfigFile = some enc →
            ¬ yml.modTime < enc.modTime) :=
  ⟨by decide, by decide,
    (encrypt_iff_yml_not_older okEncryptEnv rolledBackDir (fun _ => rfl) (fun _ => rfl)
      (fun _ => rfl) (by decide) (by decide)).1,
    (encrypt_iff_yml_not_older okEncryptEnv rolledBackDir (fun _ => rfl) (fun _ => rfl)
      (fun _ => rfl) (by decide) (by decide)).2.2⟩

/-! ## C27 -/

theorem render_ne_nil (rooted : Bool) (stack : List (List Char)) :
    filepath.render rooted stack ≠ [] := by
  unfold filepath.render
  split
  · simp
  · split
    · simp
    · assumption

theorem Clean_ne_empty (path : String) : filepath.Clean path ≠ "" := by
  intro h
  have hdata := congrArg String.data h
  exact render_ne_nil _ _ hdata

theorem Dir_ne_empty (path : String) : filepath.Dir path ≠ "" := Clean_ne_empty _

theorem getRootDirLoop_first_root (pre : List String) (name : String) (post : List String)
    (rootDir : String) (hpre : ∀ f ∈ pre, filepath.Base f ≠ filepath.Dir f)
    (hname : filepath.Base name = filepath.Dir name) :
    getRootDirLoop (pre ++ name :: post) rootDir = name := by
  induction pre generalizing rootDir with
  | nil => simp [getRootDirLoop, hname]
  | cons f rest ih =>
    have hf : filepath.Base f ≠ filepath.Dir f := hpre f (List.mem_cons_self _ _)
    have hrest : ∀ g ∈ rest, filepath.Base g ≠ filepath.Dir g :=
      fun g hg => hpre g (List.mem_cons_of_mem _ hg)
    simp only [List.cons_append, getRootDirLoop, hf, if_false]
    split
    · exact ih _ hrest
    · exact ih _ hrest

theorem getRootDirLoop_shortest (files : List String) (rootDir : String) (hroot : rootDir ≠ "")
    (hfiles : ∀ f ∈ files, filepath.Base f ≠ filepath.Dir f) :
    (getRootDirLoop files rootDir = rootDir ∧
        ∀ f ∈ files, rootDir.utf8ByteSize ≤ (filepath.Dir f).utf8ByteSize) ∨
      ∃ pre name post, files = pre ++ name :: post ∧
        (filepath.Dir name).utf8ByteSize < rootDir.utf8ByteSize ∧
        (∀ f ∈ pre, (filepath.Dir name).utf8ByteSize < (filepath.Dir f).utf8ByteSize) ∧
        (∀ f ∈ post, (filepath.Dir name).utf8ByteSize ≤ (filepath.Dir f).utf8ByteSize) ∧
        getRootDirLoop files rootDir = filepath.Dir name := by
  induction files generalizing rootDir with
  | nil => exact Or.inl ⟨rfl, by simp⟩
  | cons f rest ih =>
    have hf : filepath.Base f ≠ filepath.Dir f := hfiles f (List.mem_cons_self _ _)
    have hrest : ∀ g ∈ rest, filepath.Base g ≠ filepath.Dir g :=
      fun g hg => hfiles g (List.mem_cons_of_mem _ hg)
    simp only [getRootDirLoop, hf, if_false, hroot, false_or]
    by_cases hlt : (filepath.Dir f).utf8ByteSize < rootDir.utf8ByteSize
    · simp only [hlt, if_true]
      right
      rcases ih (filepath.Dir f) (Dir_ne_empty f) hrest with ⟨heq, hall⟩ | ⟨pre, name, post, hsplit, hless, hpre, hpost, heq⟩
      · exact ⟨[], f, rest, rfl, hlt, by simp, hall, heq⟩
      · refine ⟨f :: pre, name, post, by simp [hsplit], by omega, ?_, hpost, heq⟩
        intro g hg
        rcases List.mem_cons.mp hg with h | h
        · subst h
          exact hless
        · exact hpre g h
    · simp only [hlt, if_false]
      rcases ih rootDir hroot hrest with ⟨heq, hall⟩ | ⟨pre, name, post, hsplit, hless, hpre, hpost, heq⟩
      · left
        refine ⟨heq, ?_⟩
        intro g hg
        rcases List.mem_cons.mp hg with h | h
        · subst h
          omega
        · exact hall g h
      · right
        refine ⟨f :: pre, name, post, by simp [hsplit], hless, ?_, hpost, heq⟩
        intro g hg
        rcases List.mem_cons.mp hg with h | h
        · subst h
          omega
        · exact hpre g h

/-- C27, as stated, fails: the one entry of the archive has the empty name, whose
base equals its dir, and the result is the empty string, not the install path
joined with the name. -/
theorem getRootDir_empty_name_counterexample :
    filepath.Base "" = filepath.Dir "" ∧
      Installer.getRootDir "/opt/Elastic/Agent/data/install" (.ok [""]) = ("", none) ∧
      filepath.Join ["/opt/Elastic/Agent/data/install", ""] = "/opt/Elastic/Agent/data/install" := by
  decide

/-- C27, amended: when some entry has a name whose base equals its dir, the
result of `getRootDir` is the install path joined with the name of the first
such entry, or the empty string when that name is empty; when no entry has one
and the archive is not empty, it is the install path joined with the first
shortest dir among the entries; for an archive with no entries it is the empty
string; the error is nil in the three cases. -/
theorem getRootDir_first_root_or_shortest (installPath : String) (files : List String) :
    (∀ pre name post, files = pre ++ name :: post →
      (∀ f ∈ pre, filepath.Base f ≠ filepath.Dir f) → filepath.Base name = filepath.Dir name →
      Installer.getRootDir installPath (.ok files)
        = (if name = "" then "" else filepath.Join [installPath, name], none)) ∧
    (files ≠ [] → (∀ f ∈ files, filepath.Base f ≠ filepath.Dir f) →
      ∃ pre name post, files = pre ++ name :: post ∧
        (∀ f ∈ pre, (filepath.Dir name).utf8ByteSize < (filepath.Dir f).utf8ByteSize) ∧
        (∀ f ∈ post, (filepath.Dir name).utf8ByteSize ≤ (filepath.Dir f).utf8ByteSize) ∧
        Installer.getRootDir installPath (.ok files)
          = (filepath.Join [installPath, filepath.Dir name], none)) ∧
    Installer.getRootDir installPath (.ok []) = ("", none) := by
  refine ⟨?_, ?_, ?_⟩
  · intro pre name post hsplit hpre hname
    subst hsplit
    simp only [Installer.getRootDir, getRootDir.deferred,
      getRootDirLoop_first_root pre name post "" hpre hname]
    by_cases h : name = "" <;> simp [h]
  · intro hne hfiles
    cases files with
    | nil => exact absurd rfl hne
    | cons f rest =>
      have hf : filepath.Base f ≠ filepath.Dir f := hfiles f (List.mem_cons_self _ _)
      have hrest : ∀ g ∈ rest, filepath.Base g ≠ filepath.Dir g :=
        fun g hg => hfiles g (List.mem_cons_of_mem _ hg)
      have hloop : getRootDirLoop (f :: rest) "" = getRootDirLoop rest (filepath.Dir f) := by
        simp [getRootDirLoop, hf]
      rcases getRootDirLoop_shortest rest (filepath.Dir f) (Dir_ne_empty f) hrest with
        ⟨heq, hall⟩ | ⟨pre, name, post, hsplit, hless, hpre, hpost, heq⟩
      · refine ⟨[], f, rest, rfl, by simp, hall, ?_⟩
        simp [Installer.getRootDir, getRootDir.deferred, hloop, heq, Dir_ne_empty]
      · refine ⟨f :: pre, name, post, by simp [hsplit], ?_, hpost, ?_⟩
        · intro g hg
          rcases List.mem_cons.mp hg with h | h
          · subst h
            exact hless
          · exact hpre g h
        · simp [Installer.getRootDir, getRootDir.deferred, hloop, heq, Dir_ne_empty]
  · simp [Installer.getRootDir, getRootDir.deferred, getRootDirLoop]

theorem getRootDir_first_root_or_shortest_witness :
    (∀ f ∈ ["pkg/bin/agent"], filepath.Base f ≠ filepath.Dir f) ∧
      filepath.Base "pkg/" = filepath.Dir "pkg/" ∧
      Installer.getRootDir "/opt/install" (.ok (["pkg/bin/agent"] ++ "pkg/" :: ["pkg/README"]))
        = (if "pkg/" = "" then "" else filepath.Join ["/opt/install", "pkg/"], none) :=
  ⟨by decide, by decide,
    (getRootDir_first_root_or_shortest "/opt/install"
      (["pkg/bin/agent"] ++ "pkg/" :: ["pkg/README"])).1 ["pkg/bin/agent"] "pkg/" ["pkg/README"]
      rfl (by decide) (by decide)⟩

/-! ## The elements of a cleaned path -/

theorem elements_ne_nil (l : List Char) : filepath.elements l ≠ [] := by
  cases l with
  | nil => simp [filepath.elements]
  | cons c cs =>
    unfold filepath.elements
    split
    · simp
    · split <;> simp

theorem elements_cons_ne (c : Char) (cs : List Char) (hc : c ≠ '/') :
    filepath.elements (c :: cs)
      = match filepath.elements cs with
        | [] => [[c]]
        | e :: es => (c :: e) :: es := by
  simp [filepath.elements, hc]

theorem elements_append_sep (a b : List Char) :
    filepath.elements (a ++ '/' :: b) = filepath.elements a ++ filepath.elements b := by
  induction a with
  | nil => simp [filepath.elements]
  | cons c cs ih =>
    by_cases hc : c = '/'
    · simp [filepath.elements, hc, ih]
    · rw [List.cons_append, elements_cons_ne _ _ hc, elements_cons_ne _ _ hc, ih]
      cases hcs : filepath.elements cs with
      | nil => exact absurd hcs (elements_ne_nil cs)
      | cons e es => simp

theorem elements_no_sep (e : List Char) (h : '/' ∉ e) : filepath.elements e = [e] := by
  induction e with
  | nil => rfl
  | cons c cs ih =>
    have hc : c ≠ '/' := fun hc => h (by simp [hc])
    have hcs : '/' ∉ cs := fun hm => h (List.mem_cons_of_mem _ hm)
    simp [filepath.elements, hc, ih hcs]

theorem elements_mem_no_sep (l : List Char) : ∀ e ∈ filepath.elements l, '/' ∉ e := by
  induction l with
  | nil => simp [filepath.elements]
  | cons c cs ih =>
    by_cases hc : c = '/'
    · simp only [filepath.elements, hc, if_true]
      intro e he
      rcases List.mem_cons.mp he with h | h
      · simp [h]
      · exact ih e h
    · simp only [filepath.elements, hc, if_false]
      cases hcs : filepath.elements cs with
      | nil => exact absurd hcs (elements_ne_nil cs)
      | cons e0 es =>
        rw [hcs] at ih
        intro e he
        rcases List.mem_cons.mp he with h | h
        · subst h
          have h0 := ih e0 (List.mem_cons_self _ _)
          intro hm
          rcases List.mem_cons.mp hm with h1 | h1
          · exact hc h1.symm
          · exact h0 h1
        · exact ih e (List.mem_cons_of_mem _ h)

theorem elements_joinElements (names : List (List Char)) (hne : names ≠ [])
    (h : ∀ e ∈ names, '/' ∉ e) : filepath.elements (filepath.joinElements names) = names := by
  induction names with
  | nil => exact absurd rfl hne
  | cons e rest ih =>
    cases rest with
    | nil => simpa [filepath.joinElements] using elements_no_sep e (h e (List.mem_cons_self _ _))
    | cons e1 es =>
      have he : '/' ∉ e := h e (List.mem_cons_self _ _)
      have hrest : ∀ x ∈ e1 :: es, '/' ∉ x := fun x hx => h x (List.mem_cons_of_mem _ hx)
      simp only [filepath.joinElements]
      rw [elements_append_sep, elements_no_sep e he, ih (by simp) hrest]
      rfl

theorem okStack_mem (rooted : Bool) (stack : List (List Char)) (h : filepath.okStack rooted stack) :
    ∀ e ∈ stack, e ≠ [] ∧ e ≠ ['.'] ∧ '/' ∉ e := by
  induction stack with
  | nil => simp
  | cons top below ih =>
    obtain ⟨h1, h2, h3, _, h5⟩ := h
    intro e he
    rcases List.mem_cons.mp he with h | h
    · subst h
      exact ⟨h1, h2, h3⟩
    · exact ih h5 e h

theorem cleanStep_ok (rooted : Bool) (stack : List (List Char)) (e : List Char)
    (hs : filepath.okStack rooted stack) (he : '/' ∉ e) :
    filepath.okStack rooted (filepath.cleanStep rooted stack e) := by
  unfold filepath.cleanStep
  split
  · exact hs
  · rename_i hdrop
    have hne : e ≠ [] := fun h => hdrop (Or.inl h)
    have hdot : e ≠ ['.'] := fun h => hdrop (Or.inr h)
    split
    · rename_i hdd
      cases stack with
      | nil =>
        cases rooted with
        | true => simp [filepath.okStack]
        | false => simp [filepath.okStack, hdd]
      | cons top below =>
        obtain ⟨h1, h2, h3, h4, h5⟩ := hs
        simp only
        split
        · rename_i htop
          cases rooted with
          | true => exact ⟨h1, h2, h3, h4, h5⟩
          | false =>
            simp only [Bool.false_eq_true, if_false]
            refine ⟨hne, hdot, he, ?_, h1, h2, h3, h4, h5⟩
            intro _
            refine ⟨rfl, ?_⟩
            intro x hx
            rcases List.mem_cons.mp hx with h | h
            · exact h.trans htop
            · exact (h4 htop).2 x h
        · exact h5
    · rename_i hdd
      exact ⟨hne, hdot, he, fun h => absurd h hdd, hs⟩

theorem foldl_cleanStep_ok (rooted : Bool) (es : List (List Char)) (stack : List (List Char))
    (hs : filepath.okStack rooted stack) (hes : ∀ e ∈ es, '/' ∉ e) :
    filepath.okStack rooted (es.foldl (filepath.cleanStep rooted) stack) := by
  induction es generalizing stack with
  | nil => exact hs
  | cons e rest ih =>
    exact ih _ (cleanStep_ok rooted stack e hs (hes e (List.mem_cons_self _ _)))
      (fun x hx => hes x (List.mem_cons_of_mem _ hx))

theorem cleanStack_ok (path : List Char) :
    filepath.okStack (filepath.isRooted path) (filepath.cleanStack path) :=
  foldl_cleanStep_ok _ _ _ trivial (elements_mem_no_sep path)

theorem cleanStep_push (rooted : Bool) (top : List Char) (below : List (List Char))
    (hs : filepath.okStack rooted (top :: below)) :
    filepath.cleanStep rooted below top = top :: below := by
  obtain ⟨h1, h2, _, h4, _⟩ := hs
  unfold filepath.cleanStep
  have hdrop : ¬ (top = [] ∨ top = ['.']) := fun h => h.elim h1 h2
  simp only [hdrop, if_false]
  split
  · rename_i hdd
    obtain ⟨hr, hall⟩ := h4 hdd
    cases below with
    | nil => simp [hr, hdd]
    | cons b bs =>
      have hb : b = ['.', '.'] := hall b (List.mem_cons_self _ _)
      simp [hr, hb, hdd]
  · rfl

theorem foldl_cleanStep_reverse (rooted : Bool) (stack : List (List Char))
    (hs : filepath.okStack rooted stack) :
    stack.reverse.foldl (filepath.cleanStep rooted) [] = stack := by
  induction stack with
  | nil => rfl
  | cons top below ih =>
    rw [List.reverse_cons, List.foldl_append, ih hs.2.2.2.2]
    exact cleanStep_push rooted top below hs

theorem foldl_cleanStep_plain (rooted : Bool) (es : List (List Char)) (stack : List (List Char))
    (h : ['.', '.'] ∉ es) :
    es.foldl (filepath.cleanStep rooted) stack
      = (es.filter fun e => decide (e ≠ [] ∧ e ≠ ['.'])).reverse ++ stack := by
  induction es generalizing stack with
  | nil => rfl
  | cons e rest ih =>
    have he : e ≠ ['.', '.'] := fun hh => h (by simp [hh])
    have hrest : ['.', '.'] ∉ rest := fun hm => h (List.mem_cons_of_mem _ hm)
    rw [List.foldl_cons, ih _ hrest]
    by_cases hdrop : e = [] ∨ e = ['.']
    · have hkeep : ¬ (e ≠ [] ∧ e ≠ ['.']) := by
        rintro ⟨h1, h2⟩
        exact hdrop.elim h1 h2
      simp [filepath.cleanStep, hdrop, List.filter_cons, hkeep]
    · have hkeep : e ≠ [] ∧ e ≠ ['.'] := ⟨fun h1 => hdrop (Or.inl h1), fun h2 => hdrop (Or.inr h2)⟩
      simp [filepath.cleanStep, hdrop, he, List.filter_cons, hkeep]

theorem joinElements_ne_nil (names : List (List Char)) (hne : names ≠ [])
    (h : ∀ e ∈ names, e ≠ []) : filepath.joinElements names ≠ [] := by
  cases names with
  | nil => exact absurd rfl hne
  | cons e rest =>
    cases rest with
    | nil => simpa [filepath.joinElements] using h e (List.mem_cons_self _ _)
    | cons e1 es => simp [filepath.joinElements]

theorem isRooted_joinElements (names : List (List Char))
    (h : ∀ e ∈ names, e ≠ [] ∧ '/' ∉ e) :
    filepath.isRooted (filepath.joinElements names) = false := by
  cases names with
  | nil => rfl
  | cons e rest =>
    obtain ⟨hne, hsep⟩ := h e (List.mem_cons_self _ _)
    cases e with
    | nil => exact absurd rfl hne
    | cons c cs =>
      have hc : c ≠ '/' := fun hc => hsep (by simp [hc])
      cases rest <;> simp [filepath.joinElements, filepath.isRooted, hc]

theorem isRooted_render (rooted : Bool) (stack : List (List Char))
    (hs : filepath.okStack rooted stack) :
    filepath.isRooted (filepath.render rooted stack) = rooted := by
  cases rooted with
  | true => simp [filepath.render, filepath.isRooted]
  | false =>
    simp only [filepath.render, Bool.false_eq_true, if_false]
    split
    · rfl
    · apply isRooted_joinElements
      intro e he
      have := okStack_mem _ _ hs e (List.mem_reverse.mp he)
      exact ⟨this.1, this.2.2⟩

theorem cleanStack_render (rooted : Bool) (stack : List (List Char))
    (hs : filepath.okStack rooted stack) :
    filepath.cleanStack (filepath.render rooted stack) = stack := by
  unfold filepath.cleanStack
  rw [isRooted_render rooted stack hs]
  have hmem := okStack_mem _ _ hs
  have hsep : ∀ e ∈ stack.reverse, '/' ∉ e := fun e he => (hmem e (List.mem_reverse.mp he)).2.2
  have hnonempty : ∀ e ∈ stack.reverse, e ≠ [] := fun e he => (hmem e (List.mem_reverse.mp he)).1
  by_cases hnil : stack = []
  · subst hnil
    cases rooted <;> simp [filepath.render, filepath.joinElements, filepath.elements,
      filepath.cleanStep]
  · have hrev : stack.reverse ≠ [] := by simpa using hnil
    have hjoin := joinElements_ne_nil _ hrev hnonempty
    cases rooted with
    | true =>
      simp only [filepath.render, if_true, filepath.elements, List.foldl_cons]
      rw [elements_joinElements _ hrev hsep]
      simpa [filepath.cleanStep] using foldl_cleanStep_reverse true stack hs
    | false =>
      simp only [filepath.render, Bool.false_eq_true, if_false, hjoin]
      rw [elements_joinElements _ hrev hsep]
      exact foldl_cleanStep_reverse false stack hs

theorem isRooted_append (a b : List Char) (ha : a ≠ []) :
    filepath.isRooted (a ++ b) = filepath.isRooted a := by
  cases a with
  | nil => exact absurd rfl ha
  | cons c cs => rfl

theorem Join_pair (root name : String) (hroot : root ≠ "") :
    filepath.Join [root, name]
      = String.mk (filepath.render (filepath.isRooted root.data)
          ((filepath.elements name.data).foldl (filepath.cleanStep (filepath.isRooted root.data))
            (filepath.cleanStack root.data))) := by
  have hdata : root.data ≠ [] := fun h => hroot (String.ext h)
  simp only [filepath.Join, List.dropWhile, hroot, decide_False, filepath.Clean, List.map,
    filepath.joinElements, filepath.cleanStack]
  rw [isRooted_append _ _ hdata, elements_append_sep, List.foldl_append]

theorem within_Join (root name : String) (hroot : root ≠ "")
    (hname : ['.', '.'] ∉ filepath.elements name.data) :
    filepath.within root (filepath.Join [root, name]) = true := by
  have hok : filepath.okStack (filepath.isRooted root.data)
      ((filepath.elements name.data).foldl (filepath.cleanStep (filepath.isRooted root.data))
        (filepath.cleanStack root.data)) :=
    foldl_cleanStep_ok _ _ _ (cleanStack_ok root.data) (elements_mem_no_sep name.data)
  unfold filepath.within
  rw [Join_pair root name hroot]
  simp only [isRooted_render _ _ hok, cleanStack_render _ _ hok]
  rw [foldl_cleanStep_plain _ _ _ hname]
  have hdrop : ((filepath.cleanStack root.data).reverse
      ++ (filepath.elements name.data).filter fun e => decide (e ≠ [] ∧ e ≠ ['.'])).drop
        (filepath.cleanStack root.data).length
      = (filepath.elements name.data).filter fun e => decide (e ≠ [] ∧ e ≠ ['.']) := by
    rw [List.drop_append_of_le_length (by simp)]
    simp
  have hnot : ['.', '.'] ∉ (filepath.elements name.data).filter
      fun e => decide (e ≠ [] ∧ e ≠ ['.']) := fun hm => hname (List.mem_of_mem_filter hm)
  simp only [List.reverse_append, List.reverse_reverse, hdrop]
  simp [hname]

/-! ## C30 -/

theorem unpackFile_calls (env : UnzipEnv) (installPath : String) (f : ZipEntry)
    (calls : List UnzipCall) :
    ∃ new, (unpackFile env installPath f calls).2 = calls ++ new ∧
      ∀ c ∈ new, UnzipCall.ofEntry installPath f c := by
  unfold unpackFile
  cases f.openErr with
  | some err => exact ⟨[], by simp, by simp⟩
  | none =>
    have hbody : ∃ new, (unpackFile.body env installPath f calls).2 = calls ++ new ∧
        ∀ c ∈ new, UnzipCall.ofEntry installPath f c := by
      unfold unpackFile.body
      simp only
      by_cases hd : f.isDir = true
      · simp only [hd, if_true]
        exact ⟨[.MkdirAll (filepath.Join [installPath, f.name])
          (env.mkdirAllErr (filepath.Join [installPath, f.name]))], rfl,
          by simp [UnzipCall.ofEntry]⟩
      · simp only [hd, if_false]
        cases env.openFileErr (filepath.Join [installPath, f.name]) with
        | some err =>
          exact ⟨[.MkdirAll (filepath.Dir (filepath.Join [installPath, f.name]))
              (env.mkdirAllErr (filepath.Dir (filepath.Join [installPath, f.name]))),
            .OpenFile (filepath.Join [installPath, f.name]) (some err)], by simp,
            by simp [UnzipCall.ofEntry]⟩
        | none =>
          cases env.copyErr (filepath.Join [installPath, f.name]) with
          | some err =>
            exact ⟨[.MkdirAll (filepath.Dir (filepath.Join [installPath, f.name]))
                (env.mkdirAllErr (filepath.Dir (filepath.Join [installPath, f.name]))),
              .OpenFile (filepath.Join [installPath, f.name]) none,
              .Copy (filepath.Join [installPath, f.name]) f.content (some err)], by simp,
              by simp [UnzipCall.ofEntry]⟩
          | none =>
            exact ⟨[.MkdirAll (filepath.Dir (filepath.Join [installPath, f.name]))
                (env.mkdirAllErr (filepath.Dir (filepath.Join [installPath, f.name]))),
              .OpenFile (filepath.Join [installPath, f.name]) none,
              .Copy (filepath.Join [installPath, f.name]) f.content none], by simp,
              by simp [UnzipCall.ofEntry]⟩
    obtain ⟨new, hnew, hall⟩ := hbody
    refine ⟨new, ?_, hall⟩
    rcases hb : unpackFile.body env installPath f calls with ⟨err, calls1⟩
    rw [hb] at hnew
    cases f.closeErr <;> exact hnew

theorem unzipLoop_calls (env : UnzipEnv) (installPath : String) (files : List ZipEntry)
    (calls : List UnzipCall) :
    ∃ new, (unzipLoop env installPath files calls).2 = calls ++ new ∧
      ∀ c ∈ new, ∃ f ∈ files, UnzipCall.ofEntry installPath f c := by
  induction files generalizing calls with
  | nil => exact ⟨[], by simp [unzipLoop], by simp⟩
  | cons f rest ih =>
    obtain ⟨new, hnew, hall⟩ := unpackFile_calls env installPath f calls
    unfold unzipLoop
    rcases hu : unpackFile env installPath f calls with ⟨_ | err, calls1⟩
    · rw [hu] at hnew
      simp only at hnew
      obtain ⟨new1, hnew1, hall1⟩ := ih calls1
      refine ⟨new ++ new1, by simp only; rw [hnew1, hnew, List.append_assoc], ?_⟩
      intro c hc
      rcases List.mem_append.mp hc with h | h
      · exact ⟨f, List.mem_cons_self _ _, hall c h⟩
      · obtain ⟨g, hg, hq⟩ := hall1 c h
        exact ⟨g, List.mem_cons_of_mem _ hg, hq⟩
    · rw [hu] at hnew
      refine ⟨new, hnew, ?_⟩
      intro c hc
      exact ⟨f, List.mem_cons_self _ _, hall c hc⟩

/-- C30, as stated, fails: for the entry `../evil` and the install path
`/opt/Elastic/Agent/data/install`, `unzip` opens and writes the file
`/opt/Elastic/Agent/data/evil`, which is not within the install path. -/
theorem unzip_climbs_out_counterexample :
    filepath.Join ["/opt/Elastic/Agent/data/install", climbingEntry.name]
        = "/opt/Elastic/Agent/data/evil" ∧
      UnzipCall.Copy "/opt/Elastic/Agent/data/evil" "x" none
        ∈ (Installer.unzip okUnzipEnv "/opt/Elastic/Agent/data/install"
            (.ok [climbingEntry])).2 ∧
      filepath.within "/opt/Elastic/Agent/data/install" "/opt/Elastic/Agent/data/evil" = false := by
  decide

/-- C30, amended: when the install path is not empty and no element of the name
of any entry is `..`, every call of `unzip` that creates or writes a path either
creates the install path or belongs to an entry whose path, the install path
joined with its name, is the install path or lies within it: the call creates
or writes that path or creates its parent directory. -/
theorem unzip_paths_within (env : UnzipEnv) (installPath : String) (files : List ZipEntry)
    (hpath : installPath ≠ "")
    (hnames : ∀ f ∈ files, ['.', '.'] ∉ filepath.elements f.name.data) :
    ∀ c ∈ (Installer.unzip env installPath (.ok files)).2,
      (∃ e, c = .MkdirAll installPath e) ∨
      ∃ f ∈ files, filepath.within installPath (filepath.Join [installPath, f.name]) = true ∧
        UnzipCall.ofEntry installPath f c := by
  intro c hc
  unfold Installer.unzip at hc
  simp only at hc
  cases hm : env.mkdirAllErr installPath with
  | some err =>
    rw [hm] at hc
    left
    exact ⟨some err, by simpa using hc⟩
  | none =>
    rw [hm] at hc
    obtain ⟨new, hnew, hall⟩ := unzipLoop_calls env installPath files [.MkdirAll installPath none]
    rw [hnew] at hc
    rcases List.mem_append.mp hc with h | h
    · left
      exact ⟨none, by simpa using h⟩
    · right
      obtain ⟨f, hf, hq⟩ := hall c h
      exact ⟨f, hf, within_Join installPath f.name hpath (hnames f hf), hq⟩

theorem unzip_paths_within_witness :
    "/opt/install" ≠ "" ∧
      (∀ f ∈ [plainEntry], ['.', '.'] ∉ filepath.elements f.name.data) ∧
      ∀ c ∈ (Installer.unzip okUnzipEnv "/opt/install" (.ok [plainEntry])).2,
        (∃ e, c = .MkdirAll "/opt/install" e) ∨
        ∃ f ∈ [plainEntry],
          filepath.within "/opt/install" (filepath.Join ["/opt/install", f.name]) = true ∧
          UnzipCall.ofEntry "/opt/install" f c :=
  ⟨by decide, by decide,
    unzip_paths_within okUnzipEnv "/opt/install" [plainEntry] (by decide) (by decide)⟩

/-! ## C24 -/

/-- C24: for the home `/opt/elastic-agent-8.0.0/data/elastic-agent-aaaaaa`,
which holds the previous version `8.0.0`, the callback copies the process
directory `filebeat--8.0.0` to a directory under `/opt/elastic-agent-8.1.0`,
which is not within the new home
`/opt/elastic-agent-8.0.0/data/elastic-agent-bbbbbb`. -/
theorem shutdownCallback_home_with_version :
    shutdownCallback.run versionedHomeEnv false "/opt/elastic-agent-8.0.0/data/elastic-agent-aaaaaa"
        "8.0.0" "8.1.0" "bbbbbb"
      = (none,
          [{ source := "/opt/elastic-agent-8.0.0/data/elastic-agent-aaaaaa/run/default/filebeat--8.0.0"
             target := "/opt/elastic-agent-8.1.0/data/elastic-agent-aaaaaa/run/default/filebeat--8.1.0"
             err := none }]) ∧
      filepath.Join [filepath.Dir "/opt/elastic-agent-8.0.0/data/elastic-agent-aaaaaa",
          versionedName "bbbbbb"] = "/opt/elastic-agent-8.0.0/data/elastic-agent-bbbbbb" ∧
      filepath.within "/opt/elastic-agent-8.0.0/data/elastic-agent-bbbbbb"
          "/opt/elastic-agent-8.1.0/data/elastic-agent-aaaaaa/run/default/filebeat--8.1.0" = false := by
  decide

end ElasticAgent
